import Mathlib

/-!
# XKCD indexer / searcher: a verification development

Shallow embedding of `cmd/indexer/main.go` and `cmd/searcher/main.go`.

* Go strings are byte sequences; a byte is a natural number below 256.
* Go `int` is modelled by `Int`; the 64-bit range is stated where it matters.
* The parts of the Go standard library the programs call (`fmt.Sprintf` with
  the verb `%d`, `encoding/json`, `unicode/utf8`, `sync.WaitGroup`) are
  modelled from their documented behaviour.
-/

namespace Xkcd

/-! ## Strings and decimal formatting -/

/-- A Go string: a sequence of bytes. -/
abbrev GoString := List Nat

/-- The bytes of an ASCII literal. -/
def str (s : String) : GoString := s.data.map Char.toNat

/-- The loop of `strconv.formatBits` for base 10: digits are produced from the
least significant one and written in front of what is already there. -/
def formatBits : Nat → Nat → GoString → GoString
  | 0, u, acc => (u % 10 + 48) :: acc
  | fuel + 1, u, acc =>
    if 10 ≤ u then formatBits fuel (u / 10) ((u % 10 + 48) :: acc)
    else (u + 48) :: acc

/-- Decimal digits of an unsigned number (`strconv.FormatUint(u, 10)`). -/
def formatUint (u : Nat) : GoString := formatBits u u []

/-- Decimal representation of a signed number (`strconv.FormatInt(n, 10)`,
which is what the verb `%d` prints). -/
def formatInt (n : Int) : GoString :=
  if n < 0 then 45 :: formatUint n.natAbs else formatUint n.natAbs

/-- The fragment of `fmt.Sprintf` used by the program: literal bytes are copied,
`%d` prints the next integer operand, `%%` prints a percent sign. -/
def sprintf : GoString → List Int → GoString
  | [], _ => []
  | 37 :: 100 :: rest, a :: args => formatInt a ++ sprintf rest args
  | 37 :: 100 :: rest, [] => str "%!d(MISSING)" ++ sprintf rest []
  | 37 :: 37 :: rest, args => 37 :: sprintf rest args
  | c :: rest, args => c :: sprintf rest args

/-! ## `cmd/indexer/main.go`: constants and URL construction -/

/-- The maximum XKCD comic ID. -/
def maxID : Nat := 2962

/-- Builds the URL of the JSON description of comic `id`. -/
def makeURL (id : Int) : GoString :=
  sprintf (str "https://xkcd.com/%d/info.0.json") [id]

/-- The `for i := 1; i <= maxID; i++` loop of `main`, with the `i == 404`
guard: `fetchLoop n i` is the list of the IDs for which a goroutine is started
during the `n` iterations that begin at `i`, in the order they are started. -/
def fetchLoop : Nat → Nat → List Nat
  | 0, _ => []
  | n + 1, i => if i = 404 then fetchLoop n (i + 1) else i :: fetchLoop n (i + 1)

/-- The IDs for which `main` starts a fetch, for an upper bound `hi`. -/
def scheduledIDs (hi : Nat) : List Nat := fetchLoop hi 1

/-! ## `unicode/utf8` -/

/-- The rune `utf8.RuneError` (U+FFFD). -/
def RuneError : Nat := 0xFFFD

/-- Decodes the first UTF-8 sequence of a byte string (`utf8.DecodeRune`):
the rune and the number of bytes it takes. An empty input gives
`(RuneError, 0)`, an ill-formed or truncated sequence `(RuneError, 1)`. -/
def decodeRune : GoString → Nat × Nat
  | [] => (RuneError, 0)
  | b0 :: rest =>
    if b0 < 0x80 then (b0, 1)
    else if 0xC2 ≤ b0 ∧ b0 ≤ 0xDF then
      match rest with
      | b1 :: _ =>
        if 0x80 ≤ b1 ∧ b1 ≤ 0xBF then ((b0 % 32) * 64 + b1 % 64, 2) else (RuneError, 1)
      | [] => (RuneError, 1)
    else if 0xE0 ≤ b0 ∧ b0 ≤ 0xEF then
      match rest with
      | b1 :: b2 :: _ =>
        if (if b0 = 0xE0 then 0xA0 else 0x80) ≤ b1 ∧ b1 ≤ (if b0 = 0xED then 0x9F else 0xBF)
            ∧ 0x80 ≤ b2 ∧ b2 ≤ 0xBF then
          ((b0 % 16) * 4096 + (b1 % 64) * 64 + b2 % 64, 3)
        else (RuneError, 1)
      | _ => (RuneError, 1)
    else if 0xF0 ≤ b0 ∧ b0 ≤ 0xF4 then
      match rest with
      | b1 :: b2 :: b3 :: _ =>
        if (if b0 = 0xF0 then 0x90 else 0x80) ≤ b1 ∧ b1 ≤ (if b0 = 0xF4 then 0x8F else 0xBF)
            ∧ 0x80 ≤ b2 ∧ b2 ≤ 0xBF ∧ 0x80 ≤ b3 ∧ b3 ≤ 0xBF then
          ((b0 % 8) * 262144 + (b1 % 64) * 4096 + (b2 % 64) * 64 + b3 % 64, 4)
        else (RuneError, 1)
      | _ => (RuneError, 1)
    else (RuneError, 1)

/-- The UTF-8 encoding of a rune (`utf8.AppendRune`); surrogates and values
above U+10FFFF are encoded as `RuneError`. -/
def encodeRune (r : Nat) : GoString :=
  if r ≤ 0x7F then [r]
  else if r ≤ 0x7FF then [0xC0 + r / 64, 0x80 + r % 64]
  else if 0x10FFFF < r ∨ (0xD800 ≤ r ∧ r ≤ 0xDFFF) then [0xEF, 0xBF, 0xBD]
  else if r ≤ 0xFFFF then [0xE0 + r / 4096, 0x80 + r / 64 % 64, 0x80 + r % 64]
  else [0xF0 + r / 262144, 0x80 + r / 4096 % 64, 0x80 + r / 64 % 64, 0x80 + r % 64]

/-- Walks a byte string rune by rune, as `utf8.ValidString` does. -/
def validUTF8Loop : Nat → GoString → Bool
  | 0, s => s.isEmpty
  | fuel + 1, s =>
    match s with
    | [] => true
    | _ :: _ =>
      let (c, size) := decodeRune s
      if c = RuneError ∧ size = 1 then false else validUTF8Loop fuel (s.drop size)

/-- Whether a byte string is well-formed UTF-8 (`utf8.ValidString`). -/
def validUTF8 (s : GoString) : Bool := validUTF8Loop s.length s

/-! ## `encoding/json`: the encoder -/

/-- The digit `hex[n]` of `"0123456789abcdef"`. -/
def hexDigit (n : Nat) : Nat := if n < 10 then 48 + n else 87 + n

/-- The table `htmlSafeSet`: the ASCII bytes that a JSON string holds as they
are, with the default HTML escaping on. -/
def htmlSafe (b : Nat) : Bool :=
  0x20 ≤ b && b < 0x80 && b != 34 && b != 38 && b != 60 && b != 62 && b != 92

/-- What `appendString` writes for an ASCII byte that is not in `htmlSafeSet`. -/
def escapeByte (b : Nat) : GoString :=
  if b = 92 ∨ b = 34 then [92, b]
  else if b = 8 then [92, 98]
  else if b = 12 then [92, 102]
  else if b = 10 then [92, 110]
  else if b = 13 then [92, 114]
  else if b = 9 then [92, 116]
  else [92, 117, 48, 48, hexDigit (b / 16), hexDigit (b % 16)]

/-- The loop of `appendString`: the text written between the quotes. -/
def appendStringLoop : Nat → GoString → GoString
  | 0, _ => []
  | fuel + 1, src =>
    match src with
    | [] => []
    | b :: rest =>
      if b < 0x80 then
        if htmlSafe b then b :: appendStringLoop fuel rest
        else escapeByte b ++ appendStringLoop fuel rest
      else
        let (c, size) := decodeRune (src.take 4)
        if c = RuneError ∧ size = 1 then
          str "\\ufffd" ++ appendStringLoop fuel rest
        else if c = 0x2028 ∨ c = 0x2029 then
          str "\\u202" ++ hexDigit (c % 16) :: appendStringLoop fuel (src.drop size)
        else src.take size ++ appendStringLoop fuel (src.drop size)

/-- The JSON string literal of a Go string (`appendString` with HTML escaping,
the setting `json.Marshal` uses). -/
def appendString (src : GoString) : GoString :=
  34 :: (appendStringLoop src.length src ++ [34])

/-- The kinds of struct field the encoder is modelled for: strings, integers,
and a value of a kind `encoding/json` cannot encode (a channel, a function, a
complex number). -/
inductive GoField where
  | string (s : GoString)
  | int (n : Int)
  | unsupported (kind : String)
  deriving DecidableEq, Repr

/-- An error value. -/
structure GoError where
  msg : String
  deriving DecidableEq, Repr

/-- Encodes one field value (`reflectValue`). -/
def marshalField : GoField → Except GoError GoString
  | .string s => .ok (appendString s)
  | .int n => .ok (formatInt n)
  | .unsupported kind => .error ⟨"json: unsupported type: " ++ kind⟩

/-- Encodes the fields of a struct, the first one with a leading `{` and each
further one with a leading `,` (`structEncoder.encode`). -/
def marshalFields : List (GoString × GoField) → Nat → Except GoError GoString
  | [], _ => .ok []
  | (name, v) :: rest, next =>
    match marshalField v with
    | .error e => .error e
    | .ok enc =>
      match marshalFields rest 44 with
      | .error e => .error e
      | .ok tail => .ok (next :: (appendString name ++ 58 :: (enc ++ tail)))

/-- Encodes a struct given by its JSON field names and values (`json.Marshal`
of a struct value). -/
def jsonMarshal (fields : List (GoString × GoField)) : Except GoError GoString :=
  match fields with
  | [] => .ok [123, 125]
  | _ :: _ =>
    match marshalFields fields 123 with
    | .error e => .error e
    | .ok body => .ok (body ++ [125])

/-! ## `cmd/indexer/main.go`: documents, `Reader`, the load loop -/

/-- The JSON structure of an XKCD comic. -/
structure XKCD where
  Month : GoString
  Num : Int
  Link : GoString
  Year : GoString
  News : GoString
  SafeTitle : GoString
  Transcript : GoString
  Alt : GoString
  Img : GoString
  Title : GoString
  Day : GoString
  deriving DecidableEq, Repr

/-- The zero value of `XKCD`. -/
def XKCD.zero : XKCD := ⟨[], 0, [], [], [], [], [], [], [], [], []⟩

/-- The fields of the indexer's `XKCD` with their `json` tags, in declaration
order. -/
def XKCD.fields (x : XKCD) : List (GoString × GoField) :=
  [ (str "month", .string x.Month),
    (str "num", .int x.Num),
    (str "link", .string x.Link),
    (str "year", .string x.Year),
    (str "news", .string x.News),
    (str "safe_title", .string x.SafeTitle),
    (str "transcript", .string x.Transcript),
    (str "alt", .string x.Alt),
    (str "img", .string x.Img),
    (str "title", .string x.Title),
    (str "day", .string x.Day) ]

/-- A `bytes.Reader`: the bytes read from and the current offset. -/
structure BytesReader where
  s : GoString
  i : Nat
  deriving DecidableEq, Repr

/-- The constructor `bytes.NewReader`. -/
def NewReader (b : GoString) : BytesReader := ⟨b, 0⟩

/-- Converts the XKCD comic to a reader that can be passed to the bulk indexer. -/
def XKCD.Reader (x : XKCD) : Except GoError BytesReader :=
  match jsonMarshal x.fields with
  | .error err => .error err
  | .ok data => .ok (NewReader data)

/-- The fields of `esutil.BulkIndexerItem` that `main` sets. `Body` is an
`io.ReadSeeker`: the reader, or `none` for nil. -/
structure BulkIndexerItem where
  Action : GoString
  Index : GoString
  DocumentID : GoString
  Body : Option BytesReader
  deriving DecidableEq, Repr

/-- What the main goroutine does that can be observed from outside. -/
inductive Event where
  | info (msg : String)
  | error (msg : String) (err : GoError)
  | spawnFetches
  | waitFetches
  | closeBar
  | add (item : BulkIndexerItem)
  | close
  | stats
  deriving DecidableEq, Repr

/-- The bulk indexer item `main` builds for a document and the value of its
variable `reader`. -/
def mkItem (xkcd : XKCD) (reader : Option BytesReader) : BulkIndexerItem :=
  { Action := str "index"
    Index := str "xkcd"
    DocumentID := sprintf (str "%d") [xkcd.Num]
    Body := reader }

/-- The load loop `for _, xkcd := range data.XKCDs` as the main goroutine runs
it when it is left alone, that is, when no fetch goroutine assigns `err` between
a call of `main` and the test of its result; `stepProgram` is the loop with the
fetch goroutines beside it, and `runProgram_main_alone` relates the two. The
loop is given for a `Reader` method `reader` and a bulk indexer whose `k`-th
call of `Add` returns `add k item` (`none` for a nil error). `calls` is the
number of `Add` calls made so far. The result has one list of events per
iteration. -/
def loadLoop (reader : XKCD → Except GoError BytesReader)
    (add : Nat → BulkIndexerItem → Option GoError) :
    List XKCD → Nat → List (List Event)
  | [], _ => []
  | xkcd :: rest, calls =>
    match reader xkcd with
    | .error err =>
      [.error "unable to create reader for comic" err] :: loadLoop reader add rest calls
    | .ok r =>
      let item := mkItem xkcd (some r)
      match add calls item with
      | some err =>
        [.add item, .error "unable to add document to bulk indexer" err]
          :: loadLoop reader add rest (calls + 1)
      | none => [.add item] :: loadLoop reader add rest (calls + 1)

/-- The items passed to `indexer.Add`, in call order. -/
def addCalls (evs : List Event) : List BulkIndexerItem :=
  evs.filterMap fun e => match e with
    | .add item => some item
    | _ => none

/-- The outcomes of the calls `main` makes to the Elasticsearch client
library: the error each returns, `none` for a nil error. -/
structure World where
  newClient : Option GoError
  newBulkIndexer : Option GoError
  add : Nat → BulkIndexerItem → Option GoError
  close : Option GoError

/-- The end of `main`, from `indexer.Close` on, when the main goroutine is left
alone. -/
def closePhase (w : World) : List Event :=
  .close ::
    ((match w.close with
      | some err => [.error "unable to close indexer" err]
      | none => [])
    ++ [.info "Indexing complete", .stats, .info "bulk indexer report"])

/-- The part of `main` that follows `wg.Wait()` when the main goroutine is left
alone, for the contents `collected` of `data.XKCDs` found by the `range`
statement. -/
def loadPhase (w : World) (collected : List XKCD) : List Event :=
  .closeBar ::
    match w.newBulkIndexer with
    | some err => [.error "unable to create bulk indexer" err]
    | none =>
      .info "Indexing XKCD comics into Elasticsearch" ::
        ((loadLoop XKCD.Reader w.add collected 0).flatten ++ closePhase w)

/-- The events of the main goroutine of the indexer's `main`, for the contents
`collected` of `data.XKCDs` at the start of the load loop, when no fetch
goroutine assigns `err` between a call of `main` and the test of its result. -/
def indexerMain (w : World) (collected : List XKCD) : List Event :=
  .info "Starting XKCD comic downloader" ::
  .info "Creating an Elasticsearch client" ::
    match w.newClient with
    | some err => [.error "could not create client" err]
    | none =>
      .info "Spawning download threads" :: .spawnFetches :: .waitFetches ::
        loadPhase w collected

/-- The JSON text of a document, written out: the eleven members in declaration
order, each key followed by the JSON literal of its value. -/
def XKCD.json (x : XKCD) : GoString :=
  str "\x7b\"month\":" ++ appendString x.Month ++
  str ",\"num\":" ++ formatInt x.Num ++
  str ",\"link\":" ++ appendString x.Link ++
  str ",\"year\":" ++ appendString x.Year ++
  str ",\"news\":" ++ appendString x.News ++
  str ",\"safe_title\":" ++ appendString x.SafeTitle ++
  str ",\"transcript\":" ++ appendString x.Transcript ++
  str ",\"alt\":" ++ appendString x.Alt ++
  str ",\"img\":" ++ appendString x.Img ++
  str ",\"title\":" ++ appendString x.Title ++
  str ",\"day\":" ++ appendString x.Day ++ str "\x7d"

/-! ## `cmd/indexer/main.go`: the fetch phase, goroutine by goroutine

Every access to a variable shared between goroutines (`wg`, `err`, `data`) is
one step; an execution is a sequence of steps, each taken by the main goroutine
or by one of the goroutines it started. -/

/-- Where a fetch goroutine stands in the body of `go func(id int)`. -/
inductive TaskPc where
  | wgAdd
  | getJSON
  | checkErr
  | lock
  | append
  | unlock
  | barAdd
  | wgDone
  | finished
  deriving DecidableEq, Repr

/-- A fetch goroutine: its position and the variable `comic` of its loop
iteration. -/
structure Task where
  pc : TaskPc
  comic : XKCD
  deriving DecidableEq, Repr

/-- Where the main goroutine stands: in the `for` loop about to test
`i <= maxID`, at `wg.Wait()`, at `bar.Close()`, or in the load loop that ranges
over the slice `collected` it read from `data.XKCDs`. -/
inductive MainPc where
  | loop (i : Nat)
  | wgWait
  | barClose
  | load (collected : List XKCD)
  deriving DecidableEq, Repr

/-- Who takes a step: the main goroutine or the fetch goroutine of an ID. -/
inductive Actor where
  | main
  | task (id : Nat)
  deriving DecidableEq, Repr

/-- The shared state of the fetch phase: the counter of `wg`, the variable
`err` of `main` (which the goroutines assign), the holder of the mutex of
`data`, the slice `data.XKCDs`, and the goroutines started so far by ID. -/
structure State where
  main : MainPc
  wg : Int
  err : Option GoError
  mutex : Option Nat
  XKCDs : List XKCD
  tasks : Nat → Option Task

/-- The state when `main` enters the fetch loop: the client was created, so
`err` is nil. -/
def State.init : State :=
  { main := .loop 1, wg := 0, err := none, mutex := none, XKCDs := [], tasks := fun _ => none }

/-- Replaces the goroutine of `id`. -/
def State.setTask (s : State) (id : Nat) (t : Task) : State :=
  { s with tasks := fun j => if j = id then some t else s.tasks j }

/-- One step of the fetch phase. `GetJSON url target` is the outcome of the
call: the value left in the target and the error returned. `hi` is the loop
bound `maxID`. The result is `none` when the actor cannot move: it is blocked,
has finished or was never started. -/
def step (GetJSON : GoString → XKCD → XKCD × Option GoError) (hi : Nat) (s : State) :
    Actor → Option State
  | .main =>
    match s.main with
    | .loop i =>
      if i ≤ hi then
        if i = 404 then some { s with main := .loop (i + 1) }
        else some { s.setTask i ⟨.wgAdd, XKCD.zero⟩ with main := .loop (i + 1) }
      else some { s with main := .wgWait }
    | .wgWait => if s.wg = 0 then some { s with main := .barClose } else none
    | .barClose => some { s with main := .load s.XKCDs }
    | .load _ => none
  | .task id =>
    match s.tasks id with
    | none => none
    | some t =>
      match t.pc with
      | .wgAdd => some { s.setTask id ⟨.getJSON, t.comic⟩ with wg := s.wg + 1 }
      | .getJSON =>
        some { s.setTask id ⟨.checkErr, (GetJSON (makeURL id) t.comic).1⟩ with
                err := (GetJSON (makeURL id) t.comic).2 }
      | .checkErr =>
        if s.err ≠ none then some (s.setTask id ⟨.wgDone, t.comic⟩)
        else some (s.setTask id ⟨.lock, t.comic⟩)
      | .lock =>
        if s.mutex = none then some { s.setTask id ⟨.append, t.comic⟩ with mutex := some id }
        else none
      | .append => some { s.setTask id ⟨.unlock, t.comic⟩ with XKCDs := s.XKCDs ++ [t.comic] }
      | .unlock => some { s.setTask id ⟨.barAdd, t.comic⟩ with mutex := none }
      | .barAdd => some (s.setTask id ⟨.wgDone, t.comic⟩)
      | .wgDone => some { s.setTask id ⟨.finished, t.comic⟩ with wg := s.wg - 1 }
      | .finished => none

/-- Runs a schedule: the actors take one step each, in the order given. -/
def run (GetJSON : GoString → XKCD → XKCD × Option GoError) (hi : Nat) :
    State → List Actor → Option State
  | s, [] => some s
  | s, a :: rest =>
    match step GetJSON hi s a with
    | none => none
    | some s' => run GetJSON hi s' rest

/-- Whether the goroutine of every ID in the list has run to its end. -/
def allFinished (s : State) (ids : List Nat) : Bool :=
  ids.all fun id => match s.tasks id with
    | some t => t.pc == .finished
    | none => false

/-- The number of the IDs in the list whose goroutine has not run to its end. -/
def unfinished (s : State) (ids : List Nat) : Nat :=
  (ids.filter fun id => match s.tasks id with
    | some t => t.pc != .finished
    | none => true).length

/-- The number of scheduled IDs whose fetch fails. -/
def failedFetches (GetJSON : GoString → XKCD → XKCD × Option GoError) (ids : List Nat) : Nat :=
  (ids.filter fun (id : Nat) => (GetJSON (makeURL (id : Int)) XKCD.zero).2.isSome).length

/-- A schedule in which the goroutine of each ID in turn runs `n` steps. -/
def eachTask (n : Nat) (ids : List Nat) : List Actor :=
  ids.flatMap fun id => List.replicate n (.task id)

/-- A document with a number and a title, the rest empty. -/
def comicOf (num : Int) (title : String) : XKCD :=
  { XKCD.zero with Num := num, Title := str title }

/-- Fetch outcomes in which comic 1 is fetched and every other request fails. -/
def onlyFirstSucceeds (url : GoString) (target : XKCD) : XKCD × Option GoError :=
  if url = makeURL 1 then (comicOf 1 "Barrel - Part 1", none)
  else (target, some ⟨"dial tcp: connection refused"⟩)

/-- Fetch outcomes in which every request succeeds. -/
def allSucceed (_url : GoString) (_target : XKCD) : XKCD × Option GoError :=
  (comicOf 1 "Barrel - Part 1", none)

/-- A schedule in which goroutine 1 stores its nil error in `err`, every other
goroutine then runs from start to end, and goroutine 1 tests `err` last. -/
def raceSchedule (hi : Nat) : List Actor :=
  List.replicate (hi + 1) .main ++ [.task 1, .task 1]
    ++ eachTask 4 (fetchLoop (hi - 1) 2) ++ [.task 1, .task 1, .main, .main]

/-- A schedule in which `main` runs through the fetch loop and `wg.Wait()`
before any goroutine has called `wg.Add(1)`, and goroutine 1 then fetches and
appends its document. -/
def earlyWaitSchedule (hi : Nat) : List Actor :=
  List.replicate (hi + 1) .main ++ [.main, .main]
    ++ [.task 1, .task 1, .task 1, .task 1, .task 1]

/-- The number denoted by a sequence of ASCII digits, continuing from `a`. -/
def digitsValue (ds : GoString) (a : Nat) : Nat := ds.foldl (fun a c => a * 10 + (c - 48)) a

/-- The tasks right after the fetch loop: a goroutine at its first statement for
every scheduled ID. -/
def spawned (ids : List Nat) (old : Nat → Option Task) : Nat → Option Task :=
  fun j => if j ∈ ids then some ⟨.wgAdd, XKCD.zero⟩ else old j

/-- The state in which `main` reaches `wg.Wait()` when no goroutine has taken a
step yet. -/
def afterLoop (hi : Nat) : State :=
  { State.init with main := .wgWait, tasks := spawned (scheduledIDs hi) fun _ => none }

/-- A schedule in which the goroutines run one after the other, each from its
first statement to its last: four steps when its fetch fails, eight when it
succeeds. -/
def serialSchedule (GetJSON : GoString → XKCD → XKCD × Option GoError) (ids : List Nat) :
    List Actor :=
  ids.flatMap fun (id : Nat) =>
    List.replicate (if (GetJSON (makeURL (id : Int)) XKCD.zero).2.isSome then 4 else 8) (.task id)

/-- The documents of the scheduled IDs whose fetch succeeds, in the order of
the IDs. -/
def fetched (GetJSON : GoString → XKCD → XKCD × Option GoError) (ids : List Nat) : List XKCD :=
  (ids.filter fun (id : Nat) => (GetJSON (makeURL (id : Int)) XKCD.zero).2.isNone).map
    fun (id : Nat) => (GetJSON (makeURL (id : Int)) XKCD.zero).1

/-! ## `cmd/indexer/main.go`: the whole of `main` beside the fetch goroutines

After the fetch loop the main goroutine keeps using its variable `err`, which
the fetch goroutines assign: every call whose error it stores there and every
test of `err` is one step, and the fetch goroutines that are still running may
take steps in between. -/

/-- Where the main goroutine stands: still in the fetch phase (the loop,
`wg.Wait()`, `bar.Close()`), or at one of the statements that follow. The
positions inside the load loop carry the documents still to come, and those
after `xkcd.Reader()` the document at hand and the value of `reader`. -/
inductive LoadPc where
  | fetching
  | newBulkIndexer
  | checkIndexer
  | range
  | reader (rest : List XKCD)
  | checkReader (xkcd : XKCD) (reader : Option BytesReader) (rest : List XKCD)
  | add (xkcd : XKCD) (reader : Option BytesReader) (rest : List XKCD)
  | checkAdd (rest : List XKCD)
  | close
  | checkClose
  | report
  | returned
  deriving DecidableEq, Repr

/-- The state of the program: the shared variables and the fetch goroutines,
the position of the main goroutine, the number of calls of `indexer.Add` made,
and what the main goroutine has done so far. -/
structure Program where
  fetch : State
  pc : LoadPc
  calls : Nat
  events : List Event

/-- The state when `main` enters the fetch loop. -/
def Program.init : Program :=
  { fetch := State.init, pc := .fetching, calls := 0, events := [] }

/-- One step of the program. A fetch goroutine steps as in `step`, as long as
`main` has not returned. The main goroutine steps as in `step` up to
`bar.Close()`; from there on it stores the error of each call in `err`
(`indexer, err := ...`, `reader, err = ...`, `err = ...`) in one step and tests
`err` in the next. `reader` is the method `Reader`, `w` the outcomes of the
calls to the client library. -/
def stepProgram (GetJSON : GoString → XKCD → XKCD × Option GoError)
    (reader : XKCD → Except GoError BytesReader) (w : World) (hi : Nat) (p : Program) :
    Actor → Option Program
  | .task id =>
    if p.pc = .returned then none
    else (step GetJSON hi p.fetch (.task id)).map fun f => { p with fetch := f }
  | .main =>
    match p.pc with
    | .fetching =>
      match p.fetch.main with
      | .barClose => some { p with pc := .newBulkIndexer, events := p.events ++ [.closeBar] }
      | .load _ => none
      | _ => (step GetJSON hi p.fetch .main).map fun f => { p with fetch := f }
    | .newBulkIndexer =>
      some { p with fetch := { p.fetch with err := w.newBulkIndexer }, pc := .checkIndexer }
    | .checkIndexer =>
      match p.fetch.err with
      | some err =>
        some { p with pc := .returned
                      events := p.events ++ [.error "unable to create bulk indexer" err] }
      | none =>
        some { p with pc := .range
                      events := p.events ++ [.info "Indexing XKCD comics into Elasticsearch"] }
    | .range => some { p with pc := .reader p.fetch.XKCDs }
    | .reader [] => some { p with pc := .close }
    | .reader (xkcd :: rest) =>
      match reader xkcd with
      | .ok r =>
        some { p with fetch := { p.fetch with err := none }, pc := .checkReader xkcd (some r) rest }
      | .error err =>
        some { p with fetch := { p.fetch with err := some err }, pc := .checkReader xkcd none rest }
    | .checkReader xkcd r rest =>
      match p.fetch.err with
      | some err =>
        some { p with pc := .reader rest
                      events := p.events ++ [.error "unable to create reader for comic" err] }
      | none => some { p with pc := .add xkcd r rest }
    | .add xkcd r rest =>
      some { p with fetch := { p.fetch with err := w.add p.calls (mkItem xkcd r) }
                    pc := .checkAdd rest
                    calls := p.calls + 1
                    events := p.events ++ [.add (mkItem xkcd r)] }
    | .checkAdd rest =>
      match p.fetch.err with
      | some err =>
        some { p with pc := .reader rest
                      events := p.events ++ [.error "unable to add document to bulk indexer" err] }
      | none => some { p with pc := .reader rest }
    | .close =>
      some { p with fetch := { p.fetch with err := w.close }, pc := .checkClose
                    events := p.events ++ [.close] }
    | .checkClose =>
      match p.fetch.err with
      | some err =>
        some { p with pc := .report
                      events := p.events ++ [.error "unable to close indexer" err] }
      | none => some { p with pc := .report }
    | .report =>
      some { p with pc := .returned
                    events := p.events ++ [.info "Indexing complete", .stats,
                                           .info "bulk indexer report"] }
    | .returned => none

/-- Runs a schedule of the program. -/
def runProgram (GetJSON : GoString → XKCD → XKCD × Option GoError)
    (reader : XKCD → Except GoError BytesReader) (w : World) (hi : Nat) :
    Program → List Actor → Option Program
  | p, [] => some p
  | p, a :: rest =>
    match stepProgram GetJSON reader w hi p a with
    | none => none
    | some p' => runProgram GetJSON reader w hi p' rest

/-- A client library every call of which succeeds. -/
def allCallsSucceed : World :=
  { newClient := none, newBulkIndexer := none, add := fun _ _ => none, close := none }

/-- The document of comic 1 as `onlyFirstSucceeds` returns it. -/
def firstComic : XKCD := comicOf 1 "Barrel - Part 1"

/-- The error `onlyFirstSucceeds` returns for every other comic. -/
def refused : GoError := ⟨"dial tcp: connection refused"⟩

/-- A schedule in which goroutine 1 fetches and appends comic 1 before `main`
reaches `wg.Wait()`, `main` goes on to the load loop and calls `Reader` for
comic 1, goroutine 2 then runs up to its failed fetch, and `main` tests `err`
and runs to its end. -/
def lateFailureSchedule (hi : Nat) : List Actor :=
  List.replicate (hi + 1) .main ++ List.replicate 8 (.task 1)
    ++ List.replicate 6 .main ++ [.task 2, .task 2] ++ List.replicate 5 .main

/-! ## `encoding/json`: the decoder

`Decoder.Decode` first scans one complete JSON value, rejecting a text that is
not JSON, and then stores the value in the target; here the scan yields the
value as a tree and the store works on the tree. -/

/-- A JSON value. Strings are held decoded; a number is held as its literal. -/
inductive Json where
  | null
  | bool (b : Bool)
  | number (literal : GoString)
  | string (s : GoString)
  | array (elems : List Json)
  | object (members : List (GoString × Json))

mutual

/-- How deep the arrays and objects of a value are nested: 0 for a value that is
neither, 1 for an array or object of such values, and so on. -/
def Json.depth : Json → Nat
  | .array es => Json.depthElems es + 1
  | .object ms => Json.depthMembers ms + 1
  | _ => 0

/-- The greatest depth among the elements of an array. -/
def Json.depthElems : List Json → Nat
  | [] => 0
  | e :: es => max e.depth (Json.depthElems es)

/-- The greatest depth among the member values of an object. -/
def Json.depthMembers : List (GoString × Json) → Nat
  | [] => 0
  | (_, v) :: ms => max v.depth (Json.depthMembers ms)

end

/-- The scanner's limit on the nesting of arrays and objects: `pushParseState`
fails with "exceeded max depth" when more than this many are open. -/
def maxNestingDepth : Nat := 10000

/-- The bytes the scanner skips between tokens (`isSpace`). -/
def isSpace (c : Nat) : Bool := c = 32 || c = 9 || c = 13 || c = 10

/-- Drops leading white space. -/
def skipSpace : GoString → GoString
  | [] => []
  | c :: rest => if isSpace c then skipSpace rest else c :: rest

/-- Whether a byte is an ASCII digit. -/
def isDigit (c : Nat) : Bool := 48 ≤ c && c ≤ 57

/-- The value of a hexadecimal digit, if the byte is one. -/
def hexValue (c : Nat) : Option Nat :=
  if 48 ≤ c ∧ c ≤ 57 then some (c - 48)
  else if 97 ≤ c ∧ c ≤ 102 then some (c - 87)
  else if 65 ≤ c ∧ c ≤ 70 then some (c - 55)
  else none

/-- The states of the scanner inside a string literal: in the text, after a
backslash, and with `n` hexadecimal digits of a `\u` escape still to come. -/
inductive StrState where
  | inString
  | esc
  | hex (n : Nat)
  deriving DecidableEq, Repr

/-- Scans a string literal from behind its opening quote
(`stateInString`, `stateInStringEsc`, `stateInStringEscU...`): the text between
the quotes, still escaped, and what follows the closing quote. -/
def scanString : StrState → GoString → Option (GoString × GoString)
  | _, [] => none
  | .inString, c :: rest =>
    if c = 34 then some ([], rest)
    else if c = 92 then (scanString .esc rest).map fun p => (c :: p.1, p.2)
    else if c < 32 then none
    else (scanString .inString rest).map fun p => (c :: p.1, p.2)
  | .esc, c :: rest =>
    if c = 98 ∨ c = 102 ∨ c = 110 ∨ c = 114 ∨ c = 116 ∨ c = 92 ∨ c = 47 ∨ c = 34 then
      (scanString .inString rest).map fun p => (c :: p.1, p.2)
    else if c = 117 then (scanString (.hex 4) rest).map fun p => (c :: p.1, p.2)
    else none
  | .hex n, c :: rest =>
    match hexValue c with
    | none => none
    | some _ =>
      if n ≤ 1 then (scanString .inString rest).map fun p => (c :: p.1, p.2)
      else (scanString (.hex (n - 1)) rest).map fun p => (c :: p.1, p.2)

/-- Decodes a `\uXXXX` escape at the start of the text (`getu4`). -/
def getu4 : GoString → Option Nat
  | 92 :: 117 :: a :: b :: c :: d :: _ =>
    match hexValue a, hexValue b, hexValue c, hexValue d with
    | some a, some b, some c, some d => some (a * 4096 + b * 256 + c * 16 + d)
    | _, _, _, _ => none
  | _ => none

/-- Combines a surrogate pair (`utf16.DecodeRune`); `RuneError` if it is none. -/
def utf16DecodeRune (r1 r2 : Nat) : Nat :=
  if 0xD800 ≤ r1 ∧ r1 < 0xDC00 ∧ 0xDC00 ≤ r2 ∧ r2 < 0xE000 then
    (r1 - 0xD800) * 1024 + (r2 - 0xDC00) + 0x10000
  else RuneError

/-- The loop of `unquoteBytes`: resolves the escapes of the text between the
quotes and coerces it to well-formed UTF-8. -/
def unquoteLoop : Nat → GoString → Option GoString
  | 0, s => if s.isEmpty then some [] else none
  | fuel + 1, s =>
    match s with
    | [] => some []
    | c :: rest =>
      if c = 92 then
        match rest with
        | [] => none
        | e :: rest' =>
          if e = 34 ∨ e = 92 ∨ e = 47 ∨ e = 39 then (unquoteLoop fuel rest').map (e :: ·)
          else if e = 98 then (unquoteLoop fuel rest').map (8 :: ·)
          else if e = 102 then (unquoteLoop fuel rest').map (12 :: ·)
          else if e = 110 then (unquoteLoop fuel rest').map (10 :: ·)
          else if e = 114 then (unquoteLoop fuel rest').map (13 :: ·)
          else if e = 116 then (unquoteLoop fuel rest').map (9 :: ·)
          else if e = 117 then
            match getu4 s with
            | none => none
            | some rr =>
              if 0xD800 ≤ rr ∧ rr < 0xE000 then
                match getu4 (s.drop 6) with
                | some rr1 =>
                  if utf16DecodeRune rr rr1 ≠ RuneError then
                    (unquoteLoop fuel (s.drop 12)).map (encodeRune (utf16DecodeRune rr rr1) ++ ·)
                  else (unquoteLoop fuel (s.drop 6)).map (encodeRune RuneError ++ ·)
                | none => (unquoteLoop fuel (s.drop 6)).map (encodeRune RuneError ++ ·)
              else (unquoteLoop fuel (s.drop 6)).map (encodeRune rr ++ ·)
          else none
      else if c = 34 ∨ c < 32 then none
      else if c < 0x80 then (unquoteLoop fuel rest).map (c :: ·)
      else
        (unquoteLoop fuel (s.drop (decodeRune s).2)).map (encodeRune (decodeRune s).1 ++ ·)

/-- The Go string a scanned string literal denotes (`unquoteBytes` on the text
between the quotes). -/
def unquote (raw : GoString) : Option GoString := unquoteLoop raw.length raw

/-- Splits off the leading digits. -/
def spanDigits : GoString → GoString × GoString
  | [] => ([], [])
  | c :: rest =>
    if isDigit c then ((spanDigits rest).1.cons c, (spanDigits rest).2) else ([], c :: rest)

/-- Scans a number literal (`state1`, `state0`, `stateDot`, `stateE`, ...):
an optional minus sign, `0` or a digit from 1 to 9 followed by digits, an
optional fraction and an optional exponent, each with at least one digit. -/
def scanNumber (s : GoString) : Option (GoString × GoString) :=
  let (sign, s1) := match s with
    | 45 :: r => ([45], r)
    | r => ([], r)
  match s1 with
  | [] => none
  | d :: r =>
    if ¬ isDigit d then none
    else
      let (intPart, s2) := if d = 48 then ([48], r) else (d :: (spanDigits r).1, (spanDigits r).2)
      let frac : Option (GoString × GoString) := match s2 with
        | 46 :: r2 =>
          if (spanDigits r2).1.isEmpty then none
          else some (46 :: (spanDigits r2).1, (spanDigits r2).2)
        | r2 => some ([], r2)
      match frac with
      | none => none
      | some (fracPart, s3) =>
        let exp : Option (GoString × GoString) := match s3 with
          | e :: r3 =>
            if e = 101 ∨ e = 69 then
              let (esign, r4) := match r3 with
                | 43 :: r4 => ([43], r4)
                | 45 :: r4 => ([45], r4)
                | r4 => ([], r4)
              if (spanDigits r4).1.isEmpty then none
              else some (e :: (esign ++ (spanDigits r4).1), (spanDigits r4).2)
            else some ([], e :: r3)
          | [] => some ([], [])
        match exp with
        | none => none
        | some (expPart, s4) => some (sign ++ intPart ++ fracPart ++ expPart, s4)

/-- Removes the bytes of `lit` from the front of `s`, if they are there. -/
def stripLiteral : GoString → GoString → Option GoString
  | [], s => some s
  | _ :: _, [] => none
  | c :: lit, d :: s => if c = d then stripLiteral lit s else none

mutual

/-- Scans one JSON value, skipping the white space in front of it: the value
and the text behind it, or `none` if the text does not start with a JSON value.
The fuel bounds the number of nested calls. -/
def parseValue : Nat → GoString → Option (Json × GoString)
  | 0, _ => none
  | fuel + 1, s =>
    match skipSpace s with
    | [] => none
    | c :: rest =>
      if c = 123 then
        match skipSpace rest with
        | 125 :: r => some (.object [], r)
        | r => parseMembers fuel r []
      else if c = 91 then
        match skipSpace rest with
        | 93 :: r => some (.array [], r)
        | r => parseElements fuel r []
      else if c = 34 then
        match scanString .inString rest with
        | none => none
        | some (raw, r) => (unquote raw).map fun t => (.string t, r)
      else if c = 116 then (stripLiteral (str "rue") rest).map fun r => (.bool true, r)
      else if c = 102 then (stripLiteral (str "alse") rest).map fun r => (.bool false, r)
      else if c = 110 then (stripLiteral (str "ull") rest).map fun r => (.null, r)
      else if c = 45 ∨ isDigit c then
        (scanNumber (c :: rest)).map fun p => (.number p.1, p.2)
      else none

/-- Scans the elements of an array from its first element on; `acc` holds the
elements already read. -/
def parseElements : Nat → GoString → List Json → Option (Json × GoString)
  | 0, _, _ => none
  | fuel + 1, s, acc =>
    match parseValue fuel s with
    | none => none
    | some (v, r) =>
      match skipSpace r with
      | 44 :: r' => parseElements fuel r' (acc ++ [v])
      | 93 :: r' => some (.array (acc ++ [v]), r')
      | _ => none

/-- Scans the members of an object from the opening quote of a key on; `acc`
holds the members already read. -/
def parseMembers : Nat → GoString → List (GoString × Json) → Option (Json × GoString)
  | 0, _, _ => none
  | fuel + 1, s, acc =>
    match s with
    | 34 :: rest =>
      match scanString .inString rest with
      | none => none
      | some (raw, r) =>
        match unquote raw with
        | none => none
        | some key =>
          match skipSpace r with
          | 58 :: r1 =>
            match parseValue fuel r1 with
            | none => none
            | some (v, r2) =>
              match skipSpace r2 with
              | 44 :: r3 => parseMembers fuel (skipSpace r3) (acc ++ [(key, v)])
              | 125 :: r3 => some (.object (acc ++ [(key, v)]), r3)
              | _ => none
          | _ => none
    | _ => none

end

/-- Reads the first JSON value of a text (`Decoder.readValue`): what follows the
value is left unread, and a value nested deeper than `maxNestingDepth` is
refused. The fuel is enough for every text (`parseValue_enough_fuel`). -/
def readValue (body : GoString) : Option Json :=
  match parseValue (2 * body.length + 2) body with
  | some (j, _) => if j.depth ≤ maxNestingDepth then some j else none
  | none => none

/-! ## `encoding/json`: storing a value in a Go variable -/

/-- The first error met while storing is kept (`decodeState.saveError`). -/
def saveError (saved : Option GoError) (e : GoError) : Option GoError :=
  match saved with
  | some first => some first
  | none => some e

/-- The name `UnmarshalTypeError` gives to the kind of a JSON value. -/
def Json.kind : Json → String
  | .null => "null"
  | .bool _ => "bool"
  | .number _ => "number"
  | .string _ => "string"
  | .array _ => "array"
  | .object _ => "object"

/-- An `UnmarshalTypeError`: a JSON value that does not fit the Go type. The
text kept here names the kind of the value and the Go type; the literal of a
number and the struct field, which `Error()` prints as well, are left out. -/
def typeError (value typ : String) : GoError :=
  ⟨"json: cannot unmarshal " ++ value ++ " into Go value of type " ++ typ⟩

/-- Storing a JSON value in a Go variable of type `α`: from the value of the
variable and the error saved so far to the new value and saved error. The
decoder goes on after a value that does not fit and returns the saved error
when it is done. -/
abbrev Store (α : Type) := Json → α × Option GoError → α × Option GoError

/-- The integer a literal denotes (`strconv.ParseInt(s, 10, 64)`): an optional
sign and digits, within 64 bits. -/
def parseInt64 (lit : GoString) : Option Int :=
  match lit with
  | 45 :: ds =>
    if ds ≠ [] ∧ ds.all isDigit ∧ digitsValue ds 0 ≤ 2 ^ 63 then some (-(digitsValue ds 0 : Int))
    else none
  | 43 :: ds =>
    if ds ≠ [] ∧ ds.all isDigit ∧ digitsValue ds 0 < 2 ^ 63 then some (digitsValue ds 0 : Int)
    else none
  | ds =>
    if ds ≠ [] ∧ ds.all isDigit ∧ digitsValue ds 0 < 2 ^ 63 then some (digitsValue ds 0 : Int)
    else none

/-- A `float64` read from JSON, held as the literal it was read from; the zero
value is the empty literal. The rounding of `strconv.ParseFloat` is not
modelled, its range check is. -/
structure Float64 where
  literal : GoString
  deriving DecidableEq, Repr

/-- The magnitude of a number literal as `mantissa * 10 ^ exponent`. -/
def decimalOf (lit : GoString) : Nat × Int :=
  let s := match lit with
    | 45 :: r => r
    | r => r
  let ip := (spanDigits s).1
  let s2 := (spanDigits s).2
  let fp := match s2 with
    | 46 :: r => (spanDigits r).1
    | _ => []
  let s3 := match s2 with
    | 46 :: r => (spanDigits r).2
    | r => r
  let e : Int := match s3 with
    | _ :: 45 :: r => -(digitsValue (spanDigits r).1 0 : Int)
    | _ :: 43 :: r => (digitsValue (spanDigits r).1 0 : Int)
    | _ :: r => (digitsValue (spanDigits r).1 0 : Int)
    | [] => 0
  (digitsValue (ip ++ fp) 0, e - fp.length)

/-- Whether a number literal is too large for a `float64`: at least
`2^1024 - 2^970`, which rounds to infinity (`strconv.ErrRange`). -/
def float64Overflows (lit : GoString) : Bool :=
  let m := (decimalOf lit).1
  let e := (decimalOf lit).2
  if 0 ≤ e then 2 ^ 1024 - 2 ^ 970 ≤ m * 10 ^ e.toNat
  else (2 ^ 1024 - 2 ^ 970) * 10 ^ (-e).toNat ≤ m

/-- Stores into a `string` (`literalStore`): `null` leaves it as it is. -/
def storeString : Store GoString := fun j st =>
  match j with
  | .null => st
  | .string s => (s, st.2)
  | j => (st.1, saveError st.2 (typeError j.kind "string"))

/-- Stores into an `int` or `int64`. -/
def storeInt (typ : String) : Store Int := fun j st =>
  match j with
  | .null => st
  | .number lit =>
    match parseInt64 lit with
    | some n => (n, st.2)
    | none => (st.1, saveError st.2 (typeError "number" typ))
  | j => (st.1, saveError st.2 (typeError j.kind typ))

/-- Stores into a `float64`. -/
def storeFloat64 : Store Float64 := fun j st =>
  match j with
  | .null => st
  | .number lit =>
    if float64Overflows lit then (st.1, saveError st.2 (typeError "number" "float64"))
    else (⟨lit⟩, st.2)
  | j => (st.1, saveError st.2 (typeError j.kind "float64"))

/-- Stores into a `bool`. -/
def storeBool : Store Bool := fun j st =>
  match j with
  | .null => st
  | .bool b => (b, st.2)
  | j => (st.1, saveError st.2 (typeError j.kind "bool"))

/-- Stores the elements of a JSON array one by one: the element at an index the
slice already has is stored into, a further one starts from the zero value. -/
def storeElems {α : Type} (elem : Store α) (zero : α) :
    List Json → List α → Option GoError → List α × Option GoError
  | [], _, saved => ([], saved)
  | e :: es, old, saved =>
    ((elem e (old.headD zero, saved)).1
        :: (storeElems elem zero es old.tail (elem e (old.headD zero, saved)).2).1,
      (storeElems elem zero es old.tail (elem e (old.headD zero, saved)).2).2)

/-- Stores into a slice (`decodeState.array`): `null` makes it nil, an array
gives it the length of the array. -/
def storeSlice {α : Type} (elem : Store α) (zero : α) (typ : String) : Store (List α) :=
  fun j st =>
    match j with
    | .null => ([], st.2)
    | .array es => storeElems elem zero es st.1 st.2
    | j => (st.1, saveError st.2 (typeError j.kind typ))

/-- A field of a struct: its JSON name and how a value is stored into it. -/
structure Field (σ : Type) where
  name : GoString
  store : Store σ

/-- The field of `σ` with the tag `name`, read by `get`, written by `set` and of
a type into which `inner` stores. -/
def mkField {σ α : Type} (name : String) (get : σ → α) (set : σ → α → σ) (inner : Store α) :
    Field σ :=
  { name := str name
    store := fun j st => (set st.1 (inner j (get st.1, st.2)).1, (inner j (get st.1, st.2)).2) }

/-- The rune a rune folds to (`foldRune`), for what concerns a comparison with
an ASCII name: the long s folds with `S` and the Kelvin sign with `K`; every
other rune outside ASCII folds to a rune outside ASCII and is kept. -/
def foldRune (r : Nat) : Nat := if r = 0x17F then 83 else if r = 0x212A then 75 else r

/-- The loop of `appendFoldedName`. -/
def foldNameLoop : Nat → GoString → GoString
  | 0, _ => []
  | fuel + 1, s =>
    match s with
    | [] => []
    | c :: rest =>
      if c < 0x80 then (if 97 ≤ c ∧ c ≤ 122 then c - 32 else c) :: foldNameLoop fuel rest
      else encodeRune (foldRune (decodeRune s).1) ++ foldNameLoop fuel (s.drop (decodeRune s).2)

/-- The case-folded form of a name (`foldName`). -/
def foldName (name : GoString) : GoString := foldNameLoop name.length name

/-- The field a key stands for: the one with exactly that name, else the first
one whose name is the same up to case. -/
def findField {σ : Type} (fields : List (Field σ)) (key : GoString) : Option (Field σ) :=
  match fields.find? fun f => f.name == key with
  | some f => some f
  | none => fields.find? fun f => foldName f.name == foldName key

/-- Stores into a struct (`decodeState.object`): `null` leaves it as it is; the
members of an object are stored in the order they come, each into the field its
key stands for, and a member with an unknown key is skipped. -/
def storeStruct {σ : Type} (fields : List (Field σ)) (typ : String) : Store σ := fun j st =>
  match j with
  | .null => st
  | .object members =>
    members.foldl (fun st m =>
      match findField fields m.1 with
      | some f => f.store m.2 st
      | none => st) st
  | j => (st.1, saveError st.2 (typeError j.kind typ))

/-- The method `Decoder.Decode` on a reader over `body`: the target afterwards
and the error returned. A text that does not start with a JSON value gives a
`SyntaxError`, `io.EOF` or `io.ErrUnexpectedEOF`; these are one error here, and
its text is not that of the Go errors. -/
def Decode {α : Type} (store : Store α) (body : GoString) (target : α) : α × Option GoError :=
  match readValue body with
  | none => (target, some ⟨"json: the input is not a JSON value"⟩)
  | some j => store j (target, none)

/-! ## `cmd/searcher/main.go` -/

namespace Searcher

/-- The searcher's struct for an XKCD comic. -/
structure XKCD where
  Month : GoString
  Num : Int
  Link : GoString
  Year : GoString
  News : GoString
  SafeTitle : GoString
  Transcript : GoString
  Alt : GoString
  Img : GoString
  Title : GoString
  Day : GoString
  deriving DecidableEq, Repr

/-- The zero value of the searcher's `XKCD`. -/
def XKCD.zero : XKCD := ⟨[], 0, [], [], [], [], [], [], [], [], []⟩

/-- The fields of the searcher's `XKCD` with their `json` tags. -/
def XKCD.fields : List (Field XKCD) :=
  [ mkField "month" (·.Month) (fun x v => { x with Month := v }) storeString,
    mkField "num" (·.Num) (fun x v => { x with Num := v }) (storeInt "int"),
    mkField "link" (·.Link) (fun x v => { x with Link := v }) storeString,
    mkField "year" (·.Year) (fun x v => { x with Year := v }) storeString,
    mkField "news" (·.News) (fun x v => { x with News := v }) storeString,
    mkField "safe_title" (·.SafeTitle) (fun x v => { x with SafeTitle := v }) storeString,
    mkField "transcript" (·.Transcript) (fun x v => { x with Transcript := v }) storeString,
    mkField "alt" (·.Alt) (fun x v => { x with Alt := v }) storeString,
    mkField "img" (·.Img) (fun x v => { x with Img := v }) storeString,
    mkField "title" (·.Title) (fun x v => { x with Title := v }) storeString,
    mkField "day" (·.Day) (fun x v => { x with Day := v }) storeString ]

/-- Stores a JSON value into the searcher's `XKCD`. -/
def XKCD.store : Store XKCD := storeStruct XKCD.fields "main.XKCD"

/-- Shard accounting of a response. -/
structure Shards where
  Failed : Int
  Skipped : Int
  Successful : Int
  Total : Int
  deriving DecidableEq, Repr

/-- The fields of `Shards` with their `json` tags. -/
def Shards.fields : List (Field Shards) :=
  [ mkField "failed" (·.Failed) (fun x v => { x with Failed := v }) (storeInt "int64"),
    mkField "skipped" (·.Skipped) (fun x v => { x with Skipped := v }) (storeInt "int64"),
    mkField "successful" (·.Successful) (fun x v => { x with Successful := v })
      (storeInt "int64"),
    mkField "total" (·.Total) (fun x v => { x with Total := v }) (storeInt "int64") ]

/-- The total count of a response with its relation. -/
structure Total where
  Relation : GoString
  Value : Float64
  deriving DecidableEq, Repr

/-- The fields of `Total` with their `json` tags. -/
def Total.fields : List (Field Total) :=
  [ mkField "relation" (·.Relation) (fun x v => { x with Relation := v }) storeString,
    mkField "value" (·.Value) (fun x v => { x with Value := v }) storeFloat64 ]

/-- One hit of a response. -/
structure Hit where
  ID : GoString
  Index : GoString
  Score : Float64
  Source : XKCD
  deriving DecidableEq, Repr

/-- The zero value of `Hit`. -/
def Hit.zero : Hit := ⟨[], [], ⟨[]⟩, XKCD.zero⟩

/-- The fields of `Hit` with their `json` tags. -/
def Hit.fields : List (Field Hit) :=
  [ mkField "_id" (·.ID) (fun x v => { x with ID := v }) storeString,
    mkField "_index" (·.Index) (fun x v => { x with Index := v }) storeString,
    mkField "_score" (·.Score) (fun x v => { x with Score := v }) storeFloat64,
    mkField "_source" (·.Source) (fun x v => { x with Source := v }) XKCD.store ]

/-- The hits section of a response. -/
structure HitsHigh where
  Hits : List Hit
  MaxScore : Float64
  Total : Total
  deriving DecidableEq, Repr

/-- The fields of `HitsHigh` with their `json` tags. -/
def HitsHigh.fields : List (Field HitsHigh) :=
  [ mkField "hits" (·.Hits) (fun x v => { x with Hits := v })
      (storeSlice (storeStruct Hit.fields "main.Hit") Hit.zero "[]main.Hit"),
    mkField "max_score" (·.MaxScore) (fun x v => { x with MaxScore := v }) storeFloat64,
    mkField "total" (·.Total) (fun x v => { x with Total := v })
      (storeStruct Total.fields "main.Total") ]

/-- The response of an Elasticsearch query. -/
structure ElasticSearchResponse where
  Shards : Shards
  Hits : HitsHigh
  TimedOut : Bool
  Took : Float64
  deriving DecidableEq, Repr

/-- The zero value of `ElasticSearchResponse`, which `var data` holds. -/
def ElasticSearchResponse.zero : ElasticSearchResponse :=
  ⟨⟨0, 0, 0, 0⟩, ⟨[], ⟨[]⟩, ⟨[], ⟨[]⟩⟩⟩, false, ⟨[]⟩⟩

/-- The fields of `ElasticSearchResponse` with their `json` tags. -/
def ElasticSearchResponse.fields : List (Field ElasticSearchResponse) :=
  [ mkField "_shards" (·.Shards) (fun x v => { x with Shards := v })
      (storeStruct Shards.fields "main.Shards"),
    mkField "hits" (·.Hits) (fun x v => { x with Hits := v })
      (storeStruct HitsHigh.fields "main.HitsHigh"),
    mkField "timed_out" (·.TimedOut) (fun x v => { x with TimedOut := v }) storeBool,
    mkField "took" (·.Took) (fun x v => { x with Took := v }) storeFloat64 ]

/-- Stores a JSON value into an `ElasticSearchResponse`. -/
def ElasticSearchResponse.store : Store ElasticSearchResponse :=
  storeStruct ElasticSearchResponse.fields "main.ElasticSearchResponse"

/-- An attribute of a log record. -/
inductive Attr where
  | text (s : GoString)
  | float (f : Float64)
  | int (n : Int)
  | err (e : GoError)
  deriving DecidableEq, Repr

/-- A log record of the searcher: level, message, attribute. -/
inductive Record where
  | info (msg : String) (attr : Option Attr)
  | error (msg : String) (attr : Option Attr)
  deriving DecidableEq, Repr

/-- What `main` logs for one hit. -/
def reportHit (hit : Hit) : List Record :=
  [ .info "////////////////////////////////////////////////////////////////////////////////////////////////" none,
    .info "\tID" (some (.text hit.ID)),
    .info "\tScore" (some (.float hit.Score)),
    .info "\tAlt" (some (.text hit.Source.Alt)),
    .info "\tDay" (some (.text hit.Source.Day)),
    .info "\tNews" (some (.text hit.Source.News)),
    .info "\tNum" (some (.int hit.Source.Num)),
    .info "\tTitle" (some (.text hit.Source.Title)) ]

/-- The end of the searcher's `main`, from `var data ElasticSearchResponse` on,
for the body of the response: the decode step and the report. -/
def decodeAndReport (body : GoString) : List Record :=
  match (Decode ElasticSearchResponse.store body ElasticSearchResponse.zero).2 with
  | some err => [.error "unable to decode response" (some (.err err))]
  | none =>
    .info "Results found"
        (some (.float
          (Decode ElasticSearchResponse.store body ElasticSearchResponse.zero).1.Hits.Total.Value))
      :: (Decode ElasticSearchResponse.store body
            ElasticSearchResponse.zero).1.Hits.Hits.flatMap reportHit

end Searcher

/-- The text of an object member with a string value, followed by `rest`. -/
def strMember (key v rest : GoString) : GoString :=
  34 :: (key ++ 34 :: 58 :: (appendString v ++ rest))

/-- The text of an object member with an integer value, followed by `rest`. -/
def intMember (key : GoString) (n : Int) (rest : GoString) : GoString :=
  34 :: (key ++ 34 :: 58 :: (formatInt n ++ rest))

/-- Whether the ten strings of a document are well-formed UTF-8. -/
def XKCD.validUTF8 (x : XKCD) : Bool :=
  Xkcd.validUTF8 x.Month && Xkcd.validUTF8 x.Link && Xkcd.validUTF8 x.Year
    && Xkcd.validUTF8 x.News && Xkcd.validUTF8 x.SafeTitle && Xkcd.validUTF8 x.Transcript
    && Xkcd.validUTF8 x.Alt && Xkcd.validUTF8 x.Img && Xkcd.validUTF8 x.Title
    && Xkcd.validUTF8 x.Day

/-- The searcher's document with the same eleven field values. -/
def XKCD.toSearcher (x : XKCD) : Searcher.XKCD :=
  { Month := x.Month, Num := x.Num, Link := x.Link, Year := x.Year, News := x.News,
    SafeTitle := x.SafeTitle, Transcript := x.Transcript, Alt := x.Alt, Img := x.Img,
    Title := x.Title, Day := x.Day }

/-- The JSON value the text of a document denotes. -/
def XKCD.jsonValue (x : XKCD) : Json :=
  .object
    [ (str "month", .string x.Month),
      (str "num", .number (formatInt x.Num)),
      (str "link", .string x.Link),
      (str "year", .string x.Year),
      (str "news", .string x.News),
      (str "safe_title", .string x.SafeTitle),
      (str "transcript", .string x.Transcript),
      (str "alt", .string x.Alt),
      (str "img", .string x.Img),
      (str "title", .string x.Title),
      (str "day", .string x.Day) ]

/-- A document whose title is the single byte `0xff`, which is not UTF-8. -/
def invalidTitle : XKCD := { XKCD.zero with Num := 1, Title := [0xff] }

/-! ## Malformed fields of a search response -/

/-- The values an object gives to the field with the tag `tag` of a struct with
the fields `fields`: the values of the members whose key stands for that field
as `findField` has it (the key is the tag, or it is the tag up to case and no
field has exactly that key). None for a value that is not an object. -/
def Json.valuesFor {σ : Type} (fields : List (Field σ)) (j : Json) (tag : String) : List Json :=
  match j with
  | .object ms =>
    (ms.filter fun m =>
      match findField fields m.1 with
      | some f => f.name == str tag
      | none => false).map (·.2)
  | _ => []

/-- The elements of an array; none for a value that is not an array. -/
def Json.elems : Json → List Json
  | .array es => es
  | _ => []

/-- Whether a value is `null` or an object. -/
def Json.fitsObject : Json → Bool
  | .null => true
  | .object _ => true
  | _ => false

/-- Whether a value is `null` or an array. -/
def Json.fitsArray : Json → Bool
  | .null => true
  | .array _ => true
  | _ => false

/-- Whether a value is `null` or a string. -/
def Json.fitsString : Json → Bool
  | .null => true
  | .string _ => true
  | _ => false

/-- Whether a value is `null`, `true` or `false`. -/
def Json.fitsBool : Json → Bool
  | .null => true
  | .bool _ => true
  | _ => false

/-- Whether a value is `null` or a number that is an integer of 64 bits. -/
def Json.fitsInt : Json → Bool
  | .null => true
  | .number lit => (parseInt64 lit).isSome
  | _ => false

/-- Whether a value is `null` or a number within the range of `float64`. -/
def Json.fitsFloat : Json → Bool
  | .null => true
  | .number lit => !float64Overflows lit
  | _ => false

/-- The tags of the string fields of a document. -/
def stringTags : List String :=
  ["month", "link", "year", "news", "safe_title", "transcript", "alt", "img", "title", "day"]

/-- The tags of the counters of `_shards`. -/
def counterTags : List String := ["failed", "skipped", "successful", "total"]

/-- An embedded document with a malformed field: it is not an object, or one of
its text fields is present and not a string, or `num` is present and not an
integer. -/
def malformedDocument (src : Json) : Bool :=
  !src.fitsObject
    || stringTags.any (fun tag =>
        (src.valuesFor Searcher.XKCD.fields tag).any fun v => !v.fitsString)
    || (src.valuesFor Searcher.XKCD.fields "num").any fun v => !v.fitsInt

/-- A malformed `total`: it is not an object, or `relation` is present and not a
string, or `value` is present and not a number. -/
def malformedTotal (total : Json) : Bool :=
  !total.fitsObject
    || (total.valuesFor Searcher.Total.fields "relation").any (fun v => !v.fitsString)
    || (total.valuesFor Searcher.Total.fields "value").any fun v => !v.fitsFloat

/-- A hit with a malformed field: it is not an object, or `_id` or `_index` is
present and not a string, `_score` present and not a number, or `_source`
present and malformed. -/
def malformedHit (hit : Json) : Bool :=
  !hit.fitsObject
    || (hit.valuesFor Searcher.Hit.fields "_id").any (fun v => !v.fitsString)
    || (hit.valuesFor Searcher.Hit.fields "_index").any (fun v => !v.fitsString)
    || (hit.valuesFor Searcher.Hit.fields "_score").any (fun v => !v.fitsFloat)
    || (hit.valuesFor Searcher.Hit.fields "_source").any malformedDocument

/-- A malformed `hits` section: it is not an object, or `total` is present and
malformed, `max_score` present and not a number, or `hits` present and not an
array or with a malformed hit in it. -/
def malformedHits (hits : Json) : Bool :=
  !hits.fitsObject
    || (hits.valuesFor Searcher.HitsHigh.fields "total").any malformedTotal
    || (hits.valuesFor Searcher.HitsHigh.fields "max_score").any (fun v => !v.fitsFloat)
    || (hits.valuesFor Searcher.HitsHigh.fields "hits").any fun v =>
        !v.fitsArray || v.elems.any malformedHit

/-- A malformed `_shards` section: it is not an object, or one of its counters
is present and not an integer. -/
def malformedShards (shards : Json) : Bool :=
  !shards.fitsObject
    || counterTags.any fun tag =>
        (shards.valuesFor Searcher.Shards.fields tag).any fun v => !v.fitsInt

/-- A response with a malformed field at some level: it is not an object, or
`_shards` or `hits` is present and malformed, `timed_out` present and not a
boolean, or `took` present and not a number. -/
def malformedEnvelope (j : Json) : Bool :=
  !j.fitsObject
    || (j.valuesFor Searcher.ElasticSearchResponse.fields "_shards").any malformedShards
    || (j.valuesFor Searcher.ElasticSearchResponse.fields "hits").any malformedHits
    || (j.valuesFor Searcher.ElasticSearchResponse.fields "timed_out").any
        (fun v => !v.fitsBool)
    || (j.valuesFor Searcher.ElasticSearchResponse.fields "took").any fun v => !v.fitsFloat

/-- A body the decode step cannot accept: it does not start with a JSON value,
or the JSON value it starts with has a malformed nested field. Only that first
value counts: `Decoder.Decode` reads one value and leaves what follows it
unread, so a well-formed value followed by other text is not such a body. -/
def malformedBody (body : GoString) : Bool :=
  match readValue body with
  | none => true
  | some j => malformedEnvelope j

/-- A store that never clears the saved error. -/
def Keeps {α : Type} (d : Store α) : Prop := ∀ j st, st.2.isSome = true → (d j st).2.isSome = true

/-- A value the store answers with an error, whatever the target holds. -/
def Fails {α : Type} (d : Store α) (j : Json) : Prop := ∀ st, (d j st).2.isSome = true

/-- A response whose only hit has a `_source` with a string for `num`. -/
def mistypedNumBody : GoString :=
  str "\x7b\"hits\":\x7b\"hits\":[\x7b\"_id\":\"7\",\"_source\":\x7b\"num\":\"seven\"\x7d\x7d]\x7d\x7d"

/-- A response whose `HITS` member, which stands for the field `hits`, gives the
string `many` for the `Value` of `total`. -/
def mistypedTotalBody : GoString :=
  str "\x7b\"HITS\":\x7b\"total\":\x7b\"Value\":\"many\"\x7d\x7d\x7d"

/-- A response that is the empty object followed by text that is not JSON. -/
def trailingTextBody : GoString := str "\x7b\x7d this is not JSON"

/-- A response that is the empty object. -/
def emptyObjectBody : GoString := str "\x7b\x7d"

/-- A response whose only hit is the empty object. -/
def emptyHitBody : GoString := str "\x7b\"hits\":\x7b\"hits\":[\x7b\x7d]\x7d\x7d"

/-- A value the store takes without an error, whatever the target holds. -/
def Accepts {α : Type} (d : Store α) (j : Json) : Prop := ∀ st, st.2 = none → (d j st).2 = none

/-! # Theorems -/

/-! ## The fetch loop -/

theorem mem_fetchLoop (n s i : Nat) :
    i ∈ fetchLoop n s ↔ (s ≤ i ∧ i < s + n ∧ i ≠ 404) := by
  induction n generalizing s with
  | zero => simp [fetchLoop]; omega
  | succ n ih =>
    unfold fetchLoop
    split
    · rw [ih]; omega
    · rw [List.mem_cons, ih]; omega

theorem fetchLoop_nodup (n s : Nat) : (fetchLoop n s).Nodup := by
  induction n generalizing s with
  | zero => simp [fetchLoop]
  | succ n ih =>
    unfold fetchLoop
    split
    · exact ih _
    · refine List.nodup_cons.mpr ⟨?_, ih _⟩
      rw [mem_fetchLoop]; omega

theorem length_fetchLoop (n s : Nat) :
    (fetchLoop n s).length = if s ≤ 404 ∧ 404 < s + n then n - 1 else n := by
  induction n generalizing s with
  | zero => simp [fetchLoop]
  | succ n ih =>
    unfold fetchLoop
    split
    · rw [ih]; split <;> split <;> omega
    · rw [List.length_cons, ih]; split <;> split <;> omega

theorem length_scheduledIDs_maxID : (scheduledIDs maxID).length = 2961 := by
  unfold scheduledIDs; rw [length_fetchLoop]; simp [maxID]

/-- C2: the fetch loop starts a fetch for exactly the IDs `1..maxID` other than
404, each once, which makes `maxID - 1 = 2961` tasks. -/
theorem C2_fetch_loop_schedules_all_but_404 :
    (∀ i : Nat, i ∈ scheduledIDs maxID ↔ (1 ≤ i ∧ i ≤ maxID ∧ i ≠ 404)) ∧
    404 ∉ scheduledIDs maxID ∧
    (scheduledIDs maxID).Nodup ∧
    (scheduledIDs maxID).length = maxID - 1 ∧
    (scheduledIDs 2962).length = 2961 := by
  refine ⟨fun i => ?_, ?_, fetchLoop_nodup _ _, ?_, ?_⟩
  · unfold scheduledIDs; rw [mem_fetchLoop]; omega
  · unfold scheduledIDs; rw [mem_fetchLoop]; omega
  · unfold scheduledIDs; rw [length_fetchLoop]; simp [maxID]
  · unfold scheduledIDs; rw [length_fetchLoop]; simp

/-! ## `makeURL` -/

theorem str_append (a b : String) : str (a ++ b) = str a ++ str b := by
  simp [str]

theorem digitChar_toNat (d : Nat) (h : d < 10) : (Nat.digitChar d).toNat = d + 48 := by
  interval_cases d <;> rfl

theorem formatBits_eq_toDigitsCore (fuel u : Nat) (ds : List Char) (h : u ≤ fuel) :
    formatBits fuel u (ds.map Char.toNat)
      = (Nat.toDigitsCore 10 (fuel + 1) u ds).map Char.toNat := by
  induction fuel generalizing u ds with
  | zero =>
    have : u = 0 := by omega
    subst this
    simp [formatBits, Nat.toDigitsCore]; rfl
  | succ fuel ih =>
    unfold formatBits
    rw [Nat.toDigitsCore]
    split
    · rename_i h10
      have h1 : ¬ u / 10 = 0 := by omega
      rw [if_neg h1, ← ih (u / 10) _ (by omega)]
      simp [digitChar_toNat (u % 10) (Nat.mod_lt _ (by decide))]
    · rename_i h10
      have h1 : u / 10 = 0 := by omega
      have h2 : u % 10 = u := by omega
      rw [if_pos h1]
      simp [h2, digitChar_toNat u (by omega)]

theorem formatUint_eq_repr (u : Nat) : formatUint u = str (Nat.repr u) := by
  have := formatBits_eq_toDigitsCore u u [] (le_refl _)
  simpa [formatUint, str, Nat.repr, Nat.toDigits] using this

theorem formatInt_eq_toString (n : Int) : formatInt n = str (toString n) := by
  cases n with
  | ofNat m =>
    have h : ¬ ((Int.ofNat m) < 0) := by simp
    simp only [formatInt, if_neg h]
    rw [formatUint_eq_repr]
    rfl
  | negSucc m =>
    have h : (Int.negSucc m) < 0 := Int.negSucc_lt_zero m
    simp only [formatInt, if_pos h]
    rw [formatUint_eq_repr]
    show 45 :: str (Nat.repr (m + 1)) = str ("-" ++ Nat.repr (m + 1))
    rw [str_append]; rfl

/-- C3: `makeURL id` is `https://xkcd.com/`, the decimal representation of
`id`, then `/info.0.json`; `makeURL 123` is `https://xkcd.com/123/info.0.json`. -/
theorem C3_makeURL_template :
    (∀ id : Int, makeURL id = str "https://xkcd.com/" ++ formatInt id ++ str "/info.0.json") ∧
    (∀ id : Int, makeURL id = str ("https://xkcd.com/" ++ toString id ++ "/info.0.json")) ∧
    makeURL 123 = str "https://xkcd.com/123/info.0.json" := by
  have h1 : ∀ id : Int,
      makeURL id = str "https://xkcd.com/" ++ formatInt id ++ str "/info.0.json" := by
    intro id
    simp [makeURL, str, sprintf]
  refine ⟨h1, fun id => ?_, by decide⟩
  rw [h1, str_append, str_append, formatInt_eq_toString]

/-! ## `Reader` and the load loop -/

theorem jsonMarshal_fields (x : XKCD) : jsonMarshal x.fields = .ok x.json := by
  have e1 : appendString (str "month") = str "\"month\"" := by decide
  have e2 : appendString (str "num") = str "\"num\"" := by decide
  have e3 : appendString (str "link") = str "\"link\"" := by decide
  have e4 : appendString (str "year") = str "\"year\"" := by decide
  have e5 : appendString (str "news") = str "\"news\"" := by decide
  have e6 : appendString (str "safe_title") = str "\"safe_title\"" := by decide
  have e7 : appendString (str "transcript") = str "\"transcript\"" := by decide
  have e8 : appendString (str "alt") = str "\"alt\"" := by decide
  have e9 : appendString (str "img") = str "\"img\"" := by decide
  have e10 : appendString (str "title") = str "\"title\"" := by decide
  have e11 : appendString (str "day") = str "\"day\"" := by decide
  simp only [jsonMarshal, XKCD.fields, marshalFields, marshalField, XKCD.json,
    e1, e2, e3, e4, e5, e6, e7, e8, e9, e10, e11]
  simp [str]

theorem Reader_eq (x : XKCD) : x.Reader = .ok (NewReader x.json) := by
  simp [XKCD.Reader, jsonMarshal_fields]

theorem sprintf_percent_d (n : Int) : sprintf (str "%d") [n] = formatInt n := by
  simp [str, sprintf]

theorem addCalls_append (a b : List Event) : addCalls (a ++ b) = addCalls a ++ addCalls b := by
  simp [addCalls]

theorem length_loadLoop (reader : XKCD → Except GoError BytesReader)
    (add : Nat → BulkIndexerItem → Option GoError) (docs : List XKCD) (calls : Nat) :
    (loadLoop reader add docs calls).length = docs.length := by
  induction docs generalizing calls with
  | nil => rfl
  | cons x rest ih =>
    unfold loadLoop
    split
    · simp [ih]
    · simp only
      split <;> simp [ih]

theorem addCalls_flatten_cons (l : List Event) (ls : List (List Event)) :
    addCalls (l :: ls).flatten = addCalls l ++ addCalls ls.flatten := by
  rw [List.flatten_cons, addCalls_append]

theorem addCalls_loadLoop (reader : XKCD → Except GoError BytesReader)
    (add : Nat → BulkIndexerItem → Option GoError) (docs : List XKCD) (calls : Nat) :
    addCalls (loadLoop reader add docs calls).flatten
      = docs.filterMap fun x =>
          match reader x with
          | .ok r => some (mkItem x (some r))
          | .error _ => none := by
  induction docs generalizing calls with
  | nil => rfl
  | cons x rest ih =>
    unfold loadLoop
    split
    · rename_i err h
      rw [addCalls_flatten_cons, ih, List.filterMap_cons, h]
      rfl
    · rename_i r h
      simp only
      split
      · rw [addCalls_flatten_cons, ih, List.filterMap_cons, h]
        rfl
      · rw [addCalls_flatten_cons, ih, List.filterMap_cons, h]
        rfl

theorem loadLoop_iteration (reader : XKCD → Except GoError BytesReader)
    (add : Nat → BulkIndexerItem → Option GoError) (docs : List XKCD) (calls i : Nat)
    (x : XKCD) (hx : docs[i]? = some x) :
    ∃ evs, (loadLoop reader add docs calls)[i]? = some evs ∧
      match reader x with
      | .error err => evs = [.error "unable to create reader for comic" err]
      | .ok r => addCalls evs = [mkItem x (some r)] := by
  induction docs generalizing calls i with
  | nil => simp at hx
  | cons y rest ih =>
    cases i with
    | zero =>
      simp at hx
      subst hx
      unfold loadLoop
      split
      · rename_i err h
        exact ⟨_, List.getElem?_cons_zero, rfl⟩
      · rename_i r h
        simp only
        split
        · exact ⟨_, List.getElem?_cons_zero, rfl⟩
        · exact ⟨_, List.getElem?_cons_zero, rfl⟩
    | succ i =>
      simp at hx
      unfold loadLoop
      split
      · simpa using ih calls i hx
      · simp only
        split
        · simpa using ih (calls + 1) i hx
        · simpa using ih (calls + 1) i hx

/-- The method `Reader` never fails: it returns a reader at offset 0 over the
JSON encoding of the document. -/
theorem Reader_never_fails (x : XKCD) :
    jsonMarshal x.fields = .ok x.json ∧ x.Reader = .ok { s := x.json, i := 0 } :=
  ⟨jsonMarshal_fields x, Reader_eq x⟩

/-- Left alone, the load loop never logs a reader error. -/
theorem loadLoop_no_reader_error (add : Nat → BulkIndexerItem → Option GoError)
    (docs : List XKCD) (calls : Nat) (err : GoError) :
    Event.error "unable to create reader for comic" err
      ∉ (loadLoop XKCD.Reader add docs calls).flatten := by
  induction docs generalizing calls with
  | nil => simp [loadLoop]
  | cons y rest ih =>
    unfold loadLoop
    rw [Reader_eq]
    simp only
    split
    · simp [ih]
    · simp [ih]

/-- Left alone, the load loop passes to the bulk indexer, in collection order,
one item per document, with action `index`, index `xkcd`, the decimal string of
`Num` as document ID and a reader at offset 0 over the JSON encoding of the
document as body. -/
theorem loadLoop_items (add : Nat → BulkIndexerItem → Option GoError) (docs : List XKCD) :
    addCalls (loadLoop XKCD.Reader add docs 0).flatten
      = docs.map (fun x =>
          { Action := str "index", Index := str "xkcd",
            DocumentID := str (toString x.Num), Body := some { s := x.json, i := 0 } }) := by
  rw [addCalls_loadLoop]
  induction docs with
  | nil => rfl
  | cons x rest ih =>
    rw [List.filterMap_cons, Reader_eq, List.map_cons, ← ih]
    simp [mkItem, sprintf_percent_d, formatInt_eq_toString, NewReader]

/-- The document ID of an item is the decimal string of `Num`. -/
theorem mkItem_DocumentID (x : XKCD) (r : Option BytesReader) :
    (mkItem x r).DocumentID = str (toString x.Num) := by
  simp [mkItem, sprintf_percent_d, formatInt_eq_toString]

/-- Left alone, the load loop is not ended by a failure on one document: there
is one iteration per document whatever `Reader` and `Add` return, a document
whose `Reader` fails is skipped without a call of `Add`, and `Add` is called
exactly once, in order, for every document whose `Reader` succeeds. -/
theorem loadLoop_isolates_failures (reader : XKCD → Except GoError BytesReader)
    (add : Nat → BulkIndexerItem → Option GoError) (docs : List XKCD) :
    (loadLoop reader add docs 0).length = docs.length ∧
    addCalls (loadLoop reader add docs 0).flatten
      = docs.filterMap (fun x =>
          match reader x with
          | .ok r => some (mkItem x (some r))
          | .error _ => none) ∧
    ∀ (i : Nat) (x : XKCD), docs[i]? = some x →
      ∃ evs, (loadLoop reader add docs 0)[i]? = some evs ∧
        match reader x with
        | .error err => evs = [.error "unable to create reader for comic" err]
        | .ok r => addCalls evs = [mkItem x (some r)] :=
  ⟨length_loadLoop reader add docs 0, addCalls_loadLoop reader add docs 0,
    fun i x hx => loadLoop_iteration reader add docs 0 i x hx⟩

/-- C7 (what the code does): when `indexer.Close` returns an error, `main` logs
it and goes on to log "Indexing complete" and to report the statistics, whereas
a failure to construct the client or the bulk indexer ends `main` at once. -/
theorem C7_close_error_is_not_fatal :
    indexerMain ⟨none, none, fun _ _ => none, some ⟨"flush: connection refused"⟩⟩ []
      = [.info "Starting XKCD comic downloader", .info "Creating an Elasticsearch client",
         .info "Spawning download threads", .spawnFetches, .waitFetches, .closeBar,
         .info "Indexing XKCD comics into Elasticsearch", .close,
         .error "unable to close indexer" ⟨"flush: connection refused"⟩,
         .info "Indexing complete", .stats, .info "bulk indexer report"] ∧
    indexerMain ⟨none, some ⟨"no client"⟩, fun _ _ => none, none⟩ []
      = [.info "Starting XKCD comic downloader", .info "Creating an Elasticsearch client",
         .info "Spawning download threads", .spawnFetches, .waitFetches, .closeBar,
         .error "unable to create bulk indexer" ⟨"no client"⟩] ∧
    indexerMain ⟨some ⟨"bad address"⟩, none, fun _ _ => none, none⟩ []
      = [.info "Starting XKCD comic downloader", .info "Creating an Elasticsearch client",
         .error "could not create client" ⟨"bad address"⟩] := by
  decide

/-! ## Decimal formatting is injective -/

theorem formatBits_acc (fuel u : Nat) (acc : GoString) :
    formatBits fuel u acc = formatBits fuel u [] ++ acc := by
  induction fuel generalizing u acc with
  | zero => simp [formatBits]
  | succ fuel ih =>
    unfold formatBits
    split
    · rw [ih, ih (u / 10) [u % 10 + 48]]; simp
    · simp

theorem formatBits_fuel (fuel u : Nat) (h : u ≤ fuel) :
    formatBits fuel u [] = formatBits u u [] := by
  induction fuel using Nat.strong_induction_on generalizing u with
  | _ fuel ih =>
    cases fuel with
    | zero =>
      have : u = 0 := by omega
      subst this; rfl
    | succ fuel =>
      cases u with
      | zero => simp [formatBits]
      | succ u =>
        unfold formatBits
        split
        · rw [formatBits_acc, formatBits_acc u, ih fuel (by omega) _ (by omega),
            ih u (by omega) ((u + 1) / 10) (by omega)]
        · rfl

theorem formatUint_lt_ten (u : Nat) (h : u < 10) : formatUint u = [u + 48] := by
  unfold formatUint
  cases u with
  | zero => rfl
  | succ u => unfold formatBits; rw [if_neg (by omega)]

theorem formatUint_ge_ten (u : Nat) (h : 10 ≤ u) :
    formatUint u = formatUint (u / 10) ++ [u % 10 + 48] := by
  unfold formatUint
  cases u with
  | zero => omega
  | succ u =>
    conv => lhs; unfold formatBits
    rw [if_pos h, formatBits_acc, formatBits_fuel u _ (by omega)]

theorem digitsValue_formatUint (u : Nat) : digitsValue (formatUint u) 0 = u := by
  induction u using Nat.strong_induction_on with
  | _ u ih =>
    by_cases h : u < 10
    · rw [formatUint_lt_ten u h]; simp [digitsValue]
    · rw [formatUint_ge_ten u (by omega)]
      have := ih (u / 10) (by omega)
      unfold digitsValue at this ⊢
      rw [List.foldl_append, this]
      simp
      omega

theorem formatUint_head (u : Nat) : ∃ d rest, formatUint u = d :: rest ∧ 48 ≤ d ∧ d ≤ 57 := by
  induction u using Nat.strong_induction_on with
  | _ u ih =>
    by_cases h : u < 10
    · exact ⟨u + 48, [], formatUint_lt_ten u h, by omega, by omega⟩
    · obtain ⟨d, rest, h1, h2, h3⟩ := ih (u / 10) (by omega)
      exact ⟨d, rest ++ [u % 10 + 48], by rw [formatUint_ge_ten u (by omega), h1]; rfl, h2, h3⟩

theorem formatUint_injective (a b : Nat) (h : formatUint a = formatUint b) : a = b := by
  rw [← digitsValue_formatUint a, ← digitsValue_formatUint b, h]

theorem formatInt_injective (a b : Int) (h : formatInt a = formatInt b) : a = b := by
  unfold formatInt at h
  obtain ⟨da, ra, ha, ha1, _⟩ := formatUint_head a.natAbs
  obtain ⟨db, rb, hb, hb1, _⟩ := formatUint_head b.natAbs
  split at h <;> split at h
  · have := formatUint_injective _ _ (List.cons.inj h).2
    omega
  · rw [hb] at h
    have := (List.cons.inj h).1
    omega
  · rw [ha] at h
    have := (List.cons.inj h).1
    omega
  · have := formatUint_injective _ _ h
    omega

theorem makeURL_eq (id : Int) :
    makeURL id = str "https://xkcd.com/" ++ formatInt id ++ str "/info.0.json" := by
  simp [makeURL, str, sprintf]

theorem makeURL_injective (a b : Int) (h : makeURL a = makeURL b) : a = b := by
  rw [makeURL_eq, makeURL_eq, List.append_assoc, List.append_assoc] at h
  have h1 := List.append_cancel_left h
  exact formatInt_injective _ _ (List.append_cancel_right h1)

/-! ## The fetch phase -/

theorem run_append (G : GoString → XKCD → XKCD × Option GoError) (hi : Nat) (s : State)
    (a b : List Actor) :
    run G hi s (a ++ b) = (run G hi s a).bind fun s' => run G hi s' b := by
  induction a generalizing s with
  | nil => rfl
  | cons x a ih =>
    simp only [List.cons_append, run]
    cases step G hi s x with
    | none => rfl
    | some s' => exact ih s'

theorem run_cons (G : GoString → XKCD → XKCD × Option GoError) (hi : Nat) (s : State)
    (a : Actor) (rest : List Actor) :
    run G hi s (a :: rest) = (step G hi s a).bind fun s' => run G hi s' rest := by
  simp only [run]
  cases step G hi s a <;> rfl

theorem run_fetch_loop (G : GoString → XKCD → XKCD × Option GoError) (hi n i : Nat)
    (s : State) (hs : s.main = .loop i) (hn : i + n = hi + 1) :
    run G hi s (List.replicate (n + 1) .main)
      = some { s with main := .wgWait, tasks := spawned (fetchLoop n i) s.tasks } := by
  induction n generalizing i s with
  | zero =>
    have hgt : ¬ i ≤ hi := by omega
    simp only [List.replicate, run, step, hs, if_neg hgt]
    congr
  | succ n ih =>
    have hle : i ≤ hi := by omega
    rw [List.replicate_succ, run_cons]
    by_cases h404 : i = 404
    · have h1 : step G hi s .main = some { s with main := .loop (i + 1) } := by
        simp only [step, hs, if_pos hle, if_pos h404]
      rw [h1, Option.some_bind, ih (i + 1) _ rfl (by omega)]
      simp only [fetchLoop, if_pos h404]
    · have h1 : step G hi s .main
          = some { s.setTask i ⟨.wgAdd, XKCD.zero⟩ with main := .loop (i + 1) } := by
        simp only [step, hs, if_pos hle, if_neg h404]
      rw [h1, Option.some_bind, ih (i + 1) _ rfl (by omega)]
      simp only [fetchLoop, if_neg h404, State.setTask]
      congr 2
      funext j
      simp only [spawned, List.mem_cons]
      by_cases hj : j = i
      · simp [hj]
      · simp [hj]

theorem one_mem_scheduledIDs (hi : Nat) (h : 1 ≤ hi) : 1 ∈ scheduledIDs hi := by
  unfold scheduledIDs; rw [mem_fetchLoop]; omega

theorem run_to_wait (G : GoString → XKCD → XKCD × Option GoError) (hi : Nat) :
    run G hi State.init (List.replicate (hi + 1) .main) = some (afterLoop hi) := by
  rw [run_fetch_loop G hi hi 1 State.init rfl (by omega)]
  rfl

theorem run_earlyWait (hi : Nat) (h : 1 ≤ hi) :
    run allSucceed hi State.init (earlyWaitSchedule hi)
      = some { main := .load [], wg := 1, err := none, mutex := some 1,
               XKCDs := [comicOf 1 "Barrel - Part 1"],
               tasks := fun j => if j = 1 then some ⟨.unlock, comicOf 1 "Barrel - Part 1"⟩
                                 else (afterLoop hi).tasks j } := by
  have h1 := one_mem_scheduledIDs hi h
  unfold earlyWaitSchedule
  rw [List.append_assoc, run_append, run_to_wait, Option.some_bind]
  simp [run_cons, run, step, afterLoop, State.init, spawned, h1, State.setTask, allSucceed]
  funext j
  by_cases hj : j = 1 <;> simp [hj]

theorem unfinished_eq_length (s : State) (ids : List Nat)
    (h : ∀ id ∈ ids, ∃ t, s.tasks id = some t ∧ t.pc ≠ .finished) :
    unfinished s ids = ids.length := by
  unfold unfinished
  rw [List.filter_eq_self.mpr]
  intro id hid
  obtain ⟨t, ht, hpc⟩ := h id hid
  simp [ht, hpc]

/-- C9 (what the code does): `wg.Add(1)` is called inside the goroutines, so
`wg.Wait()` can return while the counter is still zero: `main` enters the load
loop over an empty collection with all 2961 fetches unfinished, and a goroutine
appends to `data.XKCDs` afterwards. -/
theorem C9_wait_returns_before_fetches_finish :
    ∃ s, run allSucceed maxID State.init (earlyWaitSchedule maxID) = some s ∧
      s.main = .load [] ∧
      s.XKCDs = [comicOf 1 "Barrel - Part 1"] ∧
      unfinished s (scheduledIDs maxID) = 2961 := by
  refine ⟨_, run_earlyWait maxID (by decide), rfl, rfl, ?_⟩
  rw [unfinished_eq_length]
  · exact length_scheduledIDs_maxID
  · intro id hid
    by_cases hj : id = 1
    · exact ⟨⟨.unlock, comicOf 1 "Barrel - Part 1"⟩, by simp [hj], by simp⟩
    · exact ⟨⟨.wgAdd, XKCD.zero⟩, by simp [hj, afterLoop, spawned, hid], by simp⟩

theorem run_failing_task (G : GoString → XKCD → XKCD × Option GoError) (hi : Nat) (s : State)
    (id : Nat) (c : XKCD) (e : GoError) (hs : s.tasks id = some ⟨.wgAdd, c⟩)
    (hG : (G (makeURL id) c).2 = some e) :
    run G hi s (List.replicate 4 (.task id))
      = some { s with wg := s.wg + 1 - 1, err := some e,
                      tasks := fun j => if j = id then some ⟨.finished, (G (makeURL id) c).1⟩
                                        else s.tasks j } := by
  simp [List.replicate, run_cons, run, step, hs, State.setTask, hG]
  funext j
  by_cases hj : j = id <;> simp [hj]

theorem eachTask_cons (n id : Nat) (rest : List Nat) :
    eachTask n (id :: rest) = List.replicate n (.task id) ++ eachTask n rest := by
  simp [eachTask]

theorem run_failing_tasks (G : GoString → XKCD → XKCD × Option GoError) (hi : Nat)
    (e : GoError) (ids : List Nat) (s : State) (hnd : ids.Nodup)
    (h : ∀ id ∈ ids, s.tasks id = some ⟨.wgAdd, XKCD.zero⟩
          ∧ G (makeURL id) XKCD.zero = (XKCD.zero, some e)) :
    ∃ s', run G hi s (eachTask 4 ids) = some s' ∧ s'.main = s.main ∧ s'.wg = s.wg ∧
      (ids ≠ [] → s'.err = some e) ∧ (ids = [] → s'.err = s.err) ∧
      s'.mutex = s.mutex ∧ s'.XKCDs = s.XKCDs ∧
      (∀ id ∈ ids, s'.tasks id = some ⟨.finished, XKCD.zero⟩) ∧
      (∀ id, id ∉ ids → s'.tasks id = s.tasks id) := by
  induction ids generalizing s with
  | nil => exact ⟨s, rfl, rfl, rfl, by simp, by simp, rfl, rfl, by simp, by simp⟩
  | cons id rest ih =>
    obtain ⟨hid, hrest⟩ := List.nodup_cons.mp hnd
    obtain ⟨hfresh, hG⟩ := h id (List.mem_cons_self _ _)
    have hG2 : (G (makeURL id) XKCD.zero).2 = some e := by rw [hG]
    have hG1 : (G (makeURL id) XKCD.zero).1 = XKCD.zero := by rw [hG]
    rw [eachTask_cons, run_append, run_failing_task G hi s id XKCD.zero e hfresh hG2,
      Option.some_bind, hG1]
    obtain ⟨s', hrun, hmain, hwg, herr1, herr, hmutex, hx, hfin, hother⟩ :=
      ih { s with wg := s.wg + 1 - 1, err := some e,
                  tasks := fun j => if j = id then some ⟨.finished, XKCD.zero⟩ else s.tasks j }
        hrest (by
          intro j hj
          have hne : j ≠ id := fun hje => hid (hje ▸ hj)
          have := h j (List.mem_cons_of_mem _ hj)
          simpa [hne] using this)
    refine ⟨s', hrun, hmain, ?_, ?_, by simp, hmutex, hx, ?_, ?_⟩
    · rw [hwg]; simp
    · intro _
      by_cases hr : rest = []
      · rw [herr hr]
      · exact herr1 hr
    · intro j hj
      rcases List.mem_cons.mp hj with hj | hj
      · subst hj
        rw [hother j hid]; simp
      · exact hfin j hj
    · intro j hj
      have h1 : j ≠ id := fun hje => hj (hje ▸ List.mem_cons_self _ _)
      have h2 : j ∉ rest := fun hjr => hj (List.mem_cons_of_mem _ hjr)
      rw [hother j h2]; simp [h1]

theorem scheduledIDs_eq_cons (hi : Nat) (h : 1 ≤ hi) :
    scheduledIDs hi = 1 :: fetchLoop (hi - 1) 2 := by
  obtain ⟨n, rfl⟩ : ∃ n, hi = n + 1 := ⟨hi - 1, by omega⟩
  simp [scheduledIDs, fetchLoop]

theorem onlyFirstSucceeds_of_ne (id : Nat) (h : id ≠ 1) (c : XKCD) :
    onlyFirstSucceeds (makeURL id) c = (c, some ⟨"dial tcp: connection refused"⟩) := by
  unfold onlyFirstSucceeds
  rw [if_neg]
  intro hurl
  have := makeURL_injective _ _ hurl
  omega

theorem run_race (hi : Nat) (h : 2 ≤ hi) :
    ∃ s, run onlyFirstSucceeds hi State.init (raceSchedule hi) = some s ∧
      allFinished s (scheduledIDs hi) = true ∧ s.main = .load [] ∧ s.XKCDs = [] ∧ s.wg = 0 := by
  have hsched := scheduledIDs_eq_cons hi (by omega)
  have hids : ∀ id ∈ fetchLoop (hi - 1) 2, id ≠ 1 := by
    intro id hid
    rw [mem_fetchLoop] at hid; omega
  have h2 : 2 ∈ fetchLoop (hi - 1) 2 := by rw [mem_fetchLoop]; omega
  have hne : fetchLoop (hi - 1) 2 ≠ [] := List.ne_nil_of_mem h2
  unfold raceSchedule
  rw [List.append_assoc, List.append_assoc, run_append, run_to_wait, Option.some_bind, run_append]
  have hfirst : run onlyFirstSucceeds hi (afterLoop hi) [.task 1, .task 1]
      = some { afterLoop hi with
          wg := 1, err := none,
          tasks := fun j => if j = 1 then some ⟨.checkErr, comicOf 1 "Barrel - Part 1"⟩
                            else (afterLoop hi).tasks j } := by
    simp [run_cons, run, step, afterLoop, State.init, spawned, hsched, State.setTask,
      onlyFirstSucceeds]
    funext j
    by_cases hj : j = 1 <;> simp [hj]
  rw [hfirst, Option.some_bind, run_append]
  obtain ⟨s', hrun, hmain, hwg, herr, _, hmutex, hx, hfin, hother⟩ :=
    run_failing_tasks onlyFirstSucceeds hi ⟨"dial tcp: connection refused"⟩
      (fetchLoop (hi - 1) 2)
      { afterLoop hi with
          wg := 1, err := none,
          tasks := fun j => if j = 1 then some ⟨.checkErr, comicOf 1 "Barrel - Part 1"⟩
                            else (afterLoop hi).tasks j }
      (fetchLoop_nodup _ _)
      (by
        intro id hid
        refine ⟨?_, onlyFirstSucceeds_of_ne id (hids id hid) _⟩
        simp [hids id hid, afterLoop, spawned, hsched, hid])
  rw [hrun, Option.some_bind]
  have h1 : s'.tasks 1 = some ⟨.checkErr, comicOf 1 "Barrel - Part 1"⟩ := by
    rw [hother 1 (fun hm => hids 1 hm rfl)]; simp
  have herr' := herr hne
  have hlast : run onlyFirstSucceeds hi s' [.task 1, .task 1, .main, .main]
      = some { s' with
          main := .load s'.XKCDs, wg := 0,
          tasks := fun j => if j = 1 then some ⟨.finished, comicOf 1 "Barrel - Part 1"⟩
                            else s'.tasks j } := by
    simp [run_cons, run, step, h1, herr', State.setTask, hwg, hmain, afterLoop]
    funext j
    by_cases hj : j = 1 <;> simp [hj]
  refine ⟨_, hlast, ?_, ?_, ?_, ?_⟩
  · simp only [allFinished, hsched, List.all_cons, Bool.and_eq_true, List.all_eq_true]
    constructor
    · simp
    · intro id hid
      simp [hids id hid, hfin id hid]
  · simp [hx, afterLoop, State.init]
  · simp [hx, afterLoop, State.init]
  · simp

theorem failedFetches_onlyFirstSucceeds (hi : Nat) (h : 1 ≤ hi) :
    failedFetches onlyFirstSucceeds (scheduledIDs hi) = (scheduledIDs hi).length - 1 := by
  rw [scheduledIDs_eq_cons hi h]
  unfold failedFetches
  rw [List.filter_cons_of_neg (by simp [onlyFirstSucceeds]), List.filter_eq_self.mpr]
  · simp
  · intro id hid
    have : id ≠ 1 := by rw [mem_fetchLoop] at hid; omega
    simp [onlyFirstSucceeds_of_ne id this]

/-- C1 (what the code does): the goroutines assign the variable `err` of `main`,
so a goroutine whose fetch succeeded can find there the error another one
stored: with comic 1 fetched and the other 2960 requests failing, every
goroutine runs to its end and `wg.Wait()` returns, yet `data.XKCDs` is empty
where 2961 - 2960 = 1 document was expected. -/
theorem C1_shared_err_drops_fetched_document :
    ∃ s, run onlyFirstSucceeds maxID State.init (raceSchedule maxID) = some s ∧
      allFinished s (scheduledIDs maxID) = true ∧
      s.main = .load [] ∧
      s.XKCDs.length = 0 ∧
      (scheduledIDs maxID).length - failedFetches onlyFirstSucceeds (scheduledIDs maxID) = 1 := by
  obtain ⟨s, hrun, hfin, hmain, hx, _⟩ := run_race maxID (by decide)
  refine ⟨s, hrun, hfin, hmain, by rw [hx]; rfl, ?_⟩
  rw [failedFetches_onlyFirstSucceeds maxID (by decide), length_scheduledIDs_maxID]
theorem run_succeeding_task (G : GoString → XKCD → XKCD × Option GoError) (hi : Nat)
    (s : State) (id : Nat) (c : XKCD) (hs : s.tasks id = some ⟨.wgAdd, c⟩)
    (hG : (G (makeURL id) c).2 = none) (hm : s.mutex = none) :
    run G hi s (List.replicate 8 (.task id))
      = some { s with wg := s.wg + 1 - 1, err := none, mutex := none,
                      XKCDs := s.XKCDs ++ [(G (makeURL id) c).1],
                      tasks := fun j => if j = id then some ⟨.finished, (G (makeURL id) c).1⟩
                                        else s.tasks j } := by
  simp [List.replicate, run_cons, run, step, hs, State.setTask, hG, hm]
  funext j
  by_cases hj : j = id <;> simp [hj]

theorem serialSchedule_cons (G : GoString → XKCD → XKCD × Option GoError) (id : Nat)
    (rest : List Nat) :
    serialSchedule G (id :: rest)
      = List.replicate (if (G (makeURL id) XKCD.zero).2.isSome then 4 else 8) (.task id)
          ++ serialSchedule G rest := by
  simp [serialSchedule]

theorem run_serial_tasks (G : GoString → XKCD → XKCD × Option GoError) (hi : Nat)
    (ids : List Nat) (s : State) (hnd : ids.Nodup)
    (h : ∀ id ∈ ids, s.tasks id = some ⟨.wgAdd, XKCD.zero⟩) (hm : s.mutex = none) :
    ∃ s', run G hi s (serialSchedule G ids) = some s' ∧ s'.main = s.main ∧ s'.wg = s.wg ∧
      s'.mutex = none ∧ s'.XKCDs = s.XKCDs ++ fetched G ids ∧
      (∀ id ∈ ids, ∃ c, s'.tasks id = some ⟨.finished, c⟩) ∧
      (∀ id, id ∉ ids → s'.tasks id = s.tasks id) := by
  induction ids generalizing s with
  | nil => exact ⟨s, rfl, rfl, rfl, hm, by simp [fetched], by simp, by simp⟩
  | cons id rest ih =>
    obtain ⟨hid, hrest⟩ := List.nodup_cons.mp hnd
    have hfresh := h id (List.mem_cons_self _ _)
    rw [serialSchedule_cons, run_append]
    cases hG : (G (makeURL id) XKCD.zero).2 with
    | some e =>
      rw [if_pos (by simp), run_failing_task G hi s id XKCD.zero e hfresh hG, Option.some_bind]
      obtain ⟨s', hrun, hmain, hwg, hmutex, hx, hfin, hother⟩ :=
        ih { s with wg := s.wg + 1 - 1, err := some e,
                    tasks := fun j => if j = id
                      then some ⟨.finished, (G (makeURL id) XKCD.zero).1⟩ else s.tasks j }
          hrest (by
            intro j hj
            have hne : j ≠ id := fun hje => hid (hje ▸ hj)
            simpa [hne] using h j (List.mem_cons_of_mem _ hj)) hm
      refine ⟨s', hrun, hmain, by rw [hwg]; simp, hmutex, ?_, ?_, ?_⟩
      · rw [hx]; simp [fetched, hG]
      · intro j hj
        rcases List.mem_cons.mp hj with hj | hj
        · exact ⟨(G (makeURL id) XKCD.zero).1, by rw [hj, hother id hid]; simp⟩
        · exact hfin j hj
      · intro j hj
        have h1 : j ≠ id := fun hje => hj (hje ▸ List.mem_cons_self _ _)
        have h2 : j ∉ rest := fun hjr => hj (List.mem_cons_of_mem _ hjr)
        rw [hother j h2]; simp [h1]
    | none =>
      rw [if_neg (by simp), run_succeeding_task G hi s id XKCD.zero hfresh hG hm,
        Option.some_bind]
      obtain ⟨s', hrun, hmain, hwg, hmutex, hx, hfin, hother⟩ :=
        ih { s with wg := s.wg + 1 - 1, err := none, mutex := none,
                    XKCDs := s.XKCDs ++ [(G (makeURL id) XKCD.zero).1],
                    tasks := fun j => if j = id
                      then some ⟨.finished, (G (makeURL id) XKCD.zero).1⟩ else s.tasks j }
          hrest (by
            intro j hj
            have hne : j ≠ id := fun hje => hid (hje ▸ hj)
            simpa [hne] using h j (List.mem_cons_of_mem _ hj)) rfl
      refine ⟨s', hrun, hmain, by rw [hwg]; simp, hmutex, ?_, ?_, ?_⟩
      · rw [hx]; simp [fetched, hG]
      · intro j hj
        rcases List.mem_cons.mp hj with hj | hj
        · exact ⟨(G (makeURL id) XKCD.zero).1, by rw [hj, hother id hid]; simp⟩
        · exact hfin j hj
      · intro j hj
        have h1 : j ≠ id := fun hje => hj (hje ▸ List.mem_cons_self _ _)
        have h2 : j ∉ rest := fun hjr => hj (List.mem_cons_of_mem _ hjr)
        rw [hother j h2]; simp [h1]

theorem length_fetched (G : GoString → XKCD → XKCD × Option GoError) (ids : List Nat) :
    (fetched G ids).length = ids.length - failedFetches G ids := by
  have key : (fetched G ids).length + failedFetches G ids = ids.length := by
    unfold fetched failedFetches
    rw [List.length_map]
    induction ids with
    | nil => rfl
    | cons id rest ih =>
      cases hG : (G (makeURL id) XKCD.zero).2 with
      | some e => simp [List.filter_cons, hG]; omega
      | none => simp [List.filter_cons, hG]; omega
  omega

/-- When the goroutines run one after the other, the fetch phase collects one
document for every scheduled ID whose fetch succeeds and none for the others:
`data.XKCDs` has as many entries as there are scheduled IDs less the failed
fetches, and `main` ranges over all of them. -/
theorem run_serial (G : GoString → XKCD → XKCD × Option GoError) (hi : Nat) :
    ∃ s, run G hi State.init
        (List.replicate (hi + 1) .main ++ serialSchedule G (scheduledIDs hi) ++ [.main, .main])
          = some s ∧
      allFinished s (scheduledIDs hi) = true ∧
      s.main = .load (fetched G (scheduledIDs hi)) ∧
      s.XKCDs = fetched G (scheduledIDs hi) ∧
      s.XKCDs.length = (scheduledIDs hi).length - failedFetches G (scheduledIDs hi) := by
  rw [List.append_assoc, run_append, run_to_wait, Option.some_bind, run_append]
  obtain ⟨s', hrun, hmain, hwg, hmutex, hx, hfin, _⟩ :=
    run_serial_tasks G hi (scheduledIDs hi) (afterLoop hi) (fetchLoop_nodup _ _)
      (by intro id hid; simp [afterLoop, spawned, hid]) rfl
  rw [hrun, Option.some_bind]
  have hx' : s'.XKCDs = fetched G (scheduledIDs hi) := by
    rw [hx]; simp [afterLoop, State.init]
  have hlast : run G hi s' [.main, .main] = some { s' with main := .load s'.XKCDs } := by
    have hw : s'.wg = 0 := by rw [hwg]; rfl
    have hm : s'.main = .wgWait := by rw [hmain]; rfl
    simp [run_cons, run, step, hm, hw]
  refine ⟨_, hlast, ?_, by simp [hx'], hx', by rw [hx', length_fetched]⟩
  simp only [allFinished, List.all_eq_true]
  intro id hid
  obtain ⟨c, hc⟩ := hfin id hid
  simp [hc]
/-! ## The whole of `main` beside the fetch goroutines -/

theorem runProgram_append (G : GoString → XKCD → XKCD × Option GoError)
    (reader : XKCD → Except GoError BytesReader) (w : World) (hi : Nat) (p : Program)
    (a b : List Actor) :
    runProgram G reader w hi p (a ++ b)
      = (runProgram G reader w hi p a).bind fun p' => runProgram G reader w hi p' b := by
  induction a generalizing p with
  | nil => rfl
  | cons x a ih =>
    simp only [List.cons_append, runProgram]
    cases stepProgram G reader w hi p x with
    | none => rfl
    | some p' => exact ih p'

theorem runProgram_cons (G : GoString → XKCD → XKCD × Option GoError)
    (reader : XKCD → Except GoError BytesReader) (w : World) (hi : Nat) (p : Program)
    (a : Actor) (rest : List Actor) :
    runProgram G reader w hi p (a :: rest)
      = (stepProgram G reader w hi p a).bind fun p' => runProgram G reader w hi p' rest := by
  simp only [runProgram]
  cases stepProgram G reader w hi p a <;> rfl

/-- While `main` is in the fetch loop, the program steps as the fetch phase
does. -/
theorem runProgram_fetch_loop (G : GoString → XKCD → XKCD × Option GoError)
    (reader : XKCD → Except GoError BytesReader) (w : World) (hi n i : Nat) (p : Program)
    (hp : p.pc = .fetching) (hs : p.fetch.main = .loop i) (hn : i + n = hi + 1) :
    runProgram G reader w hi p (List.replicate (n + 1) .main)
      = some { p with fetch := { p.fetch with main := .wgWait,
                                              tasks := spawned (fetchLoop n i) p.fetch.tasks } } := by
  induction n generalizing i p with
  | zero =>
    have hgt : ¬ i ≤ hi := by omega
    simp only [List.replicate, runProgram, stepProgram, hp, hs, step, if_neg hgt, Option.map]
    congr
  | succ n ih =>
    have hle : i ≤ hi := by omega
    rw [List.replicate_succ, runProgram_cons]
    by_cases h404 : i = 404
    · have h1 : stepProgram G reader w hi p .main
          = some { p with fetch := { p.fetch with main := .loop (i + 1) } } := by
        simp only [stepProgram, hp, hs, step, if_pos hle, if_pos h404, Option.map]
      rw [h1, Option.some_bind,
        ih (i + 1) { p with fetch := { p.fetch with main := .loop (i + 1) } } hp rfl (by omega)]
      simp only [fetchLoop, if_pos h404]
    · have h1 : stepProgram G reader w hi p .main
          = some { p with fetch :=
              { p.fetch.setTask i ⟨.wgAdd, XKCD.zero⟩ with main := .loop (i + 1) } } := by
        simp only [stepProgram, hp, hs, step, if_pos hle, if_neg h404, Option.map]
      rw [h1, Option.some_bind,
        ih (i + 1) { p with fetch :=
            { p.fetch.setTask i ⟨.wgAdd, XKCD.zero⟩ with main := .loop (i + 1) } }
          hp rfl (by omega)]
      simp only [fetchLoop, if_neg h404, State.setTask]
      congr 3
      funext j
      simp only [spawned, List.mem_cons]
      by_cases hj : j = i
      · simp [hj]
      · simp [hj]

theorem runProgram_to_wait (G : GoString → XKCD → XKCD × Option GoError)
    (reader : XKCD → Except GoError BytesReader) (w : World) (hi : Nat) :
    runProgram G reader w hi Program.init (List.replicate (hi + 1) .main)
      = some { Program.init with fetch := afterLoop hi } := by
  rw [runProgram_fetch_loop G reader w hi hi 1 Program.init rfl rfl (by omega)]
  rfl

/-- Steps of fetch goroutines alone change the program as they change the fetch
phase. -/
theorem runProgram_tasks (G : GoString → XKCD → XKCD × Option GoError)
    (reader : XKCD → Except GoError BytesReader) (w : World) (hi : Nat)
    (sched : List Actor) (p : Program) (f : State) (hp : p.pc ≠ .returned)
    (hs : ∀ a ∈ sched, ∃ id, a = .task id) (hrun : run G hi p.fetch sched = some f) :
    runProgram G reader w hi p sched = some { p with fetch := f } := by
  induction sched generalizing p with
  | nil =>
    simp only [run] at hrun
    cases hrun
    rfl
  | cons a rest ih =>
    obtain ⟨id, rfl⟩ := hs _ (List.mem_cons_self _ _)
    rw [run_cons] at hrun
    cases hstep : step G hi p.fetch (.task id) with
    | none => rw [hstep] at hrun; simp at hrun
    | some f1 =>
      rw [hstep, Option.some_bind] at hrun
      rw [runProgram_cons]
      have h1 : stepProgram G reader w hi p (.task id) = some { p with fetch := f1 } := by
        simp only [stepProgram, if_neg hp, hstep, Option.map]
      rw [h1, Option.some_bind]
      exact ih { p with fetch := f1 } hp (fun a ha => hs a (List.mem_cons_of_mem _ ha)) hrun
theorem two_mem_scheduledIDs (hi : Nat) (h : 2 ≤ hi) : 2 ∈ scheduledIDs hi := by
  unfold scheduledIDs; rw [mem_fetchLoop]; omega

theorem onlyFirstSucceeds_first (c : XKCD) :
    onlyFirstSucceeds (makeURL ((1 : Nat) : Int)) c = (firstComic, none) := by
  simp [onlyFirstSucceeds, firstComic]

/-- The run of `lateFailureSchedule`: `main` ranges over the one document
collected, logs a reader error for it and calls `indexer.Add` for none. -/
theorem run_lateFailure (hi : Nat) (h : 2 ≤ hi) :
    ∃ p, runProgram onlyFirstSucceeds XKCD.Reader allCallsSucceed hi Program.init
          (lateFailureSchedule hi) = some p ∧
      p.pc = .returned ∧ p.fetch.XKCDs = [firstComic] ∧ p.calls = 0 ∧
      p.events = [.closeBar, .info "Indexing XKCD comics into Elasticsearch",
                  .error "unable to create reader for comic" refused, .close,
                  .info "Indexing complete", .stats, .info "bulk indexer report"] := by
  have h1 := one_mem_scheduledIDs hi (by omega)
  have h2 := two_mem_scheduledIDs hi h
  unfold lateFailureSchedule
  rw [List.append_assoc, List.append_assoc, List.append_assoc, runProgram_append,
    runProgram_to_wait, Option.some_bind, runProgram_append]
  -- goroutine 1 runs from start to end
  have hfresh : (afterLoop hi).tasks 1 = some ⟨.wgAdd, XKCD.zero⟩ := by
    simp [afterLoop, spawned, h1]
  have hrun1 := run_succeeding_task onlyFirstSucceeds hi (afterLoop hi) 1 XKCD.zero hfresh
    (by rw [onlyFirstSucceeds_first]) rfl
  rw [onlyFirstSucceeds_first] at hrun1
  rw [runProgram_tasks onlyFirstSucceeds XKCD.Reader allCallsSucceed hi _
    { Program.init with fetch := afterLoop hi } _ (by simp [Program.init])
    (by intro a ha; exact ⟨1, List.eq_of_mem_replicate ha⟩) hrun1, Option.some_bind,
    runProgram_append]
  -- `main` passes `wg.Wait()` and reaches the test of `err` behind `Reader`
  have hmain1 : runProgram onlyFirstSucceeds XKCD.Reader allCallsSucceed hi
      { Program.init with fetch :=
          { afterLoop hi with
              wg := (afterLoop hi).wg + 1 - 1, err := none, mutex := none,
              XKCDs := (afterLoop hi).XKCDs ++ [firstComic],
              tasks := fun j => if j = 1 then some ⟨.finished, firstComic⟩
                                else (afterLoop hi).tasks j } }
      (List.replicate 6 .main)
      = some { fetch :=
                { afterLoop hi with
                    main := .barClose, wg := 0, err := none, mutex := none,
                    XKCDs := [firstComic],
                    tasks := fun j => if j = 1 then some ⟨.finished, firstComic⟩
                                      else (afterLoop hi).tasks j },
               pc := .checkReader firstComic (some (NewReader firstComic.json)) [],
               calls := 0,
               events := [.closeBar, .info "Indexing XKCD comics into Elasticsearch"] } := by
    simp [List.replicate, runProgram_cons, runProgram, stepProgram, step, Program.init,
      afterLoop, State.init, allCallsSucceed, Reader_eq]
  rw [hmain1, Option.some_bind, runProgram_append]
  -- goroutine 2 starts and its fetch fails
  have htask2 : runProgram onlyFirstSucceeds XKCD.Reader allCallsSucceed hi
      { fetch :=
          { afterLoop hi with
              main := .barClose, wg := 0, err := none, mutex := none,
              XKCDs := [firstComic],
              tasks := fun j => if j = 1 then some ⟨.finished, firstComic⟩
                                else (afterLoop hi).tasks j },
        pc := .checkReader firstComic (some (NewReader firstComic.json)) [],
        calls := 0,
        events := [.closeBar, .info "Indexing XKCD comics into Elasticsearch"] }
      [.task 2, .task 2]
      = some { fetch :=
                { afterLoop hi with
                    main := .barClose, wg := 1, err := some refused, mutex := none,
                    XKCDs := [firstComic],
                    tasks := fun j => if j = 2 then some ⟨.checkErr, XKCD.zero⟩
                                      else if j = 1 then some ⟨.finished, firstComic⟩
                                      else (afterLoop hi).tasks j },
               pc := .checkReader firstComic (some (NewReader firstComic.json)) [],
               calls := 0,
               events := [.closeBar, .info "Indexing XKCD comics into Elasticsearch"] } := by
    have hG : onlyFirstSucceeds (makeURL 2) XKCD.zero = (XKCD.zero, some refused) := by
      simpa using onlyFirstSucceeds_of_ne 2 (by decide) XKCD.zero
    simp [runProgram_cons, runProgram, stepProgram, step, afterLoop, spawned, h2,
      State.setTask, State.init, hG]
    funext j
    by_cases hj2 : j = 2
    · simp [hj2]
    · simp [hj2]
  rw [htask2, Option.some_bind]
  -- `main` finds the error of goroutine 2 in `err`
  have hlast : runProgram onlyFirstSucceeds XKCD.Reader allCallsSucceed hi
      { fetch :=
          { afterLoop hi with
              main := .barClose, wg := 1, err := some refused, mutex := none,
              XKCDs := [firstComic],
              tasks := fun j => if j = 2 then some ⟨.checkErr, XKCD.zero⟩
                                else if j = 1 then some ⟨.finished, firstComic⟩
                                else (afterLoop hi).tasks j },
        pc := .checkReader firstComic (some (NewReader firstComic.json)) [],
        calls := 0,
        events := [.closeBar, .info "Indexing XKCD comics into Elasticsearch"] }
      (List.replicate 5 .main)
      = some { fetch :=
                { afterLoop hi with
                    main := .barClose, wg := 1, err := none, mutex := none,
                    XKCDs := [firstComic],
                    tasks := fun j => if j = 2 then some ⟨.checkErr, XKCD.zero⟩
                                      else if j = 1 then some ⟨.finished, firstComic⟩
                                      else (afterLoop hi).tasks j },
               pc := .returned,
               calls := 0,
               events := [.closeBar, .info "Indexing XKCD comics into Elasticsearch",
                          .error "unable to create reader for comic" refused, .close,
                          .info "Indexing complete", .stats, .info "bulk indexer report"] } := by
    simp [List.replicate, runProgram_cons, runProgram, stepProgram, allCallsSucceed]
  exact ⟨_, hlast, rfl, rfl, rfl, rfl⟩
/-- Left alone from the head of the load loop, the main goroutine does what
`loadLoop` says and reaches `indexer.Close`. -/
theorem runProgram_load_loop_alone (G : GoString → XKCD → XKCD × Option GoError)
    (reader : XKCD → Except GoError BytesReader) (w : World) (hi : Nat) (docs : List XKCD)
    (p : Program) (hp : p.pc = .reader docs) :
    ∃ n p', runProgram G reader w hi p (List.replicate n .main) = some p' ∧
      p'.pc = .close ∧
      p'.events = p.events ++ (loadLoop reader w.add docs p.calls).flatten ∧
      ∃ e, p'.fetch = { p.fetch with err := e } := by
  induction docs generalizing p with
  | nil =>
    refine ⟨1, { p with pc := .close }, ?_, rfl, by simp [loadLoop], p.fetch.err, rfl⟩
    simp [List.replicate, runProgram_cons, runProgram, stepProgram, hp]
  | cons x rest ih =>
    cases hr : reader x with
    | error e0 =>
      obtain ⟨n, p', hrun, hpc, hev, e, hf⟩ :=
        ih { p with fetch := { p.fetch with err := some e0 }, pc := .reader rest,
                    events := p.events ++ [.error "unable to create reader for comic" e0] } rfl
      refine ⟨2 + n, p', ?_, hpc, ?_, e, ?_⟩
      · rw [List.replicate_add, runProgram_append]
        have h2 : runProgram G reader w hi p (List.replicate 2 .main)
            = some { p with fetch := { p.fetch with err := some e0 }, pc := .reader rest,
                            events := p.events
                              ++ [.error "unable to create reader for comic" e0] } := by
          simp [List.replicate, runProgram_cons, runProgram, stepProgram, hp, hr]
        rw [h2, Option.some_bind, hrun]
      · rw [hev]
        simp [loadLoop, hr]
      · rw [hf]
    | ok r =>
      cases ha : w.add p.calls (mkItem x (some r)) with
      | some e1 =>
        obtain ⟨n, p', hrun, hpc, hev, e, hf⟩ :=
          ih { p with fetch := { p.fetch with err := some e1 }, pc := .reader rest,
                      calls := p.calls + 1,
                      events := p.events ++ [.add (mkItem x (some r)),
                        .error "unable to add document to bulk indexer" e1] } rfl
        refine ⟨4 + n, p', ?_, hpc, ?_, e, ?_⟩
        · rw [List.replicate_add, runProgram_append]
          have h4 : runProgram G reader w hi p (List.replicate 4 .main)
              = some { p with fetch := { p.fetch with err := some e1 }, pc := .reader rest,
                              calls := p.calls + 1,
                              events := p.events ++ [.add (mkItem x (some r)),
                                .error "unable to add document to bulk indexer" e1] } := by
            simp [List.replicate, runProgram_cons, runProgram, stepProgram, hp, hr, ha]
          rw [h4, Option.some_bind, hrun]
        · rw [hev]
          simp [loadLoop, hr, ha]
        · rw [hf]
      | none =>
        obtain ⟨n, p', hrun, hpc, hev, e, hf⟩ :=
          ih { p with fetch := { p.fetch with err := none }, pc := .reader rest,
                      calls := p.calls + 1,
                      events := p.events ++ [.add (mkItem x (some r))] } rfl
        refine ⟨4 + n, p', ?_, hpc, ?_, e, ?_⟩
        · rw [List.replicate_add, runProgram_append]
          have h4 : runProgram G reader w hi p (List.replicate 4 .main)
              = some { p with fetch := { p.fetch with err := none }, pc := .reader rest,
                              calls := p.calls + 1,
                              events := p.events ++ [.add (mkItem x (some r))] } := by
            simp [List.replicate, runProgram_cons, runProgram, stepProgram, hp, hr, ha]
          rw [h4, Option.some_bind, hrun]
        · rw [hev]
          simp [loadLoop, hr, ha]
        · rw [hf]

/-- Left alone from `bar.Close()` on, the main goroutine returns after the
events of `loadPhase` for the collection it finds: `loadPhase`, and with it
`indexerMain`, is what `main` does when no fetch goroutine assigns `err`
between a call and the test of its result. -/
theorem runProgram_main_alone (G : GoString → XKCD → XKCD × Option GoError) (w : World)
    (hi : Nat) (p : Program) (hp : p.pc = .fetching) (hm : p.fetch.main = .barClose)
    (hc : p.calls = 0) (he : p.events = []) :
    ∃ n p', runProgram G XKCD.Reader w hi p (List.replicate n .main) = some p' ∧
      p'.pc = .returned ∧ p'.events = loadPhase w p.fetch.XKCDs := by
  cases hn : w.newBulkIndexer with
  | some e0 =>
    refine ⟨3,
      { p with fetch := { p.fetch with err := some e0 }, pc := .returned,
               events := p.events ++ [.closeBar]
                 ++ [.error "unable to create bulk indexer" e0] },
      ?_, rfl, ?_⟩
    · simp [List.replicate, runProgram_cons, runProgram, stepProgram, hp, hm, hn]
    · simp [loadPhase, hn, he]
  | none =>
    have h4 : runProgram G XKCD.Reader w hi p (List.replicate 4 .main)
        = some { p with fetch := { p.fetch with err := none }, pc := .reader p.fetch.XKCDs,
                        events := p.events ++ [.closeBar]
                          ++ [.info "Indexing XKCD comics into Elasticsearch"] } := by
      simp [List.replicate, runProgram_cons, runProgram, stepProgram, hp, hm, hn]
    obtain ⟨n, p1, hrun, hpc, hev, e, hf⟩ := runProgram_load_loop_alone G XKCD.Reader w hi
      p.fetch.XKCDs
      { p with fetch := { p.fetch with err := none }, pc := .reader p.fetch.XKCDs,
               events := p.events ++ [.closeBar]
                 ++ [.info "Indexing XKCD comics into Elasticsearch"] } rfl
    cases hcl : w.close with
    | some e1 =>
      refine ⟨4 + (n + 3),
        { p1 with fetch := { p1.fetch with err := some e1 }, pc := .returned,
                  events := p1.events ++ [.close] ++ [.error "unable to close indexer" e1]
                    ++ [.info "Indexing complete", .stats, .info "bulk indexer report"] },
        ?_, rfl, ?_⟩
      · rw [List.replicate_add, runProgram_append, h4, Option.some_bind, List.replicate_add,
          runProgram_append, hrun, Option.some_bind]
        simp [List.replicate, runProgram_cons, runProgram, stepProgram, hpc, hcl]
      · simp [hev, loadPhase, hn, he, hc, closePhase, hcl]
    | none =>
      refine ⟨4 + (n + 3),
        { p1 with fetch := { p1.fetch with err := none }, pc := .returned,
                  events := p1.events ++ [.close]
                    ++ [.info "Indexing complete", .stats, .info "bulk indexer report"] },
        ?_, rfl, ?_⟩
      · rw [List.replicate_add, runProgram_append, h4, Option.some_bind, List.replicate_add,
          runProgram_append, hrun, Option.some_bind]
        simp [List.replicate, runProgram_cons, runProgram, stepProgram, hpc, hcl]
      · simp [hev, loadPhase, hn, he, hc, closePhase, hcl]

/-- C4 (what the code does): the load loop tests the variable `err` that the
fetch goroutines assign, and `wg.Wait()` does not wait for goroutines that have
not yet called `wg.Add(1)`: with comic 1 collected, goroutine 2 stores the error
of its fetch between `reader, err = xkcd.Reader()` and `if err != nil`, and
`main` returns without having passed any item to the bulk indexer for the one
document of the collection. -/
theorem C4_load_loop_skips_collected_document :
    ∃ p, runProgram onlyFirstSucceeds XKCD.Reader allCallsSucceed maxID Program.init
          (lateFailureSchedule maxID) = some p ∧
      p.pc = .returned ∧
      p.fetch.XKCDs = [firstComic] ∧
      addCalls p.events = [] ∧
      p.calls = 0 := by
  obtain ⟨p, hrun, hpc, hx, hc, hev⟩ := run_lateFailure maxID (by decide)
  exact ⟨p, hrun, hpc, hx, by rw [hev]; rfl, hc⟩

/-- C6 (what the code does): a failed fetch reaches the load loop: `Reader`
succeeds for the document of comic 1, yet `main` finds in `err` the error that
goroutine 2 stored there, logs it as a reader error and makes no call of
`indexer.Add` for the document. -/
theorem C6_fetch_error_skips_readable_document :
    ∃ p, runProgram onlyFirstSucceeds XKCD.Reader allCallsSucceed maxID Program.init
          (lateFailureSchedule maxID) = some p ∧
      p.pc = .returned ∧
      firstComic.Reader = .ok { s := firstComic.json, i := 0 } ∧
      p.events = [.closeBar, .info "Indexing XKCD comics into Elasticsearch",
                  .error "unable to create reader for comic" ⟨"dial tcp: connection refused"⟩,
                  .close, .info "Indexing complete", .stats, .info "bulk indexer report"] := by
  obtain ⟨p, hrun, hpc, _, _, hev⟩ := run_lateFailure maxID (by decide)
  exact ⟨p, hrun, hpc, Reader_eq _, hev⟩

/-- C10 (what the code does): `Reader` never fails, and still the
"unable to create reader for comic" branch of the load loop is taken: the test
reads the variable `err`, in which goroutine 2 has stored the error of its
fetch. -/
theorem C10_reader_error_branch_is_taken :
    (∀ x : XKCD, jsonMarshal x.fields = .ok x.json ∧ x.Reader = .ok { s := x.json, i := 0 }) ∧
    ∃ p, runProgram onlyFirstSucceeds XKCD.Reader allCallsSucceed maxID Program.init
          (lateFailureSchedule maxID) = some p ∧
      Event.error "unable to create reader for comic" refused ∈ p.events := by
  refine ⟨fun x => ⟨jsonMarshal_fields x, Reader_eq x⟩, ?_⟩
  obtain ⟨p, hrun, _, _, _, hev⟩ := run_lateFailure maxID (by decide)
  exact ⟨p, hrun, by rw [hev]; simp⟩

/-! ## UTF-8 -/

theorem decodeRune_take_four (s : GoString) : decodeRune (s.take 4) = decodeRune s := by
  rcases s with _ | ⟨a, _ | ⟨b, _ | ⟨c, _ | ⟨d, t⟩⟩⟩⟩ <;> simp [decodeRune]

/-- A sequence that `decodeRune` accepts is the encoding of the rune it yields. -/
theorem decodeRune_encodeRune (s : GoString) (hs : s ≠ [])
    (h : ¬ ((decodeRune s).1 = RuneError ∧ (decodeRune s).2 = 1)) :
    s.take (decodeRune s).2 = encodeRune (decodeRune s).1 ∧ 1 ≤ (decodeRune s).2
      ∧ (decodeRune s).2 ≤ s.length := by
  rcases s with _ | ⟨b0, rest⟩
  · exact absurd rfl hs
  · unfold decodeRune at h ⊢
    by_cases h0 : b0 < 0x80
    · simp only [if_pos h0] at h ⊢
      refine ⟨?_, by simp, by simp⟩
      simp only [encodeRune]
      split_ifs <;> first | omega | simp
    · simp only [if_neg h0] at h ⊢
      by_cases h2 : 0xC2 ≤ b0 ∧ b0 ≤ 0xDF
      · simp only [if_pos h2] at h ⊢
        rcases rest with _ | ⟨b1, r1⟩
        · simp [RuneError] at h
        · simp only at h ⊢
          by_cases hb1 : 0x80 ≤ b1 ∧ b1 ≤ 0xBF
          · simp only [if_pos hb1] at h ⊢
            refine ⟨?_, by simp, by simp⟩
            simp only [encodeRune, List.take_succ_cons, List.take_zero]
            split_ifs <;> first | omega | (simp only [List.cons.injEq, and_true]; omega)
          · simp only [if_neg hb1] at h
            simp [RuneError] at h
      · simp only [if_neg h2] at h ⊢
        by_cases h3 : 0xE0 ≤ b0 ∧ b0 ≤ 0xEF
        · simp only [if_pos h3] at h ⊢
          rcases rest with _ | ⟨b1, _ | ⟨b2, r2⟩⟩
          · simp [RuneError] at h
          · simp [RuneError] at h
          · simp only at h ⊢
            split_ifs at h ⊢ with hc1 hc2 hc3 <;>
              first
              | (exfalso; simp [RuneError] at h; done)
              | (refine ⟨?_, by simp, by simp⟩
                 simp only [encodeRune, List.take_succ_cons, List.take_zero]
                 split_ifs <;> first | omega | (simp only [List.cons.injEq, and_true]; omega))
        · simp only [if_neg h3] at h ⊢
          by_cases h4 : 0xF0 ≤ b0 ∧ b0 ≤ 0xF4
          · simp only [if_pos h4] at h ⊢
            rcases rest with _ | ⟨b1, _ | ⟨b2, _ | ⟨b3, r3⟩⟩⟩
            · simp [RuneError] at h
            · simp [RuneError] at h
            · simp [RuneError] at h
            · simp only at h ⊢
              split_ifs at h ⊢ with hc1 hc2 hc3 <;>
                first
                | (exfalso; simp [RuneError] at h; done)
                | (refine ⟨?_, by simp, by simp⟩
                   simp only [encodeRune, List.take_succ_cons, List.take_zero]
                   split_ifs <;> first | omega | (simp only [List.cons.injEq, and_true]; omega))
          · simp only [if_neg h4] at h
            simp [RuneError] at h

theorem decodeRune_take_append (s t : GoString) (hs : s ≠ [])
    (h : ¬ ((decodeRune s).1 = RuneError ∧ (decodeRune s).2 = 1)) :
    decodeRune (s.take (decodeRune s).2 ++ t) = decodeRune s := by
  rcases s with _ | ⟨b0, rest⟩
  · exact absurd rfl hs
  · unfold decodeRune at h
    by_cases h0 : b0 < 0x80
    · simp [decodeRune, h0]
    · simp only [if_neg h0] at h
      by_cases h2 : 0xC2 ≤ b0 ∧ b0 ≤ 0xDF
      · simp only [if_pos h2] at h
        rcases rest with _ | ⟨b1, r1⟩
        · simp [RuneError] at h
        · by_cases hb1 : 0x80 ≤ b1 ∧ b1 ≤ 0xBF
          · simp [decodeRune, h0, h2, hb1]
          · simp [hb1, RuneError] at h
      · simp only [if_neg h2] at h
        by_cases h3 : 0xE0 ≤ b0 ∧ b0 ≤ 0xEF
        · simp only [if_pos h3] at h
          rcases rest with _ | ⟨b1, _ | ⟨b2, r2⟩⟩
          · simp [RuneError] at h
          · simp [RuneError] at h
          · by_cases hc : (if b0 = 0xE0 then 0xA0 else 0x80) ≤ b1
                ∧ b1 ≤ (if b0 = 0xED then 0x9F else 0xBF) ∧ 0x80 ≤ b2 ∧ b2 ≤ 0xBF
            · simp only [decodeRune, if_neg h0, if_neg h2, if_pos h3, if_pos hc]
              simp only [List.take_succ_cons, List.take_zero, List.cons_append, List.nil_append,
                decodeRune, if_neg h0, if_neg h2, if_pos h3, if_pos hc]
            · simp only [if_neg hc] at h
              simp [RuneError] at h
        · simp only [if_neg h3] at h
          by_cases h4 : 0xF0 ≤ b0 ∧ b0 ≤ 0xF4
          · simp only [if_pos h4] at h
            rcases rest with _ | ⟨b1, _ | ⟨b2, _ | ⟨b3, r3⟩⟩⟩
            · simp [RuneError] at h
            · simp [RuneError] at h
            · simp [RuneError] at h
            · by_cases hc : (if b0 = 0xF0 then 0x90 else 0x80) ≤ b1
                  ∧ b1 ≤ (if b0 = 0xF4 then 0x8F else 0xBF)
                  ∧ 0x80 ≤ b2 ∧ b2 ≤ 0xBF ∧ 0x80 ≤ b3 ∧ b3 ≤ 0xBF
              · simp only [decodeRune, if_neg h0, if_neg h2, if_neg h3, if_pos h4, if_pos hc]
                simp only [List.take_succ_cons, List.take_zero, List.cons_append, List.nil_append,
                  decodeRune, if_neg h0, if_neg h2, if_neg h3, if_pos h4, if_pos hc]
              · simp only [if_neg hc] at h
                simp [RuneError] at h
          · simp only [if_neg h4] at h
            simp [RuneError] at h

theorem decodeRune_size_ge (b0 : Nat) (rest : GoString)
    (h0 : ¬ b0 < 0x80)
    (h : ¬ ((decodeRune (b0 :: rest)).1 = RuneError ∧ (decodeRune (b0 :: rest)).2 = 1)) :
    2 ≤ (decodeRune (b0 :: rest)).2 := by
  unfold decodeRune at h ⊢
  simp only [if_neg h0] at h ⊢
  by_cases h2 : 0xC2 ≤ b0 ∧ b0 ≤ 0xDF
  · simp only [if_pos h2] at h ⊢
    rcases rest with _ | ⟨b1, r1⟩
    · simp [RuneError] at h
    · by_cases hb1 : 0x80 ≤ b1 ∧ b1 ≤ 0xBF
      · simp [hb1]
      · simp [hb1, RuneError] at h
  · simp only [if_neg h2] at h ⊢
    by_cases h3 : 0xE0 ≤ b0 ∧ b0 ≤ 0xEF
    · simp only [if_pos h3] at h ⊢
      rcases rest with _ | ⟨b1, _ | ⟨b2, r2⟩⟩
      · simp [RuneError] at h
      · simp [RuneError] at h
      · by_cases hc : (if b0 = 0xE0 then 0xA0 else 0x80) ≤ b1
            ∧ b1 ≤ (if b0 = 0xED then 0x9F else 0xBF) ∧ 0x80 ≤ b2 ∧ b2 ≤ 0xBF
        · simp only [if_pos hc]; simp
        · simp only [if_neg hc] at h
          simp [RuneError] at h
    · simp only [if_neg h3] at h ⊢
      by_cases h4 : 0xF0 ≤ b0 ∧ b0 ≤ 0xF4
      · simp only [if_pos h4] at h ⊢
        rcases rest with _ | ⟨b1, _ | ⟨b2, _ | ⟨b3, r3⟩⟩⟩
        · simp [RuneError] at h
        · simp [RuneError] at h
        · simp [RuneError] at h
        · by_cases hc : (if b0 = 0xF0 then 0x90 else 0x80) ≤ b1
              ∧ b1 ≤ (if b0 = 0xF4 then 0x8F else 0xBF)
              ∧ 0x80 ≤ b2 ∧ b2 ≤ 0xBF ∧ 0x80 ≤ b3 ∧ b3 ≤ 0xBF
          · simp only [if_pos hc]; simp
          · simp only [if_neg hc] at h
            simp [RuneError] at h
      · simp only [if_neg h4] at h
        simp [RuneError] at h
theorem decodeRune_bytes_ge (b0 : Nat) (rest : GoString) (h0 : ¬ b0 < 0x80)
    (h : ¬ ((decodeRune (b0 :: rest)).1 = RuneError ∧ (decodeRune (b0 :: rest)).2 = 1)) :
    ∀ b ∈ (b0 :: rest).take (decodeRune (b0 :: rest)).2, 0x80 ≤ b := by
  unfold decodeRune at h ⊢
  simp only [if_neg h0] at h ⊢
  by_cases h2 : 0xC2 ≤ b0 ∧ b0 ≤ 0xDF
  · simp only [if_pos h2] at h ⊢
    rcases rest with _ | ⟨b1, r1⟩
    · simp [RuneError] at h
    · by_cases hb1 : 0x80 ≤ b1 ∧ b1 ≤ 0xBF
      · simp only [if_pos hb1]
        intro b hb
        simp at hb
        omega
      · simp [hb1, RuneError] at h
  · simp only [if_neg h2] at h ⊢
    by_cases h3 : 0xE0 ≤ b0 ∧ b0 ≤ 0xEF
    · simp only [if_pos h3] at h ⊢
      rcases rest with _ | ⟨b1, _ | ⟨b2, r2⟩⟩
      · simp [RuneError] at h
      · simp [RuneError] at h
      · by_cases hc : (if b0 = 0xE0 then 0xA0 else 0x80) ≤ b1
            ∧ b1 ≤ (if b0 = 0xED then 0x9F else 0xBF) ∧ 0x80 ≤ b2 ∧ b2 ≤ 0xBF
        · simp only [if_pos hc]
          intro b hb
          simp at hb
          have := hc.1
          split_ifs at this <;> omega
        · simp only [if_neg hc] at h
          simp [RuneError] at h
    · simp only [if_neg h3] at h ⊢
      by_cases h4 : 0xF0 ≤ b0 ∧ b0 ≤ 0xF4
      · simp only [if_pos h4] at h ⊢
        rcases rest with _ | ⟨b1, _ | ⟨b2, _ | ⟨b3, r3⟩⟩⟩
        · simp [RuneError] at h
        · simp [RuneError] at h
        · simp [RuneError] at h
        · by_cases hc : (if b0 = 0xF0 then 0x90 else 0x80) ≤ b1
              ∧ b1 ≤ (if b0 = 0xF4 then 0x8F else 0xBF)
              ∧ 0x80 ≤ b2 ∧ b2 ≤ 0xBF ∧ 0x80 ≤ b3 ∧ b3 ≤ 0xBF
          · simp only [if_pos hc]
            intro b hb
            simp at hb
            have := hc.1
            split_ifs at this <;> omega
          · simp only [if_neg hc] at h
            simp [RuneError] at h
      · simp only [if_neg h4] at h
        simp [RuneError] at h

/-! ## String literals: what the encoder writes, the decoder reads back -/

theorem scanString_plain (pre t : GoString) (h : ∀ b ∈ pre, 32 ≤ b ∧ b ≠ 34 ∧ b ≠ 92) :
    scanString .inString (pre ++ t)
      = (scanString .inString t).map fun p => (pre ++ p.1, p.2) := by
  induction pre with
  | nil => simp only [List.nil_append]; cases scanString .inString t <;> rfl
  | cons b pre ih =>
    have hb := h b (List.mem_cons_self _ _)
    rw [List.cons_append, scanString, if_neg hb.2.1, if_neg hb.2.2, if_neg (by omega),
      ih (fun c hc => h c (List.mem_cons_of_mem _ hc))]
    cases scanString .inString t <;> simp

theorem hexValue_hexDigit (n : Nat) (h : n < 16) : hexValue (hexDigit n) = some n := by
  interval_cases n <;> rfl

theorem scanString_escapeByte (b : Nat) (t : GoString) (hb : b < 0x80) :
    scanString .inString (escapeByte b ++ t)
      = (scanString .inString t).map fun p => (escapeByte b ++ p.1, p.2) := by
  have h1 := hexValue_hexDigit (b / 16) (by omega)
  have h2 := hexValue_hexDigit (b % 16) (by omega)
  have h0 : hexValue 48 = some 0 := rfl
  unfold escapeByte
  split_ifs with c1 c2 c3 c4 c5 c6
  · rcases c1 with c1 | c1 <;> subst c1 <;> simp [scanString] <;>
      cases scanString .inString t <;> simp
  all_goals
    (simp [scanString, h1, h2, h0]; cases scanString .inString t <;> simp)

theorem scanString_u_escape (a b c d : Nat) (t : GoString)
    (ha : (hexValue a).isSome) (hb : (hexValue b).isSome) (hc : (hexValue c).isSome)
    (hd : (hexValue d).isSome) :
    scanString .inString (92 :: 117 :: a :: b :: c :: d :: t)
      = (scanString .inString t).map fun p => (92 :: 117 :: a :: b :: c :: d :: p.1, p.2) := by
  obtain ⟨va, ha⟩ := Option.isSome_iff_exists.mp ha
  obtain ⟨vb, hb⟩ := Option.isSome_iff_exists.mp hb
  obtain ⟨vc, hc⟩ := Option.isSome_iff_exists.mp hc
  obtain ⟨vd, hd⟩ := Option.isSome_iff_exists.mp hd
  simp [scanString, ha, hb, hc, hd]
  cases scanString .inString t <;> simp

/-- What the encoder writes between the quotes is scanned up to the closing
quote, whatever the Go string is. -/
theorem scanString_appendStringLoop (fuel : Nat) (s rest : GoString) :
    scanString .inString (appendStringLoop fuel s ++ 34 :: rest)
      = some (appendStringLoop fuel s, rest) := by
  induction fuel generalizing s with
  | zero => simp [appendStringLoop, scanString]
  | succ fuel ih =>
    rcases s with _ | ⟨b, tl⟩
    · simp [appendStringLoop, scanString]
    · unfold appendStringLoop
      simp only
      by_cases hb : b < 0x80
      · rw [if_pos hb]
        by_cases hsafe : htmlSafe b = true
        · rw [if_pos hsafe]
          have : 32 ≤ b ∧ b ≠ 34 ∧ b ≠ 92 := by
            simp [htmlSafe] at hsafe; omega
          have h1 := scanString_plain [b] (appendStringLoop fuel tl ++ 34 :: rest)
            (by simpa using this)
          simp only [List.cons_append, List.nil_append] at h1
          rw [List.cons_append, h1, ih]; rfl
        · rw [if_neg hsafe, List.append_assoc, scanString_escapeByte b _ hb, ih]; rfl
      · rw [if_neg hb, decodeRune_take_four]
        by_cases herr : (decodeRune (b :: tl)).1 = RuneError ∧ (decodeRune (b :: tl)).2 = 1
        · rw [if_pos herr]
          have := scanString_u_escape 102 102 102 100 (appendStringLoop fuel tl ++ 34 :: rest)
            rfl rfl rfl rfl
          rw [show str "\\ufffd" = [92, 117, 102, 102, 102, 100] from rfl]
          simp only [List.cons_append, List.nil_append]
          rw [this, ih]; rfl
        · rw [if_neg herr]
          by_cases hsep : (decodeRune (b :: tl)).1 = 0x2028 ∨ (decodeRune (b :: tl)).1 = 0x2029
          · rw [if_pos hsep]
            have hx : (hexValue (hexDigit ((decodeRune (b :: tl)).1 % 16))).isSome := by
              rw [hexValue_hexDigit _ (Nat.mod_lt _ (by decide))]; rfl
            have := scanString_u_escape 50 48 50 (hexDigit ((decodeRune (b :: tl)).1 % 16))
              (appendStringLoop fuel ((b :: tl).drop (decodeRune (b :: tl)).2) ++ 34 :: rest)
              rfl rfl rfl hx
            rw [show str "\\u202" = [92, 117, 50, 48, 50] from rfl]
            simp only [List.cons_append, List.nil_append]
            rw [this, ih]; rfl
          · rw [if_neg hsep, List.append_assoc, scanString_plain _ _ (fun c hc => by
              have := decodeRune_bytes_ge b tl hb herr c hc
              omega), ih]; rfl
theorem unquoteLoop_nil (fuel : Nat) : unquoteLoop fuel [] = some [] := by
  cases fuel <;> rfl

theorem unquoteLoop_ascii (f c : Nat) (t : GoString) (h : 32 ≤ c ∧ c < 0x80 ∧ c ≠ 34 ∧ c ≠ 92) :
    unquoteLoop (f + 1) (c :: t) = (unquoteLoop f t).map (c :: ·) := by
  conv => lhs; unfold unquoteLoop
  simp only
  rw [if_neg h.2.2.2, if_neg (by omega), if_pos h.2.1]

theorem encodeRune_ascii (b : Nat) (h : b < 0x80) : encodeRune b = [b] := by
  unfold encodeRune
  rw [if_pos (by omega)]

theorem unquoteLoop_u_escape (f a b c d va vb vc vd : Nat) (t : GoString)
    (ha : hexValue a = some va) (hb : hexValue b = some vb) (hc : hexValue c = some vc)
    (hd : hexValue d = some vd)
    (hns : ¬ (0xD800 ≤ va * 4096 + vb * 256 + vc * 16 + vd
              ∧ va * 4096 + vb * 256 + vc * 16 + vd < 0xE000)) :
    unquoteLoop (f + 1) (92 :: 117 :: a :: b :: c :: d :: t)
      = (unquoteLoop f t).map (encodeRune (va * 4096 + vb * 256 + vc * 16 + vd) ++ ·) := by
  conv => lhs; unfold unquoteLoop
  simp only [getu4, ha, hb, hc, hd, if_neg hns, List.drop_succ_cons, List.drop_zero]
  simp

theorem unquoteLoop_escapeByte (f b : Nat) (t : GoString) (hb : b < 0x80)
    (hsafe : htmlSafe b = false) :
    unquoteLoop (f + 1) (escapeByte b ++ t) = (unquoteLoop f t).map (b :: ·) := by
  unfold escapeByte
  split_ifs with c1 c2 c3 c4 c5 c6
  · rcases c1 with c1 | c1 <;> subst c1 <;> simp [unquoteLoop]
  · subst c2; simp [unquoteLoop]
  · subst c3; simp [unquoteLoop]
  · subst c4; simp [unquoteLoop]
  · subst c5; simp [unquoteLoop]
  · subst c6; simp [unquoteLoop]
  · have h1 := hexValue_hexDigit (b / 16) (by omega)
    have h2 := hexValue_hexDigit (b % 16) (by omega)
    have h0 : hexValue 48 = some 0 := rfl
    have := unquoteLoop_u_escape f 48 48 (hexDigit (b / 16)) (hexDigit (b % 16)) 0 0
      (b / 16) (b % 16) t h0 h0 h1 h2 (by omega)
    simp only [List.cons_append, List.nil_append]
    rw [this]
    have hval : 0 * 4096 + 0 * 256 + b / 16 * 16 + b % 16 = b := by omega
    rw [hval, encodeRune_ascii b hb]
    rfl

theorem length_escapeByte_pos (b : Nat) : 1 ≤ (escapeByte b).length := by
  unfold escapeByte
  split_ifs <;> simp

/-- Unquoting what the encoder wrote for a well-formed UTF-8 string gives the
string back. -/
theorem unquoteLoop_appendStringLoop (fuel : Nat) (s : GoString) (fuel2 : Nat)
    (hv : validUTF8Loop fuel s = true) (hlen : (appendStringLoop fuel s).length ≤ fuel2) :
    unquoteLoop fuel2 (appendStringLoop fuel s) = some s := by
  induction fuel generalizing s fuel2 with
  | zero =>
    have : s = [] := by simpa [validUTF8Loop] using hv
    subst this
    simp [appendStringLoop, unquoteLoop_nil]
  | succ fuel ih =>
    rcases s with _ | ⟨b, tl⟩
    · simp [appendStringLoop, unquoteLoop_nil]
    · unfold validUTF8Loop at hv
      simp only at hv
      by_cases herr : (decodeRune (b :: tl)).1 = RuneError ∧ (decodeRune (b :: tl)).2 = 1
      · rw [if_pos herr] at hv; exact absurd hv (by simp)
      · rw [if_neg herr] at hv
        unfold appendStringLoop at hlen ⊢
        simp only at hlen ⊢
        by_cases hb : b < 0x80
        · have hdec : decodeRune (b :: tl) = (b, 1) := by simp [decodeRune, hb]
          rw [hdec] at hv
          simp only [List.drop_succ_cons, List.drop_zero] at hv
          rw [if_pos hb] at hlen ⊢
          by_cases hsafe : htmlSafe b = true
          · rw [if_pos hsafe] at hlen ⊢
            obtain ⟨f2, rfl⟩ : ∃ f2, fuel2 = f2 + 1 := ⟨fuel2 - 1, by simp at hlen; omega⟩
            have : 32 ≤ b ∧ b < 0x80 ∧ b ≠ 34 ∧ b ≠ 92 := by
              simp [htmlSafe] at hsafe; omega
            rw [unquoteLoop_ascii f2 b _ this, ih tl f2 hv (by simp at hlen; omega)]
            rfl
          · rw [if_neg hsafe] at hlen ⊢
            have hl := length_escapeByte_pos b
            obtain ⟨f2, rfl⟩ : ∃ f2, fuel2 = f2 + 1 :=
              ⟨fuel2 - 1, by simp at hlen; omega⟩
            rw [unquoteLoop_escapeByte f2 b _ hb (by simpa using hsafe),
              ih tl f2 hv (by simp at hlen; omega)]
            rfl
        · rw [if_neg hb, decodeRune_take_four] at hlen ⊢
          rw [if_neg herr] at hlen ⊢
          obtain ⟨henc, h1, hle⟩ := decodeRune_encodeRune (b :: tl) (by simp) herr
          have hsz := decodeRune_size_ge b tl hb herr
          have htd : (b :: tl).take (decodeRune (b :: tl)).2
              ++ (b :: tl).drop (decodeRune (b :: tl)).2 = b :: tl := List.take_append_drop _ _
          by_cases hsep : (decodeRune (b :: tl)).1 = 0x2028 ∨ (decodeRune (b :: tl)).1 = 0x2029
          · rw [if_pos hsep] at hlen ⊢
            rw [show str "\\u202" = [92, 117, 50, 48, 50] from rfl] at hlen ⊢
            simp only [List.cons_append, List.nil_append] at hlen ⊢
            obtain ⟨f2, rfl⟩ : ∃ f2, fuel2 = f2 + 1 :=
              ⟨fuel2 - 1, by simp at hlen; omega⟩
            have hx := hexValue_hexDigit ((decodeRune (b :: tl)).1 % 16)
              (Nat.mod_lt _ (by decide))
            rw [unquoteLoop_u_escape f2 50 48 50 _ 2 0 2 _ _ rfl rfl rfl hx
                (by rcases hsep with h | h <;> rw [h] <;> decide),
              ih _ f2 hv (by simp at hlen; omega)]
            have hval : 2 * 4096 + 0 * 256 + 2 * 16 + (decodeRune (b :: tl)).1 % 16
                = (decodeRune (b :: tl)).1 := by
              rcases hsep with h | h <;> rw [h]
            rw [hval, ← henc]
            simp only [Option.map_some', htd]
          · rw [if_neg hsep] at hlen ⊢
            obtain ⟨f2, rfl⟩ : ∃ f2, fuel2 = f2 + 1 :=
              ⟨fuel2 - 1, by simp at hlen; omega⟩
            have hlt : ((b :: tl).take (decodeRune (b :: tl)).2).length
                = (decodeRune (b :: tl)).2 := by
              rw [List.length_take]; exact Nat.min_eq_left hle
            obtain ⟨tk, htk⟩ : ∃ tk, (b :: tl).take (decodeRune (b :: tl)).2 = b :: tk := by
              obtain ⟨n, hn⟩ : ∃ n, (decodeRune (b :: tl)).2 = n + 1 :=
                ⟨(decodeRune (b :: tl)).2 - 1, by omega⟩
              rw [hn]; exact ⟨_, rfl⟩
            have hdec := decodeRune_take_append (b :: tl)
              (appendStringLoop fuel (List.drop (decodeRune (b :: tl)).2 (b :: tl))) (by simp) herr
            have hstep : unquoteLoop (f2 + 1)
                ((b :: tl).take (decodeRune (b :: tl)).2
                  ++ appendStringLoop fuel (List.drop (decodeRune (b :: tl)).2 (b :: tl)))
                = (unquoteLoop f2
                    (appendStringLoop fuel (List.drop (decodeRune (b :: tl)).2 (b :: tl)))).map
                    (encodeRune (decodeRune (b :: tl)).1 ++ ·) := by
              have hdrop : List.drop (decodeRune (b :: tl)).2
                  ((b :: tl).take (decodeRune (b :: tl)).2
                    ++ appendStringLoop fuel (List.drop (decodeRune (b :: tl)).2 (b :: tl)))
                  = appendStringLoop fuel (List.drop (decodeRune (b :: tl)).2 (b :: tl)) := by
                rw [List.drop_append_of_le_length (by omega), List.drop_of_length_le (by omega)]
                rfl
              rw [htk] at hdec hdrop ⊢
              rw [List.cons_append] at hdec hdrop ⊢
              conv => lhs; unfold unquoteLoop
              simp only
              rw [if_neg (by omega), if_neg (by omega), if_neg hb, hdec, hdrop]
            rw [hstep, ih _ f2 hv (by simp at hlen; omega), ← henc]
            simp only [Option.map_some', htd]
/-! ## Number literals -/

theorem formatUint_spec (u : Nat) :
    ∃ d ds, formatUint u = d :: ds ∧ isDigit d = true ∧ ds.all isDigit = true
      ∧ (u ≠ 0 → d ≠ 48) ∧ (u = 0 → ds = []) := by
  induction u using Nat.strong_induction_on with
  | _ u ih =>
    by_cases h : u < 10
    · refine ⟨u + 48, [], formatUint_lt_ten u h, ?_, rfl, ?_, fun _ => rfl⟩
      · simp [isDigit]; omega
      · omega
    · obtain ⟨d, ds, h1, h2, h3, h4, _⟩ := ih (u / 10) (by omega)
      refine ⟨d, ds ++ [u % 10 + 48], ?_, h2, ?_, fun _ => h4 (by omega), fun h0 => by omega⟩
      · rw [formatUint_ge_ten u (by omega), h1]; rfl
      · rw [List.all_append, h3]
        simp [isDigit]; omega

theorem spanDigits_append (ds : GoString) (c : Nat) (t : GoString)
    (hds : ds.all isDigit = true) (hc : isDigit c = false) :
    spanDigits (ds ++ c :: t) = (ds, c :: t) := by
  induction ds with
  | nil => simp [spanDigits, hc]
  | cons d ds ih =>
    simp only [List.all_cons, Bool.and_eq_true] at hds
    simp [spanDigits, hds.1, ih hds.2]

theorem scanNumber_formatUint (u c : Nat) (t : GoString)
    (hc : isDigit c = false ∧ c ≠ 46 ∧ c ≠ 101 ∧ c ≠ 69) :
    scanNumber (formatUint u ++ c :: t) = some (formatUint u, c :: t) := by
  obtain ⟨d, ds, h1, h2, h3, h4, h5⟩ := formatUint_spec u
  have hd45 : d ≠ 45 := by simp [isDigit] at h2; omega
  rw [h1]
  unfold scanNumber
  by_cases h0 : u = 0
  · have hds := h5 h0
    subst hds
    have hd : d = 48 := by
      have := formatUint_lt_ten u (by omega)
      rw [h1, h0] at this
      simpa using this
    subst hd
    simp [isDigit, hc.2.1, hc.2.2.1, hc.2.2.2]
  · have hd := h4 h0
    simp [hd45, h2, hd, spanDigits_append ds c t h3 hc.1, hc.2.1, hc.2.2.1, hc.2.2.2]

theorem scanNumber_formatInt (n : Int) (c : Nat) (t : GoString)
    (hc : isDigit c = false ∧ c ≠ 46 ∧ c ≠ 101 ∧ c ≠ 69) :
    scanNumber (formatInt n ++ c :: t) = some (formatInt n, c :: t) := by
  unfold formatInt
  split
  · obtain ⟨d, ds, h1, h2, h3, h4, h5⟩ := formatUint_spec n.natAbs
    have hd45 : d ≠ 45 := by simp [isDigit] at h2; omega
    have hne : n.natAbs ≠ 0 := by omega
    have hd := h4 hne
    rw [h1]
    unfold scanNumber
    simp [hd45, h2, hd, spanDigits_append ds c t h3 hc.1, hc.2.1, hc.2.2.1, hc.2.2.2]
  · exact scanNumber_formatUint _ c t hc

theorem parseInt64_formatInt (n : Int) (h : -2 ^ 63 ≤ n ∧ n < 2 ^ 63) :
    parseInt64 (formatInt n) = some n := by
  obtain ⟨d, ds, h1, h2, h3, _, _⟩ := formatUint_spec n.natAbs
  have hval := digitsValue_formatUint n.natAbs
  have hall : (formatUint n.natAbs).all isDigit = true := by
    rw [h1, List.all_cons, h2, h3]; rfl
  have hne : formatUint n.natAbs ≠ [] := by rw [h1]; simp
  unfold formatInt
  split
  · rename_i hneg
    unfold parseInt64
    simp only
    rw [if_pos ⟨hne, hall, by rw [hval]; omega⟩, hval]
    congr 1
    omega
  · rename_i hpos
    have hd45 : d ≠ 45 := by simp [isDigit] at h2; omega
    have hd43 : d ≠ 43 := by simp [isDigit] at h2; omega
    rw [h1] at hval hall hne ⊢
    unfold parseInt64
    split
    · rename_i heq; simp at heq; omega
    · rename_i heq; simp at heq; omega
    · rw [if_pos ⟨hne, hall, by rw [hval]; omega⟩, hval]
      congr 1
      omega
/-! ## Reading back the text of a document -/

theorem parseValue_quote (f : Nat) (rest : GoString) :
    parseValue (f + 1) (34 :: rest)
      = match scanString .inString rest with
        | none => none
        | some (raw, r) => (unquote raw).map fun t => (.string t, r) := by
  simp [parseValue, skipSpace, isSpace]

theorem parseValue_string (f : Nat) (v t : GoString) (hv : validUTF8 v = true) :
    parseValue (f + 1) (appendString v ++ t) = some (.string v, t) := by
  have h1 : appendString v ++ t = 34 :: (appendStringLoop v.length v ++ 34 :: t) := by
    simp [appendString]
  rw [h1, parseValue_quote, scanString_appendStringLoop]
  simp [unquote, unquoteLoop_appendStringLoop v.length v _ hv (le_refl _)]

theorem formatInt_head (n : Int) :
    ∃ h tl, formatInt n = h :: tl ∧ (h = 45 ∨ isDigit h = true) := by
  unfold formatInt
  split
  · exact ⟨45, _, rfl, Or.inl rfl⟩
  · obtain ⟨d, ds, h1, h2, _⟩ := formatUint_spec n.natAbs
    exact ⟨d, ds, h1, Or.inr h2⟩

theorem parseValue_int (f : Nat) (n : Int) (c : Nat) (t : GoString)
    (hc : isDigit c = false ∧ c ≠ 46 ∧ c ≠ 101 ∧ c ≠ 69) :
    parseValue (f + 1) (formatInt n ++ c :: t) = some (.number (formatInt n), c :: t) := by
  obtain ⟨h, tl, hf, hh⟩ := formatInt_head n
  have hscan := scanNumber_formatInt n c t hc
  rw [hf] at hscan ⊢
  have hne : h ≠ 123 ∧ h ≠ 91 ∧ h ≠ 34 ∧ h ≠ 116 ∧ h ≠ 102 ∧ h ≠ 110 ∧ isSpace h = false := by
    rcases hh with hh | hh
    · subst hh; decide
    · simp [isDigit] at hh
      simp [isSpace]; omega
  rw [parseValue]
  simp only [List.cons_append, skipSpace, hne.2.2.2.2.2.2]
  simp only [Bool.false_eq_true, if_false, if_neg hne.1, if_neg hne.2.1, if_neg hne.2.2.1,
    if_neg hne.2.2.2.1, if_neg hne.2.2.2.2.1, if_neg hne.2.2.2.2.2.1]
  rw [if_pos (by rcases hh with hh | hh; exact Or.inl hh; exact Or.inr hh)]
  have happ : h :: tl.append (c :: t) = (h :: tl) ++ c :: t := rfl
  rw [happ, hscan]
  rfl

theorem scanString_key (key t : GoString) (hk : ∀ b ∈ key, 32 ≤ b ∧ b ≠ 34 ∧ b ≠ 92) :
    scanString .inString (key ++ 34 :: t) = some (key, t) := by
  rw [scanString_plain key _ hk]
  simp [scanString]

theorem parseMembers_strMember_comma (f : Nat) (key v next : GoString)
    (acc : List (GoString × Json)) (hk : ∀ b ∈ key, 32 ≤ b ∧ b ≠ 34 ∧ b ≠ 92)
    (hu : unquote key = some key) (hv : validUTF8 v = true) :
    parseMembers (f + 2) (strMember key v (44 :: next)) acc
      = parseMembers (f + 1) (skipSpace next) (acc ++ [(key, .string v)]) := by
  unfold strMember
  rw [parseMembers]
  simp only [scanString_key key _ hk, hu]
  have h58 : skipSpace (58 :: (appendString v ++ 44 :: next)) = 58 :: (appendString v ++ 44 :: next) := rfl
  have h44 : skipSpace (44 :: next) = 44 :: next := rfl
  simp only [h58, parseValue_string f v _ hv, h44]

theorem parseMembers_strMember_end (f : Nat) (key v next : GoString)
    (acc : List (GoString × Json)) (hk : ∀ b ∈ key, 32 ≤ b ∧ b ≠ 34 ∧ b ≠ 92)
    (hu : unquote key = some key) (hv : validUTF8 v = true) :
    parseMembers (f + 2) (strMember key v (125 :: next)) acc
      = some (.object (acc ++ [(key, .string v)]), next) := by
  unfold strMember
  rw [parseMembers]
  simp only [scanString_key key _ hk, hu]
  have h58 : skipSpace (58 :: (appendString v ++ 125 :: next)) = 58 :: (appendString v ++ 125 :: next) := rfl
  have h125 : skipSpace (125 :: next) = 125 :: next := rfl
  simp only [h58, parseValue_string f v _ hv, h125]

theorem parseMembers_intMember_comma (f : Nat) (key : GoString) (n : Int) (next : GoString)
    (acc : List (GoString × Json)) (hk : ∀ b ∈ key, 32 ≤ b ∧ b ≠ 34 ∧ b ≠ 92)
    (hu : unquote key = some key) :
    parseMembers (f + 2) (intMember key n (44 :: next)) acc
      = parseMembers (f + 1) (skipSpace next) (acc ++ [(key, .number (formatInt n))]) := by
  unfold intMember
  rw [parseMembers]
  simp only [scanString_key key _ hk, hu]
  have h58 : skipSpace (58 :: (formatInt n ++ 44 :: next)) = 58 :: (formatInt n ++ 44 :: next) := rfl
  have h44 : skipSpace (44 :: next) = 44 :: next := rfl
  simp only [h58, parseValue_int f n 44 next (by decide), h44]

theorem skipSpace_strMember (key v rest : GoString) :
    skipSpace (strMember key v rest) = strMember key v rest := rfl

theorem skipSpace_intMember (key : GoString) (n : Int) (rest : GoString) :
    skipSpace (intMember key n rest) = intMember key n rest := rfl

theorem XKCD.json_eq_members (x : XKCD) :
    x.json = 123 ::
      strMember (str "month") x.Month (44 ::
      intMember (str "num") x.Num (44 ::
      strMember (str "link") x.Link (44 ::
      strMember (str "year") x.Year (44 ::
      strMember (str "news") x.News (44 ::
      strMember (str "safe_title") x.SafeTitle (44 ::
      strMember (str "transcript") x.Transcript (44 ::
      strMember (str "alt") x.Alt (44 ::
      strMember (str "img") x.Img (44 ::
      strMember (str "title") x.Title (44 ::
      strMember (str "day") x.Day [125])))))))))) := by
  simp [XKCD.json, strMember, intMember, str]

theorem parseValue_object (f : Nat) (key v rest : GoString) :
    parseValue (f + 1) (123 :: strMember key v rest)
      = parseMembers f (strMember key v rest) [] := by
  simp [parseValue, skipSpace, isSpace, strMember]

theorem parseValue_json (x : XKCD) (hv : x.validUTF8 = true) (f : Nat) :
    parseValue (f + 13) x.json = some (x.jsonValue, []) := by
  simp only [XKCD.validUTF8, Bool.and_eq_true] at hv
  obtain ⟨⟨⟨⟨⟨⟨⟨⟨⟨h1, h2⟩, h3⟩, h4⟩, h5⟩, h6⟩, h7⟩, h8⟩, h9⟩, h10⟩ := hv
  rw [XKCD.json_eq_members, parseValue_object]
  rw [parseMembers_strMember_comma _ _ _ _ _ (by decide) (by decide) h1, skipSpace_intMember,
    parseMembers_intMember_comma _ _ _ _ _ (by decide) (by decide), skipSpace_strMember,
    parseMembers_strMember_comma _ _ _ _ _ (by decide) (by decide) h2, skipSpace_strMember,
    parseMembers_strMember_comma _ _ _ _ _ (by decide) (by decide) h3, skipSpace_strMember,
    parseMembers_strMember_comma _ _ _ _ _ (by decide) (by decide) h4, skipSpace_strMember,
    parseMembers_strMember_comma _ _ _ _ _ (by decide) (by decide) h5, skipSpace_strMember,
    parseMembers_strMember_comma _ _ _ _ _ (by decide) (by decide) h6, skipSpace_strMember,
    parseMembers_strMember_comma _ _ _ _ _ (by decide) (by decide) h7, skipSpace_strMember,
    parseMembers_strMember_comma _ _ _ _ _ (by decide) (by decide) h8, skipSpace_strMember,
    parseMembers_strMember_comma _ _ _ _ _ (by decide) (by decide) h9, skipSpace_strMember,
    parseMembers_strMember_end _ _ _ _ _ (by decide) (by decide) h10]
  rfl
theorem length_json_ge (x : XKCD) : 6 ≤ x.json.length := by
  rw [XKCD.json_eq_members]
  simp [strMember, intMember]
  omega

theorem readValue_json (x : XKCD) (hv : x.validUTF8 = true) :
    readValue x.json = some x.jsonValue := by
  unfold readValue
  obtain ⟨f, hf⟩ : ∃ f, 2 * x.json.length + 2 = f + 13 :=
    ⟨2 * x.json.length + 2 - 13, by have := length_json_ge x; omega⟩
  rw [hf, parseValue_json x hv f]
  have hd : x.jsonValue.depth = 1 := by
    simp [XKCD.jsonValue, Json.depth, Json.depthMembers]
  simp only [hd, maxNestingDepth]
  rfl

theorem store_jsonValue (x : XKCD) (hn : -2 ^ 63 ≤ x.Num ∧ x.Num < 2 ^ 63) :
    Searcher.XKCD.store x.jsonValue (Searcher.XKCD.zero, none) = (x.toSearcher, none) := by
  have hnum := parseInt64_formatInt x.Num hn
  have k1 : findField Searcher.XKCD.fields (str "month") = Searcher.XKCD.fields[0]? := rfl
  have k2 : findField Searcher.XKCD.fields (str "num") = Searcher.XKCD.fields[1]? := rfl
  have k3 : findField Searcher.XKCD.fields (str "link") = Searcher.XKCD.fields[2]? := rfl
  have k4 : findField Searcher.XKCD.fields (str "year") = Searcher.XKCD.fields[3]? := rfl
  have k5 : findField Searcher.XKCD.fields (str "news") = Searcher.XKCD.fields[4]? := rfl
  have k6 : findField Searcher.XKCD.fields (str "safe_title") = Searcher.XKCD.fields[5]? := rfl
  have k7 : findField Searcher.XKCD.fields (str "transcript") = Searcher.XKCD.fields[6]? := rfl
  have k8 : findField Searcher.XKCD.fields (str "alt") = Searcher.XKCD.fields[7]? := rfl
  have k9 : findField Searcher.XKCD.fields (str "img") = Searcher.XKCD.fields[8]? := rfl
  have k10 : findField Searcher.XKCD.fields (str "title") = Searcher.XKCD.fields[9]? := rfl
  have k11 : findField Searcher.XKCD.fields (str "day") = Searcher.XKCD.fields[10]? := rfl
  simp only [Searcher.XKCD.store, storeStruct, XKCD.jsonValue, List.foldl,
    k1, k2, k3, k4, k5, k6, k7, k8, k9, k10, k11]
  simp [Searcher.XKCD.fields, mkField, storeString, storeInt, hnum, XKCD.toSearcher,
    Searcher.XKCD.zero]

/-! ## The fuel of the scanner is enough -/

theorem skipSpace_length_le (s : GoString) : (skipSpace s).length ≤ s.length := by
  induction s with
  | nil => simp [skipSpace]
  | cons c rest ih =>
    unfold skipSpace
    split_ifs
    · simp only [List.length_cons]; omega
    · exact le_refl _

theorem scanString_length_lt (s : GoString) :
    ∀ st raw r, scanString st s = some (raw, r) → r.length < s.length := by
  induction s with
  | nil => intro st raw r h; cases st <;> simp [scanString] at h
  | cons c rest ih =>
    intro st raw r h
    have key : ∀ st1 : StrState,
        ((scanString st1 rest).map fun p => (c :: p.1, p.2)) = some (raw, r) →
          r.length < (c :: rest).length := by
      intro st1 h1
      cases hs : scanString st1 rest with
      | none => rw [hs] at h1; cases h1
      | some p =>
        rw [hs] at h1
        simp only [Option.map_some', Option.some.injEq, Prod.mk.injEq] at h1
        have := ih st1 p.1 p.2 hs
        rw [h1.2] at this
        simp only [List.length_cons]; omega
    cases st with
    | inString =>
      simp only [scanString] at h
      split_ifs at h
      · simp only [Option.some.injEq, Prod.mk.injEq] at h
        rw [← h.2]; simp
      · exact key _ h
      · exact key _ h
    | esc =>
      simp only [scanString] at h
      split_ifs at h
      · exact key _ h
      · exact key _ h
    | hex n =>
      simp only [scanString] at h
      split at h
      · cases h
      · split_ifs at h
        · exact key _ h
        · exact key _ h

theorem spanDigits_length_le (s : GoString) : (spanDigits s).2.length ≤ s.length := by
  induction s with
  | nil => simp [spanDigits]
  | cons c rest ih =>
    unfold spanDigits
    split_ifs
    · simp only [List.length_cons]; omega
    · exact le_refl _

theorem stripLiteral_length_le (lit : GoString) :
    ∀ s r, stripLiteral lit s = some r → r.length ≤ s.length := by
  induction lit with
  | nil => intro s r h; simp only [stripLiteral, Option.some.injEq] at h; rw [h]
  | cons c lit ih =>
    intro s r h
    cases s with
    | nil => simp [stripLiteral] at h
    | cons d s =>
      simp only [stripLiteral] at h
      split_ifs at h
      have := ih s r h
      simp only [List.length_cons]; omega
theorem scanNumber_length_lt (s lit r : GoString) (h : scanNumber s = some (lit, r)) :
    r.length < s.length := by
  unfold scanNumber at h
  simp only at h
  split at h
  · cases h
  · rename_i d r0 hs1
    have hr0 : r0.length < s.length := by
      split at hs1
      · simp only at hs1; simp only [List.length_cons, hs1]; omega
      · simp only at hs1; simp only [List.length_cons, hs1]; omega
    clear hs1
    split at h
    · cases h
    · split at h
      · cases h
      · rename_i fracPart s3 hfrac
        have hs3 : s3.length ≤ r0.length := by
          have h2 : (if d = 48 then (([48] : GoString), r0)
              else (d :: (spanDigits r0).1, (spanDigits r0).2)).2.length ≤ r0.length := by
            split_ifs
            · exact le_refl _
            · exact spanDigits_length_le r0
          revert hfrac h2
          generalize (if d = 48 then (([48] : GoString), r0)
              else (d :: (spanDigits r0).1, (spanDigits r0).2)).2 = s2
          intro hfrac h2
          split at hfrac
          · rename_i r2
            split_ifs at hfrac
            simp only [Option.some.injEq, Prod.mk.injEq] at hfrac
            have := spanDigits_length_le r2
            rw [← hfrac.2]
            simp only [List.length_cons] at h2
            omega
          · simp only [Option.some.injEq, Prod.mk.injEq] at hfrac
            rw [← hfrac.2]; exact h2
        clear hfrac
        split at h
        · cases h
        · rename_i expPart s4 hexp
          have hs4 : s4.length ≤ s3.length := by
            split at hexp
            · rename_i e r3
              split_ifs at hexp
              · simp only [Option.some.injEq, Prod.mk.injEq] at hexp
                rw [← hexp.2]
                refine le_trans (spanDigits_length_le _) ?_
                split
                · simp only [List.length_cons]; omega
                · simp only [List.length_cons]; omega
                · simp only [List.length_cons]; omega
              · simp only [Option.some.injEq, Prod.mk.injEq] at hexp
                rw [← hexp.2]
            · simp only [Option.some.injEq, Prod.mk.injEq] at hexp
              rw [← hexp.2]
          simp only [Option.some.injEq, Prod.mk.injEq] at h
          rw [← h.2]; omega
/-- A value the scanner finds with some fuel it finds with any fuel that is
twice the number of bytes read, and it reads at least one byte. -/
theorem parse_fuel (fuel : Nat) :
    (∀ s v r, parseValue fuel s = some (v, r) →
      r.length < s.length ∧
        ∀ f, 2 * (s.length - r.length) ≤ f → parseValue f s = some (v, r)) ∧
    (∀ s acc v r, parseElements fuel s acc = some (v, r) →
      r.length < s.length ∧
        ∀ f, 2 * (s.length - r.length) ≤ f → parseElements f s acc = some (v, r)) ∧
    (∀ s acc v r, parseMembers fuel s acc = some (v, r) →
      r.length < s.length ∧
        ∀ f, 2 * (s.length - r.length) ≤ f → parseMembers f s acc = some (v, r)) := by
  induction fuel with
  | zero =>
    refine ⟨?_, ?_, ?_⟩
    · intro s v r h; simp [parseValue] at h
    · intro s acc v r h; simp [parseElements] at h
    · intro s acc v r h; simp [parseMembers] at h
  | succ fuel ih =>
    obtain ⟨ihV, ihE, ihM⟩ := ih
    refine ⟨?_, ?_, ?_⟩
    · intro s v r h
      have hsk := skipSpace_length_le s
      rw [parseValue] at h
      cases hs : skipSpace s with
      | nil => rw [hs] at h; cases h
      | cons c rest =>
        rw [hs] at h; simp only at h
        rw [hs, List.length_cons] at hsk
        have hsk2 := skipSpace_length_le rest
        -- a scalar: the value is read without a nested call
        have scalar : ∀ (o : Option (Json × GoString)), o = some (v, r) →
            (∀ f, parseValue (f + 1) s = o) → r.length ≤ rest.length →
            r.length < s.length ∧
              ∀ f, 2 * (s.length - r.length) ≤ f → parseValue f s = some (v, r) := by
          intro o ho hpv hle
          refine ⟨by omega, ?_⟩
          intro f hf
          obtain ⟨f', rfl⟩ : ∃ f', f = f' + 1 := ⟨f - 1, by omega⟩
          rw [hpv f', ho]
        have literal : ∀ (lit : GoString) (j : Json),
            ((stripLiteral lit rest).map fun r => (j, r)) = some (v, r) →
              r.length ≤ rest.length := by
          intro lit j hl
          cases hst : stripLiteral lit rest with
          | none => rw [hst] at hl; cases hl
          | some r1 =>
            rw [hst] at hl
            simp only [Option.map_some', Option.some.injEq, Prod.mk.injEq] at hl
            rw [← hl.2]
            exact stripLiteral_length_le lit rest r1 hst
        split_ifs at h with h1 h2 h3 h4 h5 h6 h7
        · split at h
          · rename_i r' heq
            simp only [Option.some.injEq, Prod.mk.injEq] at h
            obtain ⟨rfl, rfl⟩ := h
            rw [heq, List.length_cons] at hsk2
            refine ⟨by omega, ?_⟩
            intro f hf
            obtain ⟨f', rfl⟩ : ∃ f', f = f' + 1 := ⟨f - 1, by omega⟩
            rw [parseValue, hs]
            simp only [if_pos h1]
            rw [heq]
          · rename_i r0 hne
            obtain ⟨hlt, hf0⟩ := ihM _ _ _ _ h
            refine ⟨by omega, ?_⟩
            intro f hf
            obtain ⟨f', rfl⟩ : ∃ f', f = f' + 1 := ⟨f - 1, by omega⟩
            rw [parseValue, hs]
            simp only [if_pos h1]
            exact hf0 f' (by omega)
        · split at h
          · rename_i r' heq
            simp only [Option.some.injEq, Prod.mk.injEq] at h
            obtain ⟨rfl, rfl⟩ := h
            rw [heq, List.length_cons] at hsk2
            refine ⟨by omega, ?_⟩
            intro f hf
            obtain ⟨f', rfl⟩ : ∃ f', f = f' + 1 := ⟨f - 1, by omega⟩
            rw [parseValue, hs]
            simp only [if_neg h1, if_pos h2]
            rw [heq]
          · rename_i r0 hne
            obtain ⟨hlt, hf0⟩ := ihE _ _ _ _ h
            refine ⟨by omega, ?_⟩
            intro f hf
            obtain ⟨f', rfl⟩ : ∃ f', f = f' + 1 := ⟨f - 1, by omega⟩
            rw [parseValue, hs]
            simp only [if_neg h1, if_pos h2]
            exact hf0 f' (by omega)
        · refine scalar _ h
            (fun f => by rw [parseValue, hs]; simp only [if_neg h1, if_neg h2, if_pos h3]) ?_
          cases hsc : scanString .inString rest with
          | none => rw [hsc] at h; cases h
          | some p =>
            rw [hsc] at h
            simp only at h
            cases hu : unquote p.1 with
            | none => rw [hu] at h; cases h
            | some t =>
              rw [hu] at h
              simp only [Option.map_some', Option.some.injEq, Prod.mk.injEq] at h
              rw [← h.2]
              exact le_of_lt (scanString_length_lt rest _ p.1 p.2 hsc)
        · exact scalar _ h
            (fun f => by rw [parseValue, hs]; simp only [if_neg h1, if_neg h2, if_neg h3, if_pos h4])
            (literal _ _ h)
        · exact scalar _ h
            (fun f => by rw [parseValue, hs]; simp only [if_neg h1, if_neg h2, if_neg h3, if_neg h4, if_pos h5])
            (literal _ _ h)
        · exact scalar _ h
            (fun f => by rw [parseValue, hs]; simp only [if_neg h1, if_neg h2, if_neg h3, if_neg h4, if_neg h5, if_pos h6])
            (literal _ _ h)
        · refine scalar _ h
            (fun f => by
              rw [parseValue, hs]; simp only [if_neg h1, if_neg h2, if_neg h3, if_neg h4, if_neg h5, if_neg h6, if_pos h7]) ?_
          cases hn : scanNumber (c :: rest) with
          | none => rw [hn] at h; cases h
          | some p =>
            rw [hn] at h
            simp only [Option.map_some', Option.some.injEq, Prod.mk.injEq] at h
            have := scanNumber_length_lt _ p.1 p.2 hn
            rw [← h.2]
            simp only [List.length_cons] at this
            omega
    · intro s acc v r h
      rw [parseElements] at h
      cases hv : parseValue fuel s with
      | none => rw [hv] at h; cases h
      | some p =>
        obtain ⟨v1, r1⟩ := p
        rw [hv] at h
        simp only at h
        obtain ⟨hlt1, hf1⟩ := ihV _ _ _ hv
        have hsk := skipSpace_length_le r1
        split at h
        · rename_i r' heq
          obtain ⟨hlt2, hf2⟩ := ihE _ _ _ _ h
          rw [heq, List.length_cons] at hsk
          refine ⟨by omega, ?_⟩
          intro f hf
          obtain ⟨f', rfl⟩ : ∃ f', f = f' + 1 := ⟨f - 1, by omega⟩
          rw [parseElements, hf1 f' (by omega)]
          simp only [heq]
          exact hf2 f' (by omega)
        · rename_i r' heq
          simp only [Option.some.injEq, Prod.mk.injEq] at h
          obtain ⟨rfl, rfl⟩ := h
          rw [heq, List.length_cons] at hsk
          refine ⟨by omega, ?_⟩
          intro f hf
          obtain ⟨f', rfl⟩ : ∃ f', f = f' + 1 := ⟨f - 1, by omega⟩
          rw [parseElements, hf1 f' (by omega)]
          simp only [heq]
        · cases h
    · intro s acc v r h
      unfold parseMembers at h
      split at h
      · rename_i rest
        cases hsc : scanString .inString rest with
        | none => rw [hsc] at h; cases h
        | some p =>
          obtain ⟨raw, r0⟩ := p
          rw [hsc] at h
          simp only at h
          have hl0 := scanString_length_lt rest _ raw r0 hsc
          cases hu : unquote raw with
          | none => rw [hu] at h; cases h
          | some key =>
            rw [hu] at h
            simp only at h
            have hsk0 := skipSpace_length_le r0
            split at h
            · rename_i r1 heq1
              rw [heq1, List.length_cons] at hsk0
              cases hv : parseValue fuel r1 with
              | none => rw [hv] at h; cases h
              | some q =>
                obtain ⟨v1, r2⟩ := q
                rw [hv] at h
                simp only at h
                obtain ⟨hlt1, hf1⟩ := ihV _ _ _ hv
                have hsk2 := skipSpace_length_le r2
                split at h
                · rename_i r3 heq3
                  obtain ⟨hlt2, hf2⟩ := ihM _ _ _ _ h
                  have hsk3 := skipSpace_length_le r3
                  rw [heq3, List.length_cons] at hsk2
                  refine ⟨by simp only [List.length_cons]; omega, ?_⟩
                  intro f hf
                  simp only [List.length_cons] at hf
                  obtain ⟨f', rfl⟩ : ∃ f', f = f' + 1 := ⟨f - 1, by omega⟩
                  rw [parseMembers, hsc]
                  simp only [hu, heq1]
                  rw [hf1 f' (by omega)]
                  simp only [heq3]
                  exact hf2 f' (by omega)
                · rename_i r3 heq3
                  simp only [Option.some.injEq, Prod.mk.injEq] at h
                  obtain ⟨rfl, rfl⟩ := h
                  rw [heq3, List.length_cons] at hsk2
                  refine ⟨by simp only [List.length_cons]; omega, ?_⟩
                  intro f hf
                  simp only [List.length_cons] at hf
                  obtain ⟨f', rfl⟩ : ∃ f', f = f' + 1 := ⟨f - 1, by omega⟩
                  rw [parseMembers, hsc]
                  simp only [hu, heq1]
                  rw [hf1 f' (by omega)]
                  simp only [heq3]
                · cases h
            · cases h
      · cases h

/-- The fuel of `readValue` is enough: a value the scanner finds with any fuel
it finds with that of `readValue`. -/
theorem parseValue_enough_fuel (fuel : Nat) (body : GoString) (v : Json) (r : GoString)
    (h : parseValue fuel body = some (v, r)) :
    parseValue (2 * body.length + 2) body = some (v, r) :=
  ((parse_fuel fuel).1 body v r h).2 _ (by omega)

/-- A text has no first value for `readValue` only if the scanner finds none
whatever the fuel, or finds one nested deeper than `maxNestingDepth`. -/
theorem readValue_eq_none_iff (body : GoString) :
    readValue body = none ↔
      ∀ fuel v r, parseValue fuel body = some (v, r) → maxNestingDepth < v.depth := by
  unfold readValue
  constructor
  · intro h fuel v r hp
    rw [parseValue_enough_fuel fuel body v r hp] at h
    simp only at h
    split_ifs at h with hd
    omega
  · intro h
    cases hp : parseValue (2 * body.length + 2) body with
    | none => rfl
    | some p =>
      obtain ⟨v, r⟩ := p
      have := h _ v r hp
      simp only
      rw [if_neg (by omega)]

/-! ## The scanner and `unquoteBytes` agree on string literals -/

theorem map_cons_eq_some (o : Option (GoString × GoString)) (c : Nat) (raw r : GoString)
    (h : (o.map fun p => (c :: p.1, p.2)) = some (raw, r)) :
    ∃ p, o = some (p, r) ∧ raw = c :: p := by
  cases o with
  | none => cases h
  | some q =>
    simp only [Option.map_some', Option.some.injEq, Prod.mk.injEq] at h
    exact ⟨q.1, by rw [← h.2], h.1.symm⟩

theorem scanString_hex (n : Nat) (s raw r : GoString)
    (h : scanString (.hex n) s = some (raw, r)) :
    ∃ d p s', raw = d :: p ∧ (hexValue d).isSome = true ∧
      scanString (if n ≤ 1 then .inString else .hex (n - 1)) s' = some (p, r) := by
  cases s with
  | nil => simp [scanString] at h
  | cons c rest =>
    simp only [scanString] at h
    cases hc : hexValue c with
    | none => rw [hc] at h; cases h
    | some x =>
      rw [hc] at h
      simp only at h
      split_ifs at h with hn
      · obtain ⟨p, hp, hraw⟩ := map_cons_eq_some _ _ _ _ h
        exact ⟨c, p, rest, hraw, by rw [hc]; rfl, by rw [if_pos hn]; exact hp⟩
      · obtain ⟨p, hp, hraw⟩ := map_cons_eq_some _ _ _ _ h
        exact ⟨c, p, rest, hraw, by rw [hc]; rfl, by rw [if_neg hn]; exact hp⟩

/-- What the scanner takes for the text of a string literal is empty, or starts
with a plain byte, a one-letter escape or a `\u` escape with four hexadecimal
digits, and goes on with such a text. -/
theorem scanString_cases (s raw r : GoString) (h : scanString .inString s = some (raw, r)) :
    raw = [] ∨
    (∃ c p s', raw = c :: p ∧ 32 ≤ c ∧ c ≠ 34 ∧ c ≠ 92 ∧
      scanString .inString s' = some (p, r)) ∨
    (∃ e p s', raw = 92 :: e :: p ∧
      (e = 98 ∨ e = 102 ∨ e = 110 ∨ e = 114 ∨ e = 116 ∨ e = 92 ∨ e = 47 ∨ e = 34) ∧
      scanString .inString s' = some (p, r)) ∨
    (∃ a b c d p s', raw = 92 :: 117 :: a :: b :: c :: d :: p ∧
      (hexValue a).isSome = true ∧ (hexValue b).isSome = true ∧
      (hexValue c).isSome = true ∧ (hexValue d).isSome = true ∧
      scanString .inString s' = some (p, r)) := by
  cases s with
  | nil => simp [scanString] at h
  | cons c rest =>
    simp only [scanString] at h
    split_ifs at h with h1 h2 h3
    · simp only [Option.some.injEq, Prod.mk.injEq] at h
      exact Or.inl h.1.symm
    · obtain ⟨p, hp, hraw⟩ := map_cons_eq_some _ _ _ _ h
      subst h2
      cases rest with
      | nil => simp [scanString] at hp
      | cons e rest2 =>
        simp only [scanString] at hp
        split_ifs at hp with h4 h5
        · obtain ⟨p2, hp2, hraw2⟩ := map_cons_eq_some _ _ _ _ hp
          exact Or.inr (Or.inr (Or.inl ⟨e, p2, rest2, by rw [hraw, hraw2], h4, hp2⟩))
        · obtain ⟨p2, hp2, hraw2⟩ := map_cons_eq_some _ _ _ _ hp
          subst h5
          obtain ⟨a, pa, sa, ra, ha, hpa⟩ := scanString_hex _ _ _ _ hp2
          obtain ⟨b, pb, sb, rb, hb, hpb⟩ := scanString_hex _ _ _ _ hpa
          obtain ⟨c, pc, sc, rc, hc, hpc⟩ := scanString_hex _ _ _ _ hpb
          obtain ⟨d, pd, sd, rd, hd, hpd⟩ := scanString_hex _ _ _ _ hpc
          exact Or.inr (Or.inr (Or.inr ⟨a, b, c, d, pd, sd,
            by rw [hraw, hraw2, ra, rb, rc, rd], ha, hb, hc, hd, hpd⟩))
    · obtain ⟨p, hp, hraw⟩ := map_cons_eq_some _ _ _ _ h
      exact Or.inr (Or.inl ⟨c, p, rest, hraw, by omega, h1, h2, hp⟩)
theorem scanString_drop (k : Nat) : ∀ raw r s, scanString .inString s = some (raw, r) →
    k ≤ raw.length → (∀ b ∈ raw.take k, 0x80 ≤ b) →
    ∃ s', scanString .inString s' = some (raw.drop k, r) := by
  induction k with
  | zero => intro raw r s h _ _; exact ⟨s, h⟩
  | succ k ih =>
    intro raw r s h hk hb
    rcases scanString_cases s raw r h with h0 | ⟨c, p, s', rfl, _, _, _, hp⟩ |
      ⟨e, p, s', rfl, _, _⟩ | ⟨a, b, c, d, p, s', rfl, _⟩
    · subst h0; simp at hk
    · simp only [List.drop_succ_cons]
      refine ih p r s' hp (by simpa using hk) ?_
      intro b hbm
      exact hb b (by simp only [List.take_succ_cons]; exact List.mem_cons_of_mem _ hbm)
    · have := hb 92 (by simp)
      omega
    · have := hb 92 (by simp)
      omega

theorem decodeRune_span (c : Nat) (p : GoString) (hc : ¬ c < 0x80) :
    1 ≤ (decodeRune (c :: p)).2 ∧ (decodeRune (c :: p)).2 ≤ (c :: p).length ∧
      ∀ b ∈ (c :: p).take (decodeRune (c :: p)).2, 0x80 ≤ b := by
  by_cases h : (decodeRune (c :: p)).1 = RuneError ∧ (decodeRune (c :: p)).2 = 1
  · rw [h.2]
    refine ⟨le_refl _, by simp, ?_⟩
    intro b hb
    simp only [List.take_succ_cons, List.take_zero, List.mem_singleton] at hb
    omega
  · obtain ⟨_, h1, h2⟩ := decodeRune_encodeRune (c :: p) (by simp) h
    exact ⟨h1, h2, decodeRune_bytes_ge c p hc h⟩

theorem getu4_some (p : GoString) (x : Nat) (h : getu4 p = some x) :
    ∃ a b c d t, p = 92 :: 117 :: a :: b :: c :: d :: t := by
  unfold getu4 at h
  split at h
  · exact ⟨_, _, _, _, _, rfl⟩
  · cases h

/-- The text of a string literal the scanner accepts is one `unquoteBytes`
accepts: the scanner has checked the escapes. -/
theorem unquoteLoop_scanned (n : Nat) : ∀ raw r s, raw.length ≤ n →
    scanString .inString s = some (raw, r) → ∀ fuel, raw.length ≤ fuel →
    (unquoteLoop fuel raw).isSome = true := by
  induction n with
  | zero =>
    intro raw r s hn _ fuel _
    have : raw = [] := List.eq_nil_of_length_eq_zero (by omega)
    rw [this, unquoteLoop_nil]; rfl
  | succ n ih =>
    intro raw r s hn h fuel hfuel
    rcases scanString_cases s raw r h with h0 | ⟨c, p, s', rfl, hc32, hc34, hc92, hp⟩ |
      ⟨e, p, s', rfl, he, hp⟩ | ⟨a, b, c, d, p, s', rfl, ha, hb, hc, hd, hp⟩
    · rw [h0, unquoteLoop_nil]; rfl
    · simp only [List.length_cons] at hn hfuel
      obtain ⟨f, rfl⟩ : ∃ f, fuel = f + 1 := ⟨fuel - 1, by omega⟩
      unfold unquoteLoop
      simp only
      rw [if_neg hc92, if_neg (by omega)]
      split_ifs with h80
      · rw [Option.isSome_map']
        exact ih p r s' (by omega) hp f (by omega)
      · rw [Option.isSome_map']
        obtain ⟨h1, h2, h3⟩ := decodeRune_span c p h80
        obtain ⟨s2, hs2⟩ := scanString_drop _ _ r s h h2 h3
        refine ih _ r s2 ?_ hs2 f ?_
        · simp only [List.length_drop, List.length_cons]; omega
        · simp only [List.length_drop, List.length_cons]; omega
    · simp only [List.length_cons] at hn hfuel
      obtain ⟨f, rfl⟩ : ∃ f, fuel = f + 1 := ⟨fuel - 1, by omega⟩
      have hrec := ih p r s' (by omega) hp f (by omega)
      obtain ⟨t, ht⟩ := Option.isSome_iff_exists.mp hrec
      rcases he with rfl | rfl | rfl | rfl | rfl | rfl | rfl | rfl <;>
        simp [unquoteLoop, ht]
    · simp only [List.length_cons] at hn hfuel
      obtain ⟨f, rfl⟩ : ∃ f, fuel = f + 1 := ⟨fuel - 1, by omega⟩
      obtain ⟨va, ha⟩ := Option.isSome_iff_exists.mp ha
      obtain ⟨vb, hb⟩ := Option.isSome_iff_exists.mp hb
      obtain ⟨vc, hc⟩ := Option.isSome_iff_exists.mp hc
      obtain ⟨vd, hd⟩ := Option.isSome_iff_exists.mp hd
      have hrec := ih p r s' (by omega) hp f (by omega)
      have hg : getu4 (92 :: 117 :: a :: b :: c :: d :: p)
          = some (va * 4096 + vb * 256 + vc * 16 + vd) := by
        simp only [getu4, ha, hb, hc, hd]
      unfold unquoteLoop
      simp only [hg, List.drop_succ_cons, List.drop_zero]
      simp only [if_true, show ¬ (117 = 34 ∨ 117 = 92 ∨ 117 = 47 ∨ 117 = 39) by decide,
        show ¬ (117 = 98) by decide, show ¬ (117 = 102) by decide, show ¬ (117 = 110) by decide,
        show ¬ (117 = 114) by decide, show ¬ (117 = 116) by decide, if_false]
      split_ifs with hsur
      · cases hg2 : getu4 p with
        | none => simp only []; rw [Option.isSome_map']; exact hrec
        | some rr1 =>
          simp only []
          split_ifs with hpair
          · rw [Option.isSome_map']
            obtain ⟨a2, b2, c2, d2, t, rfl⟩ := getu4_some p rr1 hg2
            rcases scanString_cases s' _ r hp with h0 | ⟨c, q, s2, hq, _, _, hc92, _⟩ |
              ⟨e, q, s2, hq, he, _⟩ | ⟨a3, b3, c3, d3, q, s2, hq, _, _, _, _, hq2⟩
            · cases h0
            · simp only [List.cons.injEq] at hq
              exact absurd hq.1.symm hc92
            · simp only [List.cons.injEq] at hq
              obtain ⟨_, h117, _⟩ := hq
              subst h117
              exact absurd he (by decide)
            · simp only [List.cons.injEq] at hq
              obtain ⟨_, _, _, _, _, _, rfl⟩ := hq
              simp only [List.drop_succ_cons, List.drop_zero]
              simp only [List.length_cons] at hn hfuel
              exact ih _ r s2 (by omega) hq2 f (by omega)
          · rw [Option.isSome_map']; exact hrec
      · rw [Option.isSome_map']; exact hrec

/-- A string literal the scanner accepts denotes a Go string: `unquote` fails
on no text between quotes that the scanner has passed. -/
theorem unquote_scanned (s raw r : GoString) (h : scanString .inString s = some (raw, r)) :
    (unquote raw).isSome = true :=
  unquoteLoop_scanned raw.length raw r s (le_refl _) h raw.length (le_refl _)

/-! ## Storing: a value that does not fit is an error -/

theorem saveError_isSome (saved : Option GoError) (e : GoError) :
    (saveError saved e).isSome = true := by
  cases saved <;> rfl

theorem keeps_storeString : Keeps storeString := by
  intro j st h
  cases j <;> simp [storeString, h, saveError_isSome]

theorem keeps_storeInt (typ : String) : Keeps (storeInt typ) := by
  intro j st h
  cases j <;> simp [storeInt, h, saveError_isSome]
  split <;> simp [h, saveError_isSome]

theorem keeps_storeFloat64 : Keeps storeFloat64 := by
  intro j st h
  cases j <;> simp [storeFloat64, h, saveError_isSome]
  split <;> simp [h, saveError_isSome]

theorem keeps_storeBool : Keeps storeBool := by
  intro j st h
  cases j <;> simp [storeBool, h, saveError_isSome]

theorem keeps_mkField {σ α : Type} (name : String) (get : σ → α) (set : σ → α → σ)
    (inner : Store α) (h : Keeps inner) : Keeps (mkField name get set inner).store := by
  intro j st hst
  exact h j (get st.1, st.2) hst

theorem fails_mkField {σ α : Type} (name : String) (get : σ → α) (set : σ → α → σ)
    (inner : Store α) (j : Json) (h : Fails inner j) :
    Fails (mkField name get set inner).store j := by
  intro st
  exact h (get st.1, st.2)

theorem foldl_keeps {σ : Type} (fields : List (Field σ)) (hk : ∀ f ∈ fields, Keeps f.store)
    (hfind : ∀ key f, findField fields key = some f → f ∈ fields)
    (ms : List (GoString × Json)) (st : σ × Option GoError) (h : st.2.isSome = true) :
    (ms.foldl (fun st m =>
      match findField fields m.1 with
      | some f => f.store m.2 st
      | none => st) st).2.isSome = true := by
  induction ms generalizing st with
  | nil => exact h
  | cons m ms ih =>
    rw [List.foldl_cons]
    apply ih
    cases hf : findField fields m.1 with
    | none => exact h
    | some f => exact hk f (hfind _ _ hf) _ _ h

theorem findField_mem {σ : Type} (fields : List (Field σ)) (key : GoString) (f : Field σ)
    (h : findField fields key = some f) : f ∈ fields := by
  unfold findField at h
  split at h
  · rename_i g hg
    cases h
    exact List.mem_of_find?_eq_some hg
  · exact List.mem_of_find?_eq_some h

theorem keeps_storeStruct {σ : Type} (fields : List (Field σ)) (typ : String)
    (hk : ∀ f ∈ fields, Keeps f.store) : Keeps (storeStruct fields typ) := by
  intro j st h
  cases j with
  | object ms => exact foldl_keeps fields hk (findField_mem fields) ms st h
  | _ => simp [storeStruct, h, saveError_isSome]

theorem fails_storeStruct_member {σ : Type} (fields : List (Field σ)) (typ : String)
    (hk : ∀ f ∈ fields, Keeps f.store) (ms : List (GoString × Json)) (key : GoString)
    (v : Json) (f : Field σ) (hm : (key, v) ∈ ms) (hf : findField fields key = some f)
    (hv : Fails f.store v) : Fails (storeStruct fields typ) (.object ms) := by
  intro st
  simp only [storeStruct]
  induction ms generalizing st with
  | nil => simp at hm
  | cons m ms ih =>
    rw [List.foldl_cons]
    rcases List.mem_cons.mp hm with h | h
    · subst h
      simp only [hf]
      exact foldl_keeps fields hk (findField_mem fields) ms _ (hv st)
    · exact ih h _

theorem fails_storeStruct_kind {σ : Type} (fields : List (Field σ)) (typ : String) (j : Json)
    (h : j.fitsObject = false) : Fails (storeStruct fields typ) j := by
  intro st
  cases j <;> simp [Json.fitsObject] at h <;> simp [storeStruct, saveError_isSome]

theorem storeElems_keeps {α : Type} (elem : Store α) (zero : α) (hk : Keeps elem)
    (es : List Json) (old : List α) (saved : Option GoError) (h : saved.isSome = true) :
    (storeElems elem zero es old saved).2.isSome = true := by
  induction es generalizing old saved with
  | nil => exact h
  | cons e es ih =>
    simp only [storeElems]
    exact ih _ _ (hk e (old.headD zero, saved) h)

theorem keeps_storeSlice {α : Type} (elem : Store α) (zero : α) (typ : String)
    (hk : Keeps elem) : Keeps (storeSlice elem zero typ) := by
  intro j st h
  cases j with
  | array es => exact storeElems_keeps elem zero hk es st.1 st.2 h
  | _ => simp [storeSlice, h, saveError_isSome]

theorem fails_storeSlice_elem {α : Type} (elem : Store α) (zero : α) (typ : String)
    (hk : Keeps elem) (es : List Json) (v : Json) (hm : v ∈ es) (hv : Fails elem v) :
    Fails (storeSlice elem zero typ) (.array es) := by
  intro st
  simp only [storeSlice]
  generalize st.1 = old
  generalize st.2 = saved
  induction es generalizing old saved with
  | nil => simp at hm
  | cons e es ih =>
    simp only [storeElems]
    rcases List.mem_cons.mp hm with h | h
    · subst h
      exact storeElems_keeps elem zero hk es _ _ (hv _)
    · exact ih h _ _

theorem fails_storeSlice_kind {α : Type} (elem : Store α) (zero : α) (typ : String) (j : Json)
    (h : j.fitsArray = false) : Fails (storeSlice elem zero typ) j := by
  intro st
  cases j <;> simp [Json.fitsArray] at h <;> simp [storeSlice, saveError_isSome]

theorem fails_storeString (j : Json) (h : j.fitsString = false) : Fails storeString j := by
  intro st
  cases j <;> simp [Json.fitsString] at h <;> simp [storeString, saveError_isSome]

theorem fails_storeInt (typ : String) (j : Json) (h : j.fitsInt = false) :
    Fails (storeInt typ) j := by
  intro st
  cases j <;> simp [Json.fitsInt] at h <;> simp [storeInt, saveError_isSome, h]

theorem fails_storeFloat64 (j : Json) (h : j.fitsFloat = false) : Fails storeFloat64 j := by
  intro st
  cases j <;> simp [Json.fitsFloat] at h <;> simp [storeFloat64, saveError_isSome, h]

theorem keeps_XKCD_fields : ∀ f ∈ Searcher.XKCD.fields, Keeps f.store := by
  intro f hf
  simp only [Searcher.XKCD.fields, List.mem_cons, List.mem_singleton, List.not_mem_nil,
    or_false] at hf
  rcases hf with rfl | rfl | rfl | rfl | rfl | rfl | rfl | rfl | rfl | rfl | rfl
  all_goals first
    | exact keeps_mkField _ _ _ _ keeps_storeString
    | exact keeps_mkField _ _ _ _ (keeps_storeInt _)

theorem keeps_Shards_fields : ∀ f ∈ Searcher.Shards.fields, Keeps f.store := by
  intro f hf
  simp only [Searcher.Shards.fields, List.mem_cons, List.mem_singleton, List.not_mem_nil,
    or_false] at hf
  rcases hf with rfl | rfl | rfl | rfl
  all_goals exact keeps_mkField _ _ _ _ (keeps_storeInt _)

theorem keeps_Total_fields : ∀ f ∈ Searcher.Total.fields, Keeps f.store := by
  intro f hf
  simp only [Searcher.Total.fields, List.mem_cons, List.mem_singleton, List.not_mem_nil,
    or_false] at hf
  rcases hf with rfl | rfl
  · exact keeps_mkField _ _ _ _ keeps_storeString
  · exact keeps_mkField _ _ _ _ keeps_storeFloat64

theorem keeps_Hit_fields : ∀ f ∈ Searcher.Hit.fields, Keeps f.store := by
  intro f hf
  simp only [Searcher.Hit.fields, List.mem_cons, List.mem_singleton, List.not_mem_nil,
    or_false] at hf
  rcases hf with rfl | rfl | rfl | rfl
  · exact keeps_mkField _ _ _ _ keeps_storeString
  · exact keeps_mkField _ _ _ _ keeps_storeString
  · exact keeps_mkField _ _ _ _ keeps_storeFloat64
  · exact keeps_mkField _ _ _ _ (keeps_storeStruct _ _ keeps_XKCD_fields)

theorem keeps_HitsHigh_fields : ∀ f ∈ Searcher.HitsHigh.fields, Keeps f.store := by
  intro f hf
  simp only [Searcher.HitsHigh.fields, List.mem_cons, List.mem_singleton, List.not_mem_nil,
    or_false] at hf
  rcases hf with rfl | rfl | rfl
  · exact keeps_mkField _ _ _ _
      (keeps_storeSlice _ _ _ (keeps_storeStruct _ _ keeps_Hit_fields))
  · exact keeps_mkField _ _ _ _ keeps_storeFloat64
  · exact keeps_mkField _ _ _ _ (keeps_storeStruct _ _ keeps_Total_fields)

theorem keeps_Response_fields :
    ∀ f ∈ Searcher.ElasticSearchResponse.fields, Keeps f.store := by
  intro f hf
  simp only [Searcher.ElasticSearchResponse.fields, List.mem_cons, List.mem_singleton,
    List.not_mem_nil, or_false] at hf
  rcases hf with rfl | rfl | rfl | rfl
  · exact keeps_mkField _ _ _ _ (keeps_storeStruct _ _ keeps_Shards_fields)
  · exact keeps_mkField _ _ _ _ (keeps_storeStruct _ _ keeps_HitsHigh_fields)
  · exact keeps_mkField _ _ _ _ keeps_storeBool
  · exact keeps_mkField _ _ _ _ keeps_storeFloat64

theorem fails_storeBool (j : Json) (h : j.fitsBool = false) : Fails storeBool j := by
  intro st
  cases j <;> simp [Json.fitsBool] at h <;> simp [storeBool, saveError_isSome]

theorem not_eq_true_iff (b : Bool) : (!b) = true ↔ b = false := by
  cases b <;> simp

/-- A struct does not accept an object that gives one of its fields a value the
field does not accept. -/
theorem fails_storeStruct_value {σ : Type} (fields : List (Field σ)) (typ : String)
    (hk : ∀ f ∈ fields, Keeps f.store) (j : Json) (tag : String) (v : Json)
    (hv : v ∈ j.valuesFor fields tag)
    (hf : ∀ f ∈ fields, f.name = str tag → Fails f.store v) :
    Fails (storeStruct fields typ) j := by
  cases j with
  | object ms =>
    simp only [Json.valuesFor, List.mem_map, List.mem_filter] at hv
    obtain ⟨m, ⟨hm, hkey⟩, rfl⟩ := hv
    cases hfind : findField fields m.1 with
    | none => rw [hfind] at hkey; simp at hkey
    | some f =>
      rw [hfind] at hkey
      have hname : f.name = str tag := by simpa using hkey
      exact fails_storeStruct_member fields typ hk ms m.1 m.2 f hm hfind
        (hf f (findField_mem fields _ f hfind) hname)
  | _ => simp [Json.valuesFor] at hv

theorem fails_document (src : Json) (h : malformedDocument src = true) :
    Fails Searcher.XKCD.store src := by
  simp only [malformedDocument, Bool.or_eq_true, List.any_eq_true, not_eq_true_iff] at h
  rcases h with (h | ⟨tag, htag, v, hv, hfit⟩) | ⟨v, hv, hfit⟩
  · exact fails_storeStruct_kind _ _ _ h
  · refine fails_storeStruct_value _ _ keeps_XKCD_fields src tag v hv ?_
    have hs := fails_storeString v hfit
    intro f hf hname
    simp only [stringTags, List.mem_cons, List.mem_singleton, List.not_mem_nil, or_false] at htag
    simp only [Searcher.XKCD.fields, List.mem_cons, List.mem_singleton, List.not_mem_nil,
      or_false] at hf
    rcases htag with rfl | rfl | rfl | rfl | rfl | rfl | rfl | rfl | rfl | rfl <;>
      rcases hf with rfl | rfl | rfl | rfl | rfl | rfl | rfl | rfl | rfl | rfl | rfl <;>
      first
      | exact fails_mkField _ _ _ _ v hs
      | exact absurd hname (by decide)
  · refine fails_storeStruct_value _ _ keeps_XKCD_fields src "num" v hv ?_
    have hs := fails_storeInt "int" v hfit
    intro f hf hname
    simp only [Searcher.XKCD.fields, List.mem_cons, List.mem_singleton, List.not_mem_nil,
      or_false] at hf
    rcases hf with rfl | rfl | rfl | rfl | rfl | rfl | rfl | rfl | rfl | rfl | rfl <;>
      first
      | exact fails_mkField _ _ _ _ v hs
      | exact absurd hname (by decide)

theorem fails_total (total : Json) (h : malformedTotal total = true) :
    Fails (storeStruct Searcher.Total.fields "main.Total") total := by
  simp only [malformedTotal, Bool.or_eq_true, List.any_eq_true, not_eq_true_iff] at h
  rcases h with (h | ⟨v, hv, hfit⟩) | ⟨v, hv, hfit⟩
  · exact fails_storeStruct_kind _ _ _ h
  · refine fails_storeStruct_value _ _ keeps_Total_fields total _ v hv ?_
    have hs := fails_storeString v hfit
    intro f hf hname
    simp only [Searcher.Total.fields, List.mem_cons, List.mem_singleton, List.not_mem_nil,
      or_false] at hf
    rcases hf with rfl | rfl <;>
      first
      | exact fails_mkField _ _ _ _ v hs
      | exact absurd hname (by decide)
  · refine fails_storeStruct_value _ _ keeps_Total_fields total _ v hv ?_
    have hs := fails_storeFloat64 v hfit
    intro f hf hname
    simp only [Searcher.Total.fields, List.mem_cons, List.mem_singleton, List.not_mem_nil,
      or_false] at hf
    rcases hf with rfl | rfl <;>
      first
      | exact fails_mkField _ _ _ _ v hs
      | exact absurd hname (by decide)

theorem fails_hit (hit : Json) (h : malformedHit hit = true) :
    Fails (storeStruct Searcher.Hit.fields "main.Hit") hit := by
  simp only [malformedHit, Bool.or_eq_true, List.any_eq_true, not_eq_true_iff] at h
  rcases h with (((h | ⟨v, hv, hfit⟩) | ⟨v, hv, hfit⟩) | ⟨v, hv, hfit⟩) | ⟨v, hv, hfit⟩
  · exact fails_storeStruct_kind _ _ _ h
  · refine fails_storeStruct_value _ _ keeps_Hit_fields hit _ v hv ?_
    have hs := fails_storeString v hfit
    intro f hf hname
    simp only [Searcher.Hit.fields, List.mem_cons, List.mem_singleton, List.not_mem_nil,
      or_false] at hf
    rcases hf with rfl | rfl | rfl | rfl <;>
      first
      | exact fails_mkField _ _ _ _ v hs
      | exact absurd hname (by decide)
  · refine fails_storeStruct_value _ _ keeps_Hit_fields hit _ v hv ?_
    have hs := fails_storeString v hfit
    intro f hf hname
    simp only [Searcher.Hit.fields, List.mem_cons, List.mem_singleton, List.not_mem_nil,
      or_false] at hf
    rcases hf with rfl | rfl | rfl | rfl <;>
      first
      | exact fails_mkField _ _ _ _ v hs
      | exact absurd hname (by decide)
  · refine fails_storeStruct_value _ _ keeps_Hit_fields hit _ v hv ?_
    have hs := fails_storeFloat64 v hfit
    intro f hf hname
    simp only [Searcher.Hit.fields, List.mem_cons, List.mem_singleton, List.not_mem_nil,
      or_false] at hf
    rcases hf with rfl | rfl | rfl | rfl <;>
      first
      | exact fails_mkField _ _ _ _ v hs
      | exact absurd hname (by decide)
  · refine fails_storeStruct_value _ _ keeps_Hit_fields hit _ v hv ?_
    have hs := fails_document v hfit
    intro f hf hname
    simp only [Searcher.Hit.fields, List.mem_cons, List.mem_singleton, List.not_mem_nil,
      or_false] at hf
    rcases hf with rfl | rfl | rfl | rfl <;>
      first
      | exact fails_mkField _ _ _ _ v hs
      | exact absurd hname (by decide)

theorem fails_hit_list (v : Json)
    (h : v.fitsArray = false ∨ ∃ e ∈ v.elems, malformedHit e = true) :
    Fails (storeSlice (storeStruct Searcher.Hit.fields "main.Hit") Searcher.Hit.zero
      "[]main.Hit") v := by
  rcases h with hfit | ⟨e, he, hbad⟩
  · exact fails_storeSlice_kind _ _ _ v hfit
  · cases v with
    | array es =>
      exact fails_storeSlice_elem _ _ _ (keeps_storeStruct _ _ keeps_Hit_fields) es e he
        (fails_hit e hbad)
    | _ => simp [Json.elems] at he

theorem fails_hits (hits : Json) (h : malformedHits hits = true) :
    Fails (storeStruct Searcher.HitsHigh.fields "main.HitsHigh") hits := by
  simp only [malformedHits, Bool.or_eq_true, List.any_eq_true, not_eq_true_iff] at h
  rcases h with ((h | ⟨v, hv, hfit⟩) | ⟨v, hv, hfit⟩) | ⟨v, hv, hfit⟩
  · exact fails_storeStruct_kind _ _ _ h
  · refine fails_storeStruct_value _ _ keeps_HitsHigh_fields hits _ v hv ?_
    have hs := fails_total v hfit
    intro f hf hname
    simp only [Searcher.HitsHigh.fields, List.mem_cons, List.mem_singleton, List.not_mem_nil,
      or_false] at hf
    rcases hf with rfl | rfl | rfl <;>
      first
      | exact fails_mkField _ _ _ _ v hs
      | exact absurd hname (by decide)
  · refine fails_storeStruct_value _ _ keeps_HitsHigh_fields hits _ v hv ?_
    have hs := fails_storeFloat64 v hfit
    intro f hf hname
    simp only [Searcher.HitsHigh.fields, List.mem_cons, List.mem_singleton, List.not_mem_nil,
      or_false] at hf
    rcases hf with rfl | rfl | rfl <;>
      first
      | exact fails_mkField _ _ _ _ v hs
      | exact absurd hname (by decide)
  · refine fails_storeStruct_value _ _ keeps_HitsHigh_fields hits _ v hv ?_
    have hs := fails_hit_list v hfit
    intro f hf hname
    simp only [Searcher.HitsHigh.fields, List.mem_cons, List.mem_singleton, List.not_mem_nil,
      or_false] at hf
    rcases hf with rfl | rfl | rfl <;>
      first
      | exact fails_mkField _ _ _ _ v hs
      | exact absurd hname (by decide)

theorem fails_shards (shards : Json) (h : malformedShards shards = true) :
    Fails (storeStruct Searcher.Shards.fields "main.Shards") shards := by
  simp only [malformedShards, Bool.or_eq_true, List.any_eq_true, not_eq_true_iff] at h
  rcases h with h | ⟨tag, htag, v, hv, hfit⟩
  · exact fails_storeStruct_kind _ _ _ h
  · refine fails_storeStruct_value _ _ keeps_Shards_fields shards tag v hv ?_
    have hs := fails_storeInt "int64" v hfit
    intro f hf _
    simp only [Searcher.Shards.fields, List.mem_cons, List.mem_singleton, List.not_mem_nil,
      or_false] at hf
    rcases hf with rfl | rfl | rfl | rfl <;> exact fails_mkField _ _ _ _ v hs

theorem fails_envelope (j : Json) (h : malformedEnvelope j = true) :
    Fails Searcher.ElasticSearchResponse.store j := by
  simp only [malformedEnvelope, Bool.or_eq_true, List.any_eq_true, not_eq_true_iff] at h
  rcases h with (((h | ⟨v, hv, hbad⟩) | ⟨v, hv, hbad⟩) | ⟨v, hv, hbad⟩) | ⟨v, hv, hbad⟩
  · exact fails_storeStruct_kind _ _ _ h
  · refine fails_storeStruct_value _ _ keeps_Response_fields j _ v hv ?_
    have hs := fails_shards v hbad
    intro f hf hname
    simp only [Searcher.ElasticSearchResponse.fields, List.mem_cons, List.mem_singleton,
      List.not_mem_nil, or_false] at hf
    rcases hf with rfl | rfl | rfl | rfl <;>
      first
      | exact fails_mkField _ _ _ _ v hs
      | exact absurd hname (by decide)
  · refine fails_storeStruct_value _ _ keeps_Response_fields j _ v hv ?_
    have hs := fails_hits v hbad
    intro f hf hname
    simp only [Searcher.ElasticSearchResponse.fields, List.mem_cons, List.mem_singleton,
      List.not_mem_nil, or_false] at hf
    rcases hf with rfl | rfl | rfl | rfl <;>
      first
      | exact fails_mkField _ _ _ _ v hs
      | exact absurd hname (by decide)
  · refine fails_storeStruct_value _ _ keeps_Response_fields j _ v hv ?_
    have hs := fails_storeBool v hbad
    intro f hf hname
    simp only [Searcher.ElasticSearchResponse.fields, List.mem_cons, List.mem_singleton,
      List.not_mem_nil, or_false] at hf
    rcases hf with rfl | rfl | rfl | rfl <;>
      first
      | exact fails_mkField _ _ _ _ v hs
      | exact absurd hname (by decide)
  · refine fails_storeStruct_value _ _ keeps_Response_fields j _ v hv ?_
    have hs := fails_storeFloat64 v hbad
    intro f hf hname
    simp only [Searcher.ElasticSearchResponse.fields, List.mem_cons, List.mem_singleton,
      List.not_mem_nil, or_false] at hf
    rcases hf with rfl | rfl | rfl | rfl <;>
      first
      | exact fails_mkField _ _ _ _ v hs
      | exact absurd hname (by decide)

/-! ## Storing: a value that fits is no error -/

theorem accepts_storeString (j : Json) (h : j.fitsString = true) : Accepts storeString j := by
  intro st hst
  cases j <;> simp [Json.fitsString] at h <;> simp [storeString, hst]

theorem accepts_storeBool (j : Json) (h : j.fitsBool = true) : Accepts storeBool j := by
  intro st hst
  cases j <;> simp [Json.fitsBool] at h <;> simp [storeBool, hst]

theorem accepts_storeInt (typ : String) (j : Json) (h : j.fitsInt = true) :
    Accepts (storeInt typ) j := by
  intro st hst
  cases j with
  | number lit =>
    simp only [Json.fitsInt] at h
    obtain ⟨n, hn⟩ := Option.isSome_iff_exists.mp h
    simp [storeInt, hn, hst]
  | null => simp [storeInt, hst]
  | _ => simp [Json.fitsInt] at h

theorem accepts_storeFloat64 (j : Json) (h : j.fitsFloat = true) : Accepts storeFloat64 j := by
  intro st hst
  cases j with
  | number lit =>
    simp only [Json.fitsFloat, Bool.not_eq_true'] at h
    simp [storeFloat64, h, hst]
  | null => simp [storeFloat64, hst]
  | _ => simp [Json.fitsFloat] at h

theorem accepts_mkField {σ α : Type} (name : String) (get : σ → α) (set : σ → α → σ)
    (inner : Store α) (j : Json) (h : Accepts inner j) :
    Accepts (mkField name get set inner).store j := by
  intro st hst
  exact h (get st.1, st.2) hst

theorem accepts_storeStruct {σ : Type} (fields : List (Field σ)) (typ : String) (j : Json)
    (hobj : j.fitsObject = true)
    (h : ∀ ms, j = .object ms → ∀ m ∈ ms, ∀ f, findField fields m.1 = some f →
      Accepts f.store m.2) :
    Accepts (storeStruct fields typ) j := by
  intro st hst
  cases j with
  | object ms =>
    simp only [storeStruct]
    have hall := h ms rfl
    clear h hobj
    induction ms generalizing st with
    | nil => exact hst
    | cons m ms ih =>
      rw [List.foldl_cons]
      apply ih
      · cases hf : findField fields m.1 with
        | none => exact hst
        | some f => exact hall m (List.mem_cons_self _ _) f hf st hst
      · intro m' hm' f hf
        exact hall m' (List.mem_cons_of_mem _ hm') f hf
  | null => simpa [storeStruct] using hst
  | _ => simp [Json.fitsObject] at hobj

theorem accepts_storeElems {α : Type} (elem : Store α) (zero : α) (es : List Json)
    (h : ∀ e ∈ es, Accepts elem e) (old : List α) :
    (storeElems elem zero es old none).2 = none := by
  induction es generalizing old with
  | nil => rfl
  | cons e es ih =>
    simp only [storeElems]
    rw [h e (List.mem_cons_self _ _) (old.headD zero, none) rfl]
    exact ih (fun e' he' => h e' (List.mem_cons_of_mem _ he')) _

theorem accepts_storeSlice {α : Type} (elem : Store α) (zero : α) (typ : String) (j : Json)
    (harr : j.fitsArray = true) (h : ∀ e ∈ j.elems, Accepts elem e) :
    Accepts (storeSlice elem zero typ) j := by
  intro st hst
  cases j with
  | array es =>
    simp only [storeSlice, hst]
    exact accepts_storeElems elem zero es h st.1
  | null => simpa [storeSlice] using hst
  | _ => simp [Json.fitsArray] at harr

theorem mem_valuesFor {σ : Type} (fields : List (Field σ)) (ms : List (GoString × Json))
    (m : GoString × Json) (f : Field σ) (tag : String) (hm : m ∈ ms)
    (hf : findField fields m.1 = some f) (hname : f.name = str tag) :
    m.2 ∈ (Json.object ms).valuesFor fields tag := by
  simp only [Json.valuesFor, List.mem_map, List.mem_filter]
  exact ⟨m, ⟨hm, by simp [hf, hname]⟩, rfl⟩

theorem any_eq_false_mem {α : Type} (l : List α) (p : α → Bool) (h : l.any p = false)
    (a : α) (ha : a ∈ l) : p a = false := by
  cases hp : p a with
  | false => rfl
  | true =>
    have : l.any p = true := List.any_eq_true.mpr ⟨a, ha, hp⟩
    rw [h] at this
    exact absurd this (by simp)

theorem fits_of_not_unfit (b : Bool) (h : (!b) = false) : b = true := by
  cases b <;> simp_all

theorem accepts_document (src : Json) (h : malformedDocument src = false) :
    Accepts Searcher.XKCD.store src := by
  simp only [malformedDocument, Bool.or_eq_false_iff] at h
  obtain ⟨⟨hobj, hstr⟩, hnum⟩ := h
  refine accepts_storeStruct _ _ src (fits_of_not_unfit _ hobj) ?_
  rintro ms rfl m hm f hf
  have hmem := findField_mem _ _ _ hf
  have hs : ∀ tag ∈ stringTags, f.name = str tag → m.2.fitsString = true := by
    intro tag htag hname
    have h1 := any_eq_false_mem _ _ hstr tag htag
    exact fits_of_not_unfit _
      (any_eq_false_mem _ _ h1 m.2 (mem_valuesFor _ ms m f tag hm hf hname))
  have hn : f.name = str "num" → m.2.fitsInt = true := fun hname =>
    fits_of_not_unfit _
      (any_eq_false_mem _ _ hnum m.2 (mem_valuesFor _ ms m f "num" hm hf hname))
  simp only [Searcher.XKCD.fields, List.mem_cons, List.mem_singleton, List.not_mem_nil,
    or_false] at hmem
  rcases hmem with rfl | rfl | rfl | rfl | rfl | rfl | rfl | rfl | rfl | rfl | rfl
  · exact accepts_mkField _ _ _ _ _ (accepts_storeString _ (hs "month" (by decide) rfl))
  · exact accepts_mkField _ _ _ _ _ (accepts_storeInt _ _ (hn rfl))
  · exact accepts_mkField _ _ _ _ _ (accepts_storeString _ (hs "link" (by decide) rfl))
  · exact accepts_mkField _ _ _ _ _ (accepts_storeString _ (hs "year" (by decide) rfl))
  · exact accepts_mkField _ _ _ _ _ (accepts_storeString _ (hs "news" (by decide) rfl))
  · exact accepts_mkField _ _ _ _ _ (accepts_storeString _ (hs "safe_title" (by decide) rfl))
  · exact accepts_mkField _ _ _ _ _ (accepts_storeString _ (hs "transcript" (by decide) rfl))
  · exact accepts_mkField _ _ _ _ _ (accepts_storeString _ (hs "alt" (by decide) rfl))
  · exact accepts_mkField _ _ _ _ _ (accepts_storeString _ (hs "img" (by decide) rfl))
  · exact accepts_mkField _ _ _ _ _ (accepts_storeString _ (hs "title" (by decide) rfl))
  · exact accepts_mkField _ _ _ _ _ (accepts_storeString _ (hs "day" (by decide) rfl))

theorem accepts_total (total : Json) (h : malformedTotal total = false) :
    Accepts (storeStruct Searcher.Total.fields "main.Total") total := by
  simp only [malformedTotal, Bool.or_eq_false_iff] at h
  obtain ⟨⟨hobj, hrel⟩, hval⟩ := h
  refine accepts_storeStruct _ _ total (fits_of_not_unfit _ hobj) ?_
  rintro ms rfl m hm f hf
  have hmem := findField_mem _ _ _ hf
  simp only [Searcher.Total.fields, List.mem_cons, List.mem_singleton, List.not_mem_nil,
    or_false] at hmem
  rcases hmem with rfl | rfl
  · exact accepts_mkField _ _ _ _ _ (accepts_storeString _ (fits_of_not_unfit _
      (any_eq_false_mem _ _ hrel m.2 (mem_valuesFor _ ms m _ "relation" hm hf rfl))))
  · exact accepts_mkField _ _ _ _ _ (accepts_storeFloat64 _ (fits_of_not_unfit _
      (any_eq_false_mem _ _ hval m.2 (mem_valuesFor _ ms m _ "value" hm hf rfl))))

theorem accepts_hit (hit : Json) (h : malformedHit hit = false) :
    Accepts (storeStruct Searcher.Hit.fields "main.Hit") hit := by
  simp only [malformedHit, Bool.or_eq_false_iff] at h
  obtain ⟨⟨⟨⟨hobj, hid⟩, hidx⟩, hscore⟩, hsrc⟩ := h
  refine accepts_storeStruct _ _ hit (fits_of_not_unfit _ hobj) ?_
  rintro ms rfl m hm f hf
  have hmem := findField_mem _ _ _ hf
  simp only [Searcher.Hit.fields, List.mem_cons, List.mem_singleton, List.not_mem_nil,
    or_false] at hmem
  rcases hmem with rfl | rfl | rfl | rfl
  · exact accepts_mkField _ _ _ _ _ (accepts_storeString _ (fits_of_not_unfit _
      (any_eq_false_mem _ _ hid m.2 (mem_valuesFor _ ms m _ "_id" hm hf rfl))))
  · exact accepts_mkField _ _ _ _ _ (accepts_storeString _ (fits_of_not_unfit _
      (any_eq_false_mem _ _ hidx m.2 (mem_valuesFor _ ms m _ "_index" hm hf rfl))))
  · exact accepts_mkField _ _ _ _ _ (accepts_storeFloat64 _ (fits_of_not_unfit _
      (any_eq_false_mem _ _ hscore m.2 (mem_valuesFor _ ms m _ "_score" hm hf rfl))))
  · exact accepts_mkField _ _ _ _ _ (accepts_document _
      (any_eq_false_mem _ _ hsrc m.2 (mem_valuesFor _ ms m _ "_source" hm hf rfl)))

theorem accepts_hits (hits : Json) (h : malformedHits hits = false) :
    Accepts (storeStruct Searcher.HitsHigh.fields "main.HitsHigh") hits := by
  simp only [malformedHits, Bool.or_eq_false_iff] at h
  obtain ⟨⟨⟨hobj, htotal⟩, hmax⟩, hlist⟩ := h
  refine accepts_storeStruct _ _ hits (fits_of_not_unfit _ hobj) ?_
  rintro ms rfl m hm f hf
  have hmem := findField_mem _ _ _ hf
  simp only [Searcher.HitsHigh.fields, List.mem_cons, List.mem_singleton, List.not_mem_nil,
    or_false] at hmem
  rcases hmem with rfl | rfl | rfl
  · have h1 := any_eq_false_mem _ _ hlist m.2 (mem_valuesFor _ ms m _ "hits" hm hf rfl)
    simp only [Bool.or_eq_false_iff] at h1
    exact accepts_mkField _ _ _ _ _ (accepts_storeSlice _ _ _ _ (fits_of_not_unfit _ h1.1)
      (fun e he => accepts_hit e (any_eq_false_mem _ _ h1.2 e he)))
  · exact accepts_mkField _ _ _ _ _ (accepts_storeFloat64 _ (fits_of_not_unfit _
      (any_eq_false_mem _ _ hmax m.2 (mem_valuesFor _ ms m _ "max_score" hm hf rfl))))
  · exact accepts_mkField _ _ _ _ _ (accepts_total _
      (any_eq_false_mem _ _ htotal m.2 (mem_valuesFor _ ms m _ "total" hm hf rfl)))

theorem accepts_shards (shards : Json) (h : malformedShards shards = false) :
    Accepts (storeStruct Searcher.Shards.fields "main.Shards") shards := by
  simp only [malformedShards, Bool.or_eq_false_iff] at h
  obtain ⟨hobj, hcount⟩ := h
  refine accepts_storeStruct _ _ shards (fits_of_not_unfit _ hobj) ?_
  rintro ms rfl m hm f hf
  have hmem := findField_mem _ _ _ hf
  have hc : ∀ tag ∈ counterTags, f.name = str tag → m.2.fitsInt = true := by
    intro tag htag hname
    have h1 := any_eq_false_mem _ _ hcount tag htag
    exact fits_of_not_unfit _
      (any_eq_false_mem _ _ h1 m.2 (mem_valuesFor _ ms m f tag hm hf hname))
  simp only [Searcher.Shards.fields, List.mem_cons, List.mem_singleton, List.not_mem_nil,
    or_false] at hmem
  rcases hmem with rfl | rfl | rfl | rfl
  · exact accepts_mkField _ _ _ _ _ (accepts_storeInt _ _ (hc "failed" (by decide) rfl))
  · exact accepts_mkField _ _ _ _ _ (accepts_storeInt _ _ (hc "skipped" (by decide) rfl))
  · exact accepts_mkField _ _ _ _ _ (accepts_storeInt _ _ (hc "successful" (by decide) rfl))
  · exact accepts_mkField _ _ _ _ _ (accepts_storeInt _ _ (hc "total" (by decide) rfl))

theorem accepts_envelope (j : Json) (h : malformedEnvelope j = false) :
    Accepts Searcher.ElasticSearchResponse.store j := by
  simp only [malformedEnvelope, Bool.or_eq_false_iff] at h
  obtain ⟨⟨⟨⟨hobj, hshards⟩, hhits⟩, htimed⟩, htook⟩ := h
  refine accepts_storeStruct _ _ j (fits_of_not_unfit _ hobj) ?_
  rintro ms rfl m hm f hf
  have hmem := findField_mem _ _ _ hf
  simp only [Searcher.ElasticSearchResponse.fields, List.mem_cons, List.mem_singleton,
    List.not_mem_nil, or_false] at hmem
  rcases hmem with rfl | rfl | rfl | rfl
  · exact accepts_mkField _ _ _ _ _ (accepts_shards _
      (any_eq_false_mem _ _ hshards m.2 (mem_valuesFor _ ms m _ "_shards" hm hf rfl)))
  · exact accepts_mkField _ _ _ _ _ (accepts_hits _
      (any_eq_false_mem _ _ hhits m.2 (mem_valuesFor _ ms m _ "hits" hm hf rfl)))
  · exact accepts_mkField _ _ _ _ _ (accepts_storeBool _ (fits_of_not_unfit _
      (any_eq_false_mem _ _ htimed m.2 (mem_valuesFor _ ms m _ "timed_out" hm hf rfl))))
  · exact accepts_mkField _ _ _ _ _ (accepts_storeFloat64 _ (fits_of_not_unfit _
      (any_eq_false_mem _ _ htook m.2 (mem_valuesFor _ ms m _ "took" hm hf rfl))))

/-- The decode step returns an error for the malformed bodies and for no other:
a body whose first JSON value has no field with a value that does not fit is
decoded without an error, whatever fields it leaves out, and reported. -/
theorem decode_error_iff_malformed (body : GoString) :
    (Decode Searcher.ElasticSearchResponse.store body
      Searcher.ElasticSearchResponse.zero).2.isSome = malformedBody body := by
  unfold malformedBody Decode
  cases hr : readValue body with
  | none => rfl
  | some j =>
    simp only
    cases hm : malformedEnvelope j with
    | true => exact fails_envelope j hm _
    | false =>
      rw [accepts_envelope j hm _ rfl]
      rfl

/-- A body that is not malformed is reported: the line "Results found" with the
total of the decoded envelope, then the lines of its hits. -/
theorem report_of_accepted_body (body : GoString) (h : malformedBody body = false) :
    (Decode Searcher.ElasticSearchResponse.store body
      Searcher.ElasticSearchResponse.zero).2 = none ∧
    Searcher.decodeAndReport body
      = .info "Results found"
          (some (.float (Decode Searcher.ElasticSearchResponse.store body
            Searcher.ElasticSearchResponse.zero).1.Hits.Total.Value))
        :: (Decode Searcher.ElasticSearchResponse.store body
              Searcher.ElasticSearchResponse.zero).1.Hits.Hits.flatMap Searcher.reportHit := by
  have hnone : (Decode Searcher.ElasticSearchResponse.store body
      Searcher.ElasticSearchResponse.zero).2 = none := by
    have := decode_error_iff_malformed body
    rw [h] at this
    cases hd : (Decode Searcher.ElasticSearchResponse.store body
      Searcher.ElasticSearchResponse.zero).2 with
    | none => rfl
    | some e => rw [hd] at this; cases this
  refine ⟨hnone, ?_⟩
  unfold Searcher.decodeAndReport
  rw [hnone]

/-! ## The round trip of a document and the decoding of a response -/

set_option maxRecDepth 100000 in
/-- C5 (as stated, refuted): a title that is not UTF-8 does not come back: the
encoder writes the escape `\ufffd` for the byte `0xff`, and the searcher reads U+FFFD. -/
theorem C5_invalid_utf8_is_replaced :
    invalidTitle.Reader = .ok { s := invalidTitle.json, i := 0 } ∧
    Decode Searcher.XKCD.store invalidTitle.json Searcher.XKCD.zero
      = ({ invalidTitle.toSearcher with Title := [0xEF, 0xBF, 0xBD] }, none) ∧
    (Decode Searcher.XKCD.store invalidTitle.json Searcher.XKCD.zero).1
      ≠ invalidTitle.toSearcher := by
  refine ⟨Reader_eq _, ?_, ?_⟩
  · decide
  · decide

/-- C5 (amended): for a document whose ten strings are well-formed UTF-8 and
whose `Num` fits the 64 bits of a Go `int`, decoding the bytes of `Reader` into
the searcher's `XKCD` succeeds and gives the same eleven field values. -/
theorem C5_roundtrip_of_valid_utf8 (x : XKCD) (hv : x.validUTF8 = true)
    (hn : -2 ^ 63 ≤ x.Num ∧ x.Num < 2 ^ 63) :
    ∃ r : BytesReader, x.Reader = .ok r ∧ r.i = 0 ∧
      Decode Searcher.XKCD.store r.s Searcher.XKCD.zero = (x.toSearcher, none) := by
  refine ⟨NewReader x.json, Reader_eq x, rfl, ?_⟩
  simp only [NewReader, Decode, readValue_json x hv]
  exact store_jsonValue x hn

/-- C5 (amended), at the first comic. -/
theorem C5_roundtrip_witness :
    (comicOf 1 "Barrel - Part 1").validUTF8 = true ∧
    (-2 ^ 63 ≤ (comicOf 1 "Barrel - Part 1").Num ∧ (comicOf 1 "Barrel - Part 1").Num < 2 ^ 63) ∧
    ∃ r : BytesReader, (comicOf 1 "Barrel - Part 1").Reader = .ok r ∧ r.i = 0 ∧
      Decode Searcher.XKCD.store r.s Searcher.XKCD.zero
        = ((comicOf 1 "Barrel - Part 1").toSearcher, none) :=
  ⟨by decide, by decide, C5_roundtrip_of_valid_utf8 _ (by decide) (by decide)⟩

/-- C8 (as stated, refuted): a body with every field missing decodes without an
error into the zero envelope and is reported; a hit with every field missing is
reported with empty values. -/
theorem C8_missing_fields_are_defaulted :
    Decode Searcher.ElasticSearchResponse.store emptyObjectBody
        Searcher.ElasticSearchResponse.zero
      = (Searcher.ElasticSearchResponse.zero, none) ∧
    Searcher.decodeAndReport emptyObjectBody
      = [.info "Results found" (some (.float ⟨[]⟩))] ∧
    Searcher.decodeAndReport emptyHitBody
      = .info "Results found" (some (.float ⟨[]⟩)) :: Searcher.reportHit Searcher.Hit.zero := by
  refine ⟨?_, ?_, ?_⟩ <;> decide

/-- What follows the first JSON value of a body is not read: the empty object
followed by other text decodes like the empty object. -/
theorem decode_leaves_trailing_text :
    malformedBody trailingTextBody = false ∧
    Searcher.decodeAndReport trailingTextBody
      = [.info "Results found" (some (.float ⟨[]⟩))] := by
  constructor <;> decide

/-- A field counts as present under any key the decoder takes for it, and at
every level: `HITS` stands for `hits` and `Value` for `value`, and a string
there is malformed. -/
theorem malformedBody_mistypedTotal :
    malformedBody mistypedTotalBody = true ∧
    (Decode Searcher.ElasticSearchResponse.store mistypedTotalBody
      Searcher.ElasticSearchResponse.zero).2 = some (typeError "string" "float64") := by
  constructor <;> decide

/-- C8 (amended): a body that does not start with a JSON value, or whose first
JSON value has a nested field of the envelope present with a value that does
not fit its type, makes the decode step return an error, and nothing but that
error is reported. -/
theorem C8_malformed_body_is_rejected (body : GoString) (h : malformedBody body = true) :
    ∃ err,
      (Decode Searcher.ElasticSearchResponse.store body
        Searcher.ElasticSearchResponse.zero).2 = some err ∧
      Searcher.decodeAndReport body
        = [.error "unable to decode response" (some (.err err))] := by
  have hsome : (Decode Searcher.ElasticSearchResponse.store body
      Searcher.ElasticSearchResponse.zero).2.isSome = true := by
    unfold malformedBody at h
    unfold Decode
    cases hr : readValue body with
    | none => rfl
    | some j =>
      rw [hr] at h
      exact fails_envelope j h _
  obtain ⟨err, herr⟩ := Option.isSome_iff_exists.mp hsome
  refine ⟨err, herr, ?_⟩
  unfold Searcher.decodeAndReport
  rw [herr]

/-- C8 (amended), at a response whose hit has a string for `num`. -/
theorem C8_malformed_body_witness :
    malformedBody mistypedNumBody = true ∧
    ∃ err,
      (Decode Searcher.ElasticSearchResponse.store mistypedNumBody
        Searcher.ElasticSearchResponse.zero).2 = some err ∧
      Searcher.decodeAndReport mistypedNumBody
        = [.error "unable to decode response" (some (.err err))] :=
  ⟨by decide, C8_malformed_body_is_rejected mistypedNumBody (by decide)⟩

end Xkcd
